import Mathlib

/-!
# RePlAce Nesterov base layer: bin grid, overlap deposition, filler synthesis,
density sizing, the weighted-average wirelength model and the routing tile grid

A shallow embedding of `src/nesterovBase.cpp` and of the tile grid of
`src/routeBase.cpp`, and theorems about it.

Conventions of the embedding

* C++ `int` / `int32_t` values are `Int`; where the source computes a product or a
  narrowing conversion in 32 bits the result is passed through `wrapInt32`
  (two's-complement wrap-around, the behaviour of the mainstream compilers).
* `int64_t` accumulators are unbounded `Int`.
* `float` parameters (`targetDensity`) are given as the ratio of two integers
  (`Ratio`) and converted to the nearest `float`.  In the bin-grid and filler
  computations every `float` operation (`static_cast<float>`, the implicit conversion
  of an integer operand, `/`, `*`) rounds its result to 24 significant bits, to the
  nearest value and to the even one in a tie; `std::round`, `ceil` and the conversion
  to an integer type are the exact operations on the rounded value.  The exponent
  range of the format is not bounded, and a value too large for the integer type it is
  converted to keeps its mathematical value.
* `float` values of the wirelength and density-scale computations are exact
  rationals (`ℚ`): rounding, overflow and underflow of the machine format are not
  represented.  A division whose divisor is zero has no finite value; a quantity that
  may be the result of such a division is an `Option ℚ`, with `none` for "not a
  finite number".
* Pointers into `gPinStor_`, `gNetStor_` are positions in the corresponding list.
* Accesses `bins_[k]` outside the vector and integer divisions by zero are undefined
  behaviour in the source; the embedding reports them as a `Fault`.
  `Fault.fillerAreaNegative` is the `exit(1)` of `initFillerGCells`, and
  `Fault.outOfFuel` is the exhaustion of a loop bound of the embedding (it is shown
  never to occur).
* Addresses of the instances, pins and nets of the placer data base are natural
  numbers; a `std::unordered_map` from such addresses is the list of its insertions.
* A line of the route file is its length and its whitespace-separated tokens;
  `sscanf`, `strtok`, `atoi` and `atof` act on tokens.  The undefined and fatal
  outcomes of the route reader and of `initTiles` are a `RouteFault`.
-/

namespace replace

/-! ## Machine arithmetic -/

/-- Two's-complement reduction of an integer to the `int32_t` range. -/
def wrapInt32 (z : Int) : Int :=
  (z + 2147483648) % 4294967296 - 2147483648

/-- Reduction of an integer to the `uint32_t` range. -/
def wrapUInt32 (z : Int) : Int :=
  z % 4294967296

/-- Reduction of an integer to the range of a 64-bit unsigned integer. -/
def wrapUInt64 (z : Int) : Int :=
  z % 18446744073709551616

/-- The ratio `num / den` of two integers: a decimal constant before its conversion to
`float`, or a `float` value (an integer over a power of two). -/
structure Ratio where
  num : Int
  den : Int
deriving DecidableEq, Repr

/-- The value `std::round (p / q)`: nearest integer, halves away from zero. -/
def roundDiv (p q : Int) : Int :=
  if 0 ≤ p * q then (2 * p.natAbs + q.natAbs : Int) / (2 * q.natAbs)
  else -((2 * p.natAbs + q.natAbs : Int) / (2 * q.natAbs))

/-- The value `ceil (p / q)` for a positive divisor `q`. -/
def ceilDiv (p q : Int) : Int :=
  -((-p) / q)

/-! ### Single-precision arithmetic

A `float` value is the `Ratio` of an integer and a power of two.  The arithmetic
operations of the source on `float` operands are the exact operation followed by the
rounding of the result to 24 significant bits, to the nearest value and to the even
one in a tie. -/

/-- The number of binary digits of `n`, counted in at most `fuel` steps. -/
def bitLengthLoop : Nat → Nat → Nat
  | 0, _ => 0
  | fuel + 1, n => if n = 0 then 0 else bitLengthLoop fuel (n / 2) + 1

/-- The number of binary digits of `n`. -/
def bitLength (n : Nat) : Nat := bitLengthLoop n n

/-- The quotient `a / b` of two naturals rounded to the nearest natural, a tie to the
even one. -/
def divRoundEven (a b : Nat) : Nat :=
  if 2 * (a % b) < b then a / b
  else if b < 2 * (a % b) then a / b + 1
  else if a / b % 2 = 0 then a / b
  else a / b + 1

/-- The significand `m` and the exponent `e` of the `float` nearest to `p / q`: the
exponent is the one with `2^23 ≤ p / (q * 2^e) < 2^24`, and `m` is that quotient
rounded.  The pair `(0, 0)` stands for zero, also when `q` is zero. -/
def roundToFloat (p q : Nat) : Nat × Int :=
  if p = 0 ∨ q = 0 then (0, 0)
  else
    let e0 : Int := (bitLength p : Int) - (bitLength q : Int) - 24
    let e : Int :=
      if p * 2 ^ (-e0).toNat < 16777216 * (q * 2 ^ e0.toNat) then e0 else e0 + 1
    (divRoundEven (p * 2 ^ (-e).toNat) (q * 2 ^ e.toNat), e)

/-- The `float` nearest to the ratio `r`, as a ratio with a positive denominator
(conversion of an integer or of a decimal constant to `float`, and the rounding that
ends every `float` operation). -/
def Ratio.toFloat (r : Ratio) : Ratio :=
  let v := roundToFloat r.num.natAbs r.den.natAbs
  if 0 ≤ r.num * r.den then ⟨(v.1 : Int) * 2 ^ v.2.toNat, 2 ^ (-v.2).toNat⟩
  else ⟨-((v.1 : Int) * 2 ^ v.2.toNat), 2 ^ (-v.2).toNat⟩

/-- The conversion `static_cast<float>(z)` of an integer, also the implicit one of an
integer operand of a `float` operation. -/
def floatOfInt (z : Int) : Ratio := Ratio.toFloat ⟨z, 1⟩

/-- The `float` quotient `a / b` of two `float` values. -/
def floatDiv (a b : Ratio) : Ratio := Ratio.toFloat ⟨a.num * b.den, a.den * b.num⟩

/-- The `float` product `a * b` of two `float` values. -/
def floatMul (a b : Ratio) : Ratio := Ratio.toFloat ⟨a.num * b.num, a.den * b.den⟩

/-- The value `ceil (r)` of a `float` value. -/
def Ratio.ceil (r : Ratio) : Int := ceilDiv r.num r.den

/-- The value `std::round (r)` of a `float` value. -/
def Ratio.round (r : Ratio) : Int := roundDiv r.num r.den

/-- The conversion of a `float` value to an integer type: the fractional part is
dropped. -/
def Ratio.trunc (r : Ratio) : Int := Int.tdiv r.num r.den

/-- Undefined or fatal outcomes of the source. -/
inductive Fault where
  | divisionByZero
  | outOfBounds
  | fillerAreaNegative
  | outOfFuel
  | notFinite
deriving DecidableEq, Repr

/-! ## Data model -/

/-- The geometry of `Instance` (defined in `placerBase`), as read through
`lx()`, `ly()`, `ux()`, `uy()`. -/
structure Instance where
  lx : Int
  ly : Int
  ux : Int
  uy : Int
deriving DecidableEq, Repr

/-- Modelled from the spec: `Instance::dx` of `placerBase`, which is not part of the
sources at hand; the specification defines the size of a rectangle as `dx = ux - lx`. -/
def Instance.dx (inst : Instance) : Int := inst.ux - inst.lx

/-- Modelled from the spec: `Instance::dy` of `placerBase`, which is not part of the
sources at hand; the specification defines the size of a rectangle as `dy = uy - ly`. -/
def Instance.dy (inst : Instance) : Int := inst.uy - inst.ly

/-- The state of `GCell`: the instances it mirrors (by identifier), the G-pins it
points at (by position in `gPinStor_`), the placement box, the density box and the
density scale. -/
structure GCell where
  insts : List Nat := []
  gPins : List Nat := []
  lx : Int := 0
  ly : Int := 0
  ux : Int := 0
  uy : Int := 0
  dLx : Int := 0
  dLy : Int := 0
  dUx : Int := 0
  dUy : Int := 0
  densityScale : ℚ := 0
deriving DecidableEq, Repr

/-- Embedding of `GCell::isInstance`. -/
def GCell.isInstance (c : GCell) : Bool := c.insts.length == 1

/-- Embedding of `GCell::isFiller`. -/
def GCell.isFiller (c : GCell) : Bool := c.insts.length == 0

/-- Embedding of `GCell::dx`. -/
def GCell.dx (c : GCell) : Int := c.ux - c.lx

/-- Embedding of `GCell::dy`. -/
def GCell.dy (c : GCell) : Int := c.uy - c.ly

/-- The state of `GPin`: the pins it mirrors (`pins_`, by address), the owning G-cell
and the G-net (positions in `gCellStor_` and `gNetStor_`, `none` for `nullptr`), the
offsets, the position and the cached exponential terms with their flags. -/
structure GPin where
  pins : List Nat := []
  gCell : Option Nat := none
  gNet : Option Nat := none
  offsetCx : Int := 0
  offsetCy : Int := 0
  cx : Int := 0
  cy : Int := 0
  maxExpSumX : ℚ := 0
  maxExpSumY : ℚ := 0
  minExpSumX : ℚ := 0
  minExpSumY : ℚ := 0
  hasMaxExpSumX : Bool := false
  hasMaxExpSumY : Bool := false
  hasMinExpSumX : Bool := false
  hasMinExpSumY : Bool := false
deriving DecidableEq, Repr

/-- The state of `GNet`: the nets it mirrors (`nets_`, by address), its G-pins
(positions in `gPinStor_`), the bounding box, the eight accumulators and the flag
`isDontCare_`. -/
structure GNet where
  nets : List Nat := []
  gPins : List Nat := []
  lx : Int := 0
  ly : Int := 0
  ux : Int := 0
  uy : Int := 0
  waExpMinSumStorX : ℚ := 0
  waXExpMinSumStorX : ℚ := 0
  waExpMaxSumStorX : ℚ := 0
  waXExpMaxSumStorX : ℚ := 0
  waExpMinSumStorY : ℚ := 0
  waYExpMinSumStorY : ℚ := 0
  waExpMaxSumStorY : ℚ := 0
  waYExpMaxSumStorY : ℚ := 0
  isDontCare_ : Bool := false
deriving DecidableEq, Repr

/-- The integer state of `Bin`. -/
structure Bin where
  x : Int := 0
  y : Int := 0
  lx : Int := 0
  ly : Int := 0
  ux : Int := 0
  uy : Int := 0
  nonPlaceArea : Int := 0
  placedArea : Int := 0
  fillerArea : Int := 0
deriving DecidableEq, Repr

/-- Embedding of `Bin::Bin(int x, int y, int lx, int ly, int ux, int uy)`. -/
def Bin.mk6 (x y lx ly ux uy : Int) : Bin :=
  { x := x, y := y, lx := lx, ly := ly, ux := ux, uy := uy }

/-- What `BinGrid` and `NesterovBase` read from the `PlacerBase` collaborator. -/
structure PlacerBase where
  insts : List Instance := []
  placeInsts : List Instance := []
  nonPlaceInsts : List Instance := []
  placeInstsArea : Int := 0
  nonPlaceInstsArea : Int := 0
  coreLx : Int := 0
  coreLy : Int := 0
  coreUx : Int := 0
  coreUy : Int := 0
deriving DecidableEq, Repr

/-- Modelled from the spec: `Die::coreDx` of `placerBase`, which is not part of the
sources at hand (`dx = ux - lx`). -/
def PlacerBase.coreDx (pb : PlacerBase) : Int := pb.coreUx - pb.coreLx

/-- Modelled from the spec: `Die::coreDy` of `placerBase`, which is not part of the
sources at hand (`dy = uy - ly`). -/
def PlacerBase.coreDy (pb : PlacerBase) : Int := pb.coreUy - pb.coreLy

/-- The fields of `NesterovBaseVars` that the modelled routines read. -/
structure NesterovBaseVars where
  targetDensity : Ratio := ⟨1, 1⟩
  isSetBinCntX : Bool := false
  isSetBinCntY : Bool := false
  binCntX : Int := 0
  binCntY : Int := 0
  minWireLengthForceBar : ℚ := -300
deriving DecidableEq, Repr

/-- The state of `BinGrid`; `bins` is `binStor_` (and `bins_`, which points at its
elements in the same order). -/
structure BinGrid where
  lx : Int := 0
  ly : Int := 0
  ux : Int := 0
  uy : Int := 0
  binCntX : Int := 0
  binCntY : Int := 0
  binSizeX : Int := 0
  binSizeY : Int := 0
  targetDensity : Ratio := ⟨0, 1⟩
  isSetBinCntX : Bool := false
  isSetBinCntY : Bool := false
  bins : List Bin := []
deriving DecidableEq, Repr

/-! ## Overlap areas -/

/-- The common body of the three overlap routines on the boxes
`(bLx, bLy, bUx, bUy)` and `(cLx, cLy, cUx, cUy)`: the differences and their
product are `int32_t`. -/
def overlapBody (bLx bLy bUx bUy cLx cLy cUx cUy : Int) : Int :=
  let rectLx := max bLx cLx
  let rectLy := max bLy cLy
  let rectUx := min bUx cUx
  let rectUy := min bUy cUy
  if rectLx ≥ rectUx ∨ rectLy ≥ rectUy then 0
  else wrapInt32 (wrapInt32 (rectUx - rectLx) * wrapInt32 (rectUy - rectLy))

/-- Embedding of `getOverlapArea(Bin*, GCell*)`. -/
def getOverlapArea (bin : Bin) (cell : GCell) : Int :=
  overlapBody bin.lx bin.ly bin.ux bin.uy cell.lx cell.ly cell.ux cell.uy

/-- Embedding of `getOverlapDensityArea(Bin*, GCell*)`. -/
def getOverlapDensityArea (bin : Bin) (cell : GCell) : Int :=
  overlapBody bin.lx bin.ly bin.ux bin.uy cell.dLx cell.dLy cell.dUx cell.dUy

/-- Embedding of `getOverlapArea(Bin*, Instance*)`. -/
def getOverlapAreaInst (bin : Bin) (inst : Instance) : Int :=
  overlapBody bin.lx bin.ly bin.ux bin.uy inst.lx inst.ly inst.ux inst.uy

/-- The exact overlap area of two boxes, as the specification writes it. -/
def overlapAreaSpec (bLx bLy bUx bUy cLx cLy cUx cUy : Int) : Int :=
  max 0 (min bUx cUx - max bLx cLx) * max 0 (min bUy cUy - max bLy cLy)

/-- Embedding of `fastModulo`. -/
def fastModulo (input ceil : Int) : Int :=
  if input ≥ ceil then Int.tmod input ceil else input

/-! ## BinGrid -/

/-- The integers `lo, lo+1, ..., hi` visited by `for(int i = lo; i <= hi; i++)`. -/
def idxRange (lo hi : Int) : List Int :=
  (List.range (hi + 1 - lo).toNat).map (fun (k : Nat) => lo + (k : Int))

/-- The search loop of `BinGrid::initBins` (`for(foundBinCnt = 2; foundBinCnt <= 1024;
foundBinCnt *= 2)` with its `break`), started at `k` with `fuel` iterations allowed;
the result is the value of `foundBinCnt` after the loop. -/
def foundBinCntLoop (idealBinCnt : Int) : Nat → Int → Option Int
  | 0, _ => none
  | fuel + 1, k =>
    if k ≤ 1024 then
      if k * k ≤ idealBinCnt ∧ 4 * k * k > idealBinCnt then some k
      else foundBinCntLoop idealBinCnt fuel (k * 2)
    else some k

/-- The value of `foundBinCnt` chosen by `BinGrid::initBins` for `idealBinCnt`. -/
def foundBinCnt (idealBinCnt : Int) : Option Int :=
  foundBinCntLoop idealBinCnt 11 2

/-- The value of `idealBinCnt` in `BinGrid::initBins`. -/
def idealBinCnt (pb : PlacerBase) (bg : BinGrid) : Except Fault Int :=
  let totalBinArea := (bg.ux - bg.lx) * (bg.uy - bg.ly)
  if pb.placeInsts.length = 0 then .error .divisionByZero
  else
    let averagePlaceInstArea :=
      wrapInt32 (Int.tdiv pb.placeInstsArea (pb.placeInsts.length : Int))
    let idealBinArea :=
      (floatDiv (floatOfInt averagePlaceInstArea) bg.targetDensity.toFloat).round
    if idealBinArea = 0 then .error .divisionByZero
    else .ok (wrapInt32 (Int.tdiv totalBinArea idealBinArea))

/-- The loop of `BinGrid::initBins` over `binStor_`: `n` bins remain to be written and
the loop variables are `x`, `y`, `idxX`, `idxY`. -/
def initBinsLoop (lx ux uy binSizeX binSizeY : Int) :
    Nat → Int → Int → Int → Int → List Bin
  | 0, _, _, _, _ => []
  | n + 1, x, y, idxX, idxY =>
    let sizeX := if x + binSizeX > ux then ux - x else binSizeX
    let sizeY := if y + binSizeY > uy then uy - y else binSizeY
    let bin := Bin.mk6 idxX idxY x y (x + sizeX) (y + sizeY)
    if x + binSizeX > ux then
      bin :: initBinsLoop lx ux uy binSizeX binSizeY n lx (y + binSizeY) 0 (idxY + 1)
    else
      bin :: initBinsLoop lx ux uy binSizeX binSizeY n (x + binSizeX) y (idxX + 1) idxY

/-- The effect of `f` on the element at position `k`. -/
def modifyNth (f : Bin → Bin) : Nat → List Bin → List Bin
  | _, [] => []
  | 0, b :: bs => f b :: bs
  | k + 1, b :: bs => b :: modifyNth f k bs

/-- The statement `Bin* bin = bins_[k]; f(bin);`. -/
def updateAt (f : Bin → Bin) (bins : List Bin) (k : Int) : Except Fault (List Bin) :=
  if 0 ≤ k ∧ k < (bins.length : Int) then .ok (modifyNth f k.toNat bins)
  else .error .outOfBounds

/-- The nested loops `for(i = pairX.first; i <= pairX.second; i++) for(j = pairY.first;
j <= pairY.second; j++) f(bins_[j * binCntX_ + i])`. -/
def depositLoop (binCntX : Int) (f : Bin → Bin) (pairX pairY : Int × Int)
    (bins : List Bin) : Except Fault (List Bin) :=
  (idxRange pairX.1 pairX.2).foldlM
    (fun bs i => (idxRange pairY.1 pairY.2).foldlM
      (fun bs2 j => updateAt f bs2 (j * binCntX + i)) bs) bins

/-- The index pair computed by all of `getMinMaxIdxX`, `getMinMaxIdxY`: `lo`, `hi` are
the box bounds on the axis, `origin` the grid origin and `binSize` the bin size. -/
def getMinMaxIdx (lo hi origin binSize : Int) : Except Fault (Int × Int) :=
  if binSize = 0 then .error .divisionByZero
  else
    let lowerIdx := Int.tdiv (lo - origin) binSize
    let upperIdx :=
      if fastModulo (hi - origin) binSize = 0 then Int.tdiv (hi - origin) binSize
      else Int.tdiv (hi - origin) binSize + 1
    .ok (lowerIdx, upperIdx)

/-- Embedding of `BinGrid::getMinMaxIdxX(GCell*)`. -/
def BinGrid.getMinMaxIdxX (bg : BinGrid) (gcell : GCell) : Except Fault (Int × Int) :=
  getMinMaxIdx gcell.lx gcell.ux bg.lx bg.binSizeX

/-- Embedding of `BinGrid::getMinMaxIdxY(GCell*)`. -/
def BinGrid.getMinMaxIdxY (bg : BinGrid) (gcell : GCell) : Except Fault (Int × Int) :=
  getMinMaxIdx gcell.ly gcell.uy bg.ly bg.binSizeY

/-- Embedding of `BinGrid::getMinMaxIdxX(Instance*)`. -/
def BinGrid.getMinMaxIdxXInst (bg : BinGrid) (inst : Instance) :
    Except Fault (Int × Int) :=
  getMinMaxIdx inst.lx inst.ux bg.lx bg.binSizeX

/-- Embedding of `BinGrid::getMinMaxIdxY(Instance*)`. -/
def BinGrid.getMinMaxIdxYInst (bg : BinGrid) (inst : Instance) :
    Except Fault (Int × Int) :=
  getMinMaxIdx inst.ly inst.uy bg.ly bg.binSizeY

/-- Embedding of `Bin::addNonPlaceArea(getOverlapArea(bin, inst))`. -/
def addNonPlaceArea (inst : Instance) (bin : Bin) : Bin :=
  { bin with nonPlaceArea := bin.nonPlaceArea + getOverlapAreaInst bin inst }

/-- Embedding of `Bin::addPlacedArea(getOverlapArea(bin, cell))`. -/
def addPlacedArea (cell : GCell) (bin : Bin) : Bin :=
  { bin with placedArea := bin.placedArea + getOverlapArea bin cell }

/-- Embedding of `Bin::addFillerArea(getOverlapArea(bin, cell))`. -/
def addFillerArea (cell : GCell) (bin : Bin) : Bin :=
  { bin with fillerArea := bin.fillerArea + getOverlapArea bin cell }

/-- Embedding of `Bin::addPlacedArea(getOverlapDensityArea(bin, cell))`. -/
def addPlacedDensityArea (cell : GCell) (bin : Bin) : Bin :=
  { bin with placedArea := bin.placedArea + getOverlapDensityArea bin cell }

/-- Embedding of `Bin::addFillerArea(getOverlapDensityArea(bin, cell))`. -/
def addFillerDensityArea (cell : GCell) (bin : Bin) : Bin :=
  { bin with fillerArea := bin.fillerArea + getOverlapDensityArea bin cell }

/-- The first loop of the two G-cell routines: `setPlacedArea(0); setFillerArea(0)`. -/
def clearGCellArea (bin : Bin) : Bin :=
  { bin with placedArea := 0, fillerArea := 0 }

/-- The body of the loop over the fixed instances in
`BinGrid::updateBinsNonPlaceArea`. -/
def nonPlaceAreaStep (bg : BinGrid) (bs : List Bin) (inst : Instance) :
    Except Fault (List Bin) := do
  let pairX ← bg.getMinMaxIdxXInst inst
  let pairY ← bg.getMinMaxIdxYInst inst
  depositLoop bg.binCntX (addNonPlaceArea inst) pairX pairY bs

/-- The first loop of `BinGrid::updateBinsNonPlaceArea`: `setNonPlaceArea(0)`. -/
def clearNonPlaceArea (bin : Bin) : Bin :=
  { bin with nonPlaceArea := 0 }

/-- Embedding of `BinGrid::updateBinsNonPlaceArea`. -/
def BinGrid.updateBinsNonPlaceArea (bg : BinGrid) (pb : PlacerBase) :
    Except Fault BinGrid := do
  let bins ← pb.nonPlaceInsts.foldlM (nonPlaceAreaStep bg) (bg.bins.map clearNonPlaceArea)
  pure { bg with bins := bins }

/-- The body of the loop over `cells` in `BinGrid::updateBinsGCellArea`. -/
def gCellAreaStep (bg : BinGrid) (bs : List Bin) (cell : GCell) :
    Except Fault (List Bin) := do
  let pairX ← bg.getMinMaxIdxX cell
  let pairY ← bg.getMinMaxIdxY cell
  if cell.isInstance then depositLoop bg.binCntX (addPlacedArea cell) pairX pairY bs
  else if cell.isFiller then depositLoop bg.binCntX (addFillerArea cell) pairX pairY bs
  else pure bs

/-- Embedding of `BinGrid::updateBinsGCellArea`. -/
def BinGrid.updateBinsGCellArea (bg : BinGrid) (cells : List GCell) :
    Except Fault BinGrid := do
  let bins ← cells.foldlM (gCellAreaStep bg) (bg.bins.map clearGCellArea)
  pure { bg with bins := bins }

/-- The body of the loop over `cells` in `BinGrid::updateBinsGCellDensityArea`. -/
def gCellDensityAreaStep (bg : BinGrid) (bs : List Bin) (cell : GCell) :
    Except Fault (List Bin) := do
  let pairX ← bg.getMinMaxIdxX cell
  let pairY ← bg.getMinMaxIdxY cell
  if cell.isInstance then
    depositLoop bg.binCntX (addPlacedDensityArea cell) pairX pairY bs
  else if cell.isFiller then
    depositLoop bg.binCntX (addFillerDensityArea cell) pairX pairY bs
  else pure bs

/-- Embedding of `BinGrid::updateBinsGCellDensityArea`. -/
def BinGrid.updateBinsGCellDensityArea (bg : BinGrid) (cells : List GCell) :
    Except Fault BinGrid := do
  let bins ← cells.foldlM (gCellDensityAreaStep bg) (bg.bins.map clearGCellArea)
  pure { bg with bins := bins }

/-- The value `ceil(static_cast<float>(d) / binCnt)` of `BinGrid::initBins`: the
extent `d` and the bin count are converted to `float`, and the quotient is a `float`
quotient. -/
def binSizeOf (d binCnt : Int) : Int :=
  (floatDiv (floatOfInt d) (floatOfInt binCnt)).ceil

/-- The first part of `BinGrid::initBins` (up to the computation of `binSizeX_`,
`binSizeY_`): the bin counts and the bin sizes.  With a bin count of zero the `float`
quotient is not finite. -/
def BinGrid.initBinCnt (bg : BinGrid) (pb : PlacerBase) : Except Fault BinGrid := do
  let cnt ← idealBinCnt pb bg
  match foundBinCnt cnt with
  | none => .error .outOfFuel
  | some found =>
    let binCntX := if bg.isSetBinCntX then bg.binCntX else found
    let binCntY := if bg.isSetBinCntY then bg.binCntY else found
    if binCntX = 0 ∨ binCntY = 0 then .error .notFinite
    else
      let binSizeX := binSizeOf (bg.ux - bg.lx) binCntX
      let binSizeY := binSizeOf (bg.uy - bg.ly) binCntY
      pure { bg with binCntX := binCntX, binCntY := binCntY,
                     binSizeX := binSizeX, binSizeY := binSizeY }

/-- The second part of `BinGrid::initBins`: `binStor_.resize(binCntX_ * binCntY_)` and
the loop that writes the bins. -/
def BinGrid.initBinStor (bg : BinGrid) : BinGrid :=
  let n := (bg.binCntX * bg.binCntY).toNat
  { bg with bins := initBinsLoop bg.lx bg.ux bg.uy bg.binSizeX bg.binSizeY n bg.lx bg.ly 0 0 }

/-- Embedding of `BinGrid::initBins`, on a grid whose coordinates, target density and
user bin counts have been set. -/
def BinGrid.initBins (bg : BinGrid) (pb : PlacerBase) : Except Fault BinGrid := do
  let bg1 ← bg.initBinCnt pb
  bg1.initBinStor.updateBinsNonPlaceArea pb

/-! ## Filler synthesis and initialisation -/

/-- Embedding of `GCell::GCell(int cx, int cy, int dx, int dy)`: a filler cell. -/
def GCell.mkFiller (cx cy dx dy : Int) : GCell :=
  { lx := cx - Int.tdiv dx 2, ly := cy - Int.tdiv dy 2,
    ux := cx + Int.tdiv dx 2, uy := cy + Int.tdiv dy 2 }

/-- Embedding of `GCell::GCell(Instance* inst)` for the instance with identifier `i`. -/
def GCell.mkInstance (i : Nat) : GCell :=
  { insts := [i] }

/-- The loop `for(int i=minIdx; i<maxIdx; i++) sum += stor[i]` with a `uint32_t`
accumulator. -/
def trimmedSum (stor : List Int) (minIdx maxIdx : Nat) : Int :=
  ((stor.drop minIdx).take (maxIdx - minIdx)).foldl (fun acc v => wrapUInt32 (acc + v)) 0

/-- The filler cells appended by the last loop of `NesterovBase::initFillerGCells`;
`randVal k` is the `k`-th value drawn from the `mt19937` generator (the draws of
one cell are taken in the order the arguments are written). -/
def fillerCells (pb : PlacerBase) (randVal : Nat → Int) (avgDx avgDy : Int) :
    Nat → Nat → Except Fault (List GCell)
  | 0, _ => .ok []
  | n + 1, i =>
    if wrapUInt64 pb.coreDx = 0 ∨ wrapUInt64 pb.coreDy = 0 then .error .divisionByZero
    else do
      let cx := wrapInt32 (randVal (2 * i) % wrapUInt64 pb.coreDx + pb.coreLx)
      let cy := wrapInt32 (randVal (2 * i + 1) % wrapUInt64 pb.coreDy + pb.coreLy)
      let rest ← fillerCells pb randVal avgDx avgDy n (i + 1)
      pure (GCell.mkFiller cx cy avgDx avgDy :: rest)

/-- The value of `totalFillerArea` in `NesterovBase::initFillerGCells`:
`movableArea - placeInstsArea`, where `movableArea` is the integer part of the `float`
product `whiteSpaceArea * targetDensity`, for which `whiteSpaceArea` is converted to
`float`. -/
def totalFillerArea (nbVars : NesterovBaseVars) (pb : PlacerBase) : Int :=
  let coreArea := pb.coreDx * pb.coreDy
  let whiteSpaceArea := coreArea - pb.nonPlaceInstsArea
  let movableArea :=
    (floatMul (floatOfInt whiteSpaceArea) nbVars.targetDensity.toFloat).trunc
  movableArea - pb.placeInstsArea

/-- Embedding of `NesterovBase::initFillerGCells`: the filler cells it appends to
`gCellStor_`.
The indices `size * 0.10` and `size * 0.90` are the integer parts `size / 10` and
`size * 9 / 10`. -/
def initFillerGCells (nbVars : NesterovBaseVars) (pb : PlacerBase)
    (randVal : Nat → Int) : Except Fault (List GCell) :=
  let dxStor := (pb.placeInsts.map Instance.dx).insertionSort (fun a b => a ≤ b)
  let dyStor := (pb.placeInsts.map Instance.dy).insertionSort (fun a b => a ≤ b)
  let minIdx := dxStor.length / 10
  let maxIdx := dxStor.length * 9 / 10
  let dxSum := trimmedSum dxStor minIdx maxIdx
  let dySum := trimmedSum dyStor minIdx maxIdx
  if maxIdx - minIdx = 0 then .error .divisionByZero
  else
    let avgDx := wrapInt32 (dxSum / ((maxIdx - minIdx : Nat) : Int))
    let avgDy := wrapInt32 (dySum / ((maxIdx - minIdx : Nat) : Int))
    if totalFillerArea nbVars pb < 0 then .error .fillerAreaNegative
    else if wrapInt32 (avgDx * avgDy) = 0 then .error .divisionByZero
    else
      let fillerCnt :=
        wrapInt32 (Int.tdiv (totalFillerArea nbVars pb) (wrapInt32 (avgDx * avgDy)))
      fillerCells pb randVal avgDx avgDy fillerCnt.toNat 0

/-- The calls `setBinCntX`, `setBinCntY`, `setCoordi` and `setTargetDensity` that
`NesterovBase::init` makes on its fresh `BinGrid` before `initBins`. -/
def BinGrid.configure (nbVars : NesterovBaseVars) (pb : PlacerBase) : BinGrid :=
  { lx := pb.coreLx, ly := pb.coreLy, ux := pb.coreUx, uy := pb.coreUy,
    binCntX := if nbVars.isSetBinCntX then nbVars.binCntX else 0,
    binCntY := if nbVars.isSetBinCntY then nbVars.binCntY else 0,
    isSetBinCntX := nbVars.isSetBinCntX,
    isSetBinCntY := nbVars.isSetBinCntY,
    targetDensity := nbVars.targetDensity }

/-- The G-cell storage, the bin grid, the G-pin and G-net storage, the variables and
the three maps of `NesterovBase`.  A map is the list of its insertions, the latest
first: a pair `(a, k)` sends the address `a` of a placer entity to the position `k`
in the storage vector. -/
structure NesterovBase where
  gCellStor : List GCell := []
  bg : BinGrid := {}
  gPinStor : List GPin := []
  gNetStor : List GNet := []
  nbVars : NesterovBaseVars := {}
  gCellMap : List (Nat × Nat) := []
  gPinMap : List (Nat × Nat) := []
  gNetMap : List (Nat × Nat) := []
deriving DecidableEq, Repr

/-- Embedding of `NesterovBase::init` up to and including `bg_.initBins()`, as far as
the G-cell storage and the bin grid are concerned (the G-pin and G-net storage and the
density sizing that follows are not part of this function). -/
def NesterovBase.init (nbVars : NesterovBaseVars) (pb : PlacerBase)
    (randVal : Nat → Int) : Except Fault NesterovBase := do
  let instCells := (List.range pb.insts.length).map GCell.mkInstance
  let fillers ← initFillerGCells nbVars pb randVal
  let bg ← (BinGrid.configure nbVars pb).initBins pb
  pure { gCellStor := instCells ++ fillers, bg := bg }

/-! ## Specification-side definitions and scenarios -/

/-- The property the specification asks of the chosen bin count `k` for the ideal bin
count `c`: a power of two in `2, 4, ..., 1024` with `k² ≤ c < (2k)²`. -/
def BinCntSpec (c k : Int) : Prop :=
  (∃ e : Nat, 1 ≤ e ∧ e ≤ 10 ∧ k = 2 ^ e) ∧ k * k ≤ c ∧ c < (2 * k) * (2 * k)

/-- Scenario S1: the core `0..1000 x 0..1000` with four unit-square placeable
instances at its corners and no fixed instance. -/
def scenarioS1 : PlacerBase :=
  { insts := [⟨0, 0, 1, 1⟩, ⟨999, 0, 1000, 1⟩, ⟨0, 999, 1, 1000⟩, ⟨999, 999, 1000, 1000⟩],
    placeInsts :=
      [⟨0, 0, 1, 1⟩, ⟨999, 0, 1000, 1⟩, ⟨0, 999, 1, 1000⟩, ⟨999, 999, 1000, 1000⟩],
    placeInstsArea := 4,
    coreLx := 0, coreLy := 0, coreUx := 1000, coreUy := 1000 }

/-- A placer with one unit placeable instance and the core `0..w x 0..h`. -/
def smallCore (w h : Int) : PlacerBase :=
  { insts := [⟨0, 0, 1, 1⟩], placeInsts := [⟨0, 0, 1, 1⟩], placeInstsArea := 1,
    coreLx := 0, coreLy := 0, coreUx := w, coreUy := h }

/-- The variables of a run with target density 1 and user bin counts `nx`, `ny`. -/
def userBinCnt (nx ny : Int) : NesterovBaseVars :=
  { isSetBinCntX := true, isSetBinCntY := true, binCntX := nx, binCntY := ny }

/-- What the G-cell area routines must not touch in a bin: grid coordinates, box and
`nonPlaceArea`. -/
def Bin.frame (b : Bin) : Int × Int × Int × Int × Int × Int × Int :=
  (b.x, b.y, b.lx, b.ly, b.ux, b.uy, b.nonPlaceArea)

/-- Sum of `placedArea` over the bins. -/
def sumPlacedArea (bins : List Bin) : Int := (bins.map Bin.placedArea).sum

/-- Sum of `fillerArea` over the bins. -/
def sumFillerArea (bins : List Bin) : Int := (bins.map Bin.fillerArea).sum

/-- Sum of `nonPlaceArea` over the bins. -/
def sumNonPlaceArea (bins : List Bin) : Int := (bins.map Bin.nonPlaceArea).sum

/-- The grid of the deposition examples: core `0..5 x 0..11`, user bin counts
`2 x 4`, hence bins of size `3 x 3` (the last column and row are clipped). -/
def exampleGrid : Except Fault BinGrid :=
  (BinGrid.configure (userBinCnt 2 4) (smallCore 5 11)).initBins (smallCore 5 11)

/-- A hand-written grid of `2 x 2` bins of size `3 x 3` on the core `0..5 x 0..5`,
with non-zero area fields. -/
def frameGrid : BinGrid :=
  { ux := 5, uy := 5, binCntX := 2, binCntY := 2, binSizeX := 3, binSizeY := 3,
    targetDensity := ⟨1, 1⟩,
    bins := [{ x := 0, y := 0, lx := 0, ly := 0, ux := 3, uy := 3,
               nonPlaceArea := 2, placedArea := 7, fillerArea := 1 },
             { x := 1, y := 0, lx := 3, ly := 0, ux := 5, uy := 3,
               nonPlaceArea := 0, placedArea := 4, fillerArea := 0 },
             { x := 0, y := 1, lx := 0, ly := 3, ux := 3, uy := 5,
               nonPlaceArea := 1, placedArea := 0, fillerArea := 5 },
             { x := 1, y := 1, lx := 3, ly := 3, ux := 5, uy := 5,
               nonPlaceArea := 0, placedArea := 0, fillerArea := 0 }] }

/-- The grid `frameGrid` after `updateBinsGCellArea` with one instance cell on
`(1, 1, 2, 2)`. -/
def frameGridAfter : BinGrid :=
  { frameGrid with
    bins := [{ x := 0, y := 0, lx := 0, ly := 0, ux := 3, uy := 3,
               nonPlaceArea := 2, placedArea := 1, fillerArea := 0 },
             { x := 1, y := 0, lx := 3, ly := 0, ux := 5, uy := 3,
               nonPlaceArea := 0, placedArea := 0, fillerArea := 0 },
             { x := 0, y := 1, lx := 0, ly := 3, ux := 3, uy := 5,
               nonPlaceArea := 1, placedArea := 0, fillerArea := 0 },
             { x := 1, y := 1, lx := 3, ly := 3, ux := 5, uy := 5,
               nonPlaceArea := 0, placedArea := 0, fillerArea := 0 }] }

/-- One placeable instance of `9 x 10` on the core `0..10 x 0..10` (90% of the core),
no fixed instance. -/
def singleInstCore : PlacerBase :=
  { insts := [⟨0, 0, 9, 10⟩], placeInsts := [⟨0, 0, 9, 10⟩], placeInstsArea := 90,
    coreLx := 0, coreLy := 0, coreUx := 10, coreUy := 10 }

/-- Two placeable instances of `9 x 5` on the core `0..10 x 0..10` (together 90% of
the core), no fixed instance. -/
def twoInstCore : PlacerBase :=
  { insts := [⟨0, 0, 9, 5⟩, ⟨0, 5, 9, 10⟩], placeInsts := [⟨0, 0, 9, 5⟩, ⟨0, 5, 9, 10⟩],
    placeInstsArea := 90,
    coreLx := 0, coreLy := 0, coreUx := 10, coreUy := 10 }

/-- The core `0..10 x 0..10` with no instance at all. -/
def emptyCore : PlacerBase :=
  { coreLx := 0, coreLy := 0, coreUx := 10, coreUy := 10 }

/-- Target density `0.1`. -/
def density10 : NesterovBaseVars :=
  { targetDensity := ⟨1, 10⟩ }

/-- Length of the intersection of the intervals `[a, b]` and `[c, d]`. -/
def overlapLen (a b c d : Int) : Int := max 0 (min b d - max a c)

/-- The point of the interval `[c, d]` nearest to `x`. -/
def clampTo (c d x : Int) : Int := min (max x c) d

/-- The box `(lx, ly, ux, uy)` of a bin. -/
def Bin.box (b : Bin) : Int × Int × Int × Int := (b.lx, b.ly, b.ux, b.uy)

/-- The box of the bin with grid coordinates `(i, j)` in a grid with origin
`(lx, ly)`, upper corner `(ux, uy)` and bin size `Sx x Sy`: the last bins are clipped
to the upper corner. -/
def gridBox (lx ly ux uy Sx Sy i j : Int) : Int × Int × Int × Int :=
  (lx + i * Sx, ly + j * Sy, min (lx + i * Sx + Sx) ux, min (ly + j * Sy + Sy) uy)

/-- The boxes of a row-major grid of `Nx` columns, for the first `n` positions. -/
def gridBoxes (lx ly ux uy Sx Sy : Int) (Nx n : Nat) : List (Int × Int × Int × Int) :=
  (List.range n).map (fun (p : Nat) =>
    gridBox lx ly ux uy Sx Sy ((p % Nx : Nat) : Int) ((p / Nx : Nat) : Int))

/-- Sum of a field over the bins. -/
def sumOver (fld : Bin → Int) (bins : List Bin) : Int := (bins.map fld).sum

/-- The boxes of the bins of a row-major grid with the coordinates, bin counts and
bin sizes of `bg`. -/
def BinGrid.gridBoxes (bg : BinGrid) : List (Int × Int × Int × Int) :=
  replace.gridBoxes bg.lx bg.ly bg.ux bg.uy bg.binSizeX bg.binSizeY bg.binCntX.toNat
    (bg.binCntX.toNat * bg.binCntY.toNat)

/-- A grid on which the loop of `initBins` writes a regular row-major array: positive
bin counts and sizes, the last bin column starts inside the core and ends beyond
it (the core width is not a multiple of the bin width), the last bin row starts
inside the core, and a bin area fits in 32 bits. -/
def RegularGrid (bg : BinGrid) : Prop :=
  0 < bg.binCntX ∧ 0 < bg.binCntY ∧ 0 < bg.binSizeX ∧ 0 < bg.binSizeY ∧
  bg.binSizeX * bg.binSizeY < 2147483648 ∧
  (bg.binCntX - 1) * bg.binSizeX ≤ bg.ux - bg.lx ∧
  bg.ux - bg.lx < bg.binCntX * bg.binSizeX ∧
  (bg.binCntY - 1) * bg.binSizeY ≤ bg.uy - bg.ly

/-- The box `(lx, ly, ux, uy)` is well formed, starts inside the grid and ends at or
before the start of the last bin column and of the last bin row. -/
def BoxBeforeLastBins (bg : BinGrid) (lx ly ux uy : Int) : Prop :=
  bg.lx ≤ lx ∧ lx ≤ ux ∧ ux ≤ bg.lx + (bg.binCntX - 1) * bg.binSizeX ∧
  bg.ly ≤ ly ∧ ly ≤ uy ∧ uy ≤ bg.ly + (bg.binCntY - 1) * bg.binSizeY

instance (bg : BinGrid) : Decidable (RegularGrid bg) := by
  unfold RegularGrid
  infer_instance

instance (bg : BinGrid) (lx ly ux uy : Int) : Decidable (BoxBeforeLastBins bg lx ly ux uy) := by
  unfold BoxBeforeLastBins
  infer_instance

/-- The core `0..5 x 0..11` with one unit placeable instance and one fixed instance on
`(1, 1, 3, 4)`. -/
def fixedInstCore : PlacerBase :=
  { smallCore 5 11 with nonPlaceInsts := [⟨1, 1, 3, 4⟩], nonPlaceInstsArea := 6 }

/-- The grid of `fixedInstCore` with user bin counts `2 x 4` after the first part of
`initBins`: bins of size `3 x 3`. -/
def fixedInstGrid : BinGrid :=
  { BinGrid.configure (userBinCnt 2 4) fixedInstCore with binSizeX := 3, binSizeY := 3 }

/-- Two instance cells and one filler cell that end before the last bin column and
row of `fixedInstGrid`. -/
def fixedInstCells : List GCell :=
  [{ insts := [0], lx := 0, ly := 0, ux := 3, uy := 6 },
   { insts := [], lx := 1, ly := 2, ux := 2, uy := 9 },
   { insts := [1], lx := 2, ly := 3, ux := 3, uy := 5 }]

/-! ## Wirelength model -/

/-- The value `INT_MAX`. -/
def INT_MAX : Int := 2147483647

/-- The value `INT_MIN`. -/
def INT_MIN : Int := -2147483648

/-- Embedding of `GPin::setCenterLocation`. -/
def GPin.setCenterLocation (pin : GPin) (cx cy : Int) : GPin :=
  { pin with cx := cx, cy := cy }

/-- Embedding of `GPin::setMaxExpSumX`. -/
def GPin.setMaxExpSumX (pin : GPin) (v : ℚ) : GPin :=
  { pin with hasMaxExpSumX := true, maxExpSumX := v }

/-- Embedding of `GPin::setMaxExpSumY`. -/
def GPin.setMaxExpSumY (pin : GPin) (v : ℚ) : GPin :=
  { pin with hasMaxExpSumY := true, maxExpSumY := v }

/-- Embedding of `GPin::setMinExpSumX`. -/
def GPin.setMinExpSumX (pin : GPin) (v : ℚ) : GPin :=
  { pin with hasMinExpSumX := true, minExpSumX := v }

/-- Embedding of `GPin::setMinExpSumY`. -/
def GPin.setMinExpSumY (pin : GPin) (v : ℚ) : GPin :=
  { pin with hasMinExpSumY := true, minExpSumY := v }

/-- Embedding of `GNet::addGPin`. -/
def GNet.addGPin (net : GNet) (p : Nat) : GNet :=
  { net with gPins := net.gPins ++ [p] }

/-- Embedding of `GNet::setDontCare`. -/
def GNet.setDontCare (net : GNet) : GNet :=
  { net with isDontCare_ := true }

/-- Embedding of `GNet::isDontCare`. -/
def GNet.isDontCare (net : GNet) : Bool :=
  net.gPins.length == 0 || net.isDontCare_ == true

/-- Embedding of `GNet::addWaExpMinSumX`. -/
def GNet.addWaExpMinSumX (net : GNet) (v : ℚ) : GNet :=
  { net with waExpMinSumStorX := net.waExpMinSumStorX + v }

/-- Embedding of `GNet::addWaXExpMinSumX`. -/
def GNet.addWaXExpMinSumX (net : GNet) (v : ℚ) : GNet :=
  { net with waXExpMinSumStorX := net.waXExpMinSumStorX + v }

/-- Embedding of `GNet::addWaExpMinSumY`. -/
def GNet.addWaExpMinSumY (net : GNet) (v : ℚ) : GNet :=
  { net with waExpMinSumStorY := net.waExpMinSumStorY + v }

/-- Embedding of `GNet::addWaYExpMinSumY`. -/
def GNet.addWaYExpMinSumY (net : GNet) (v : ℚ) : GNet :=
  { net with waYExpMinSumStorY := net.waYExpMinSumStorY + v }

/-- Embedding of `GNet::addWaExpMaxSumX`. -/
def GNet.addWaExpMaxSumX (net : GNet) (v : ℚ) : GNet :=
  { net with waExpMaxSumStorX := net.waExpMaxSumStorX + v }

/-- Embedding of `GNet::addWaXExpMaxSumX`. -/
def GNet.addWaXExpMaxSumX (net : GNet) (v : ℚ) : GNet :=
  { net with waXExpMaxSumStorX := net.waXExpMaxSumStorX + v }

/-- Embedding of `GNet::addWaExpMaxSumY`. -/
def GNet.addWaExpMaxSumY (net : GNet) (v : ℚ) : GNet :=
  { net with waExpMaxSumStorY := net.waExpMaxSumStorY + v }

/-- Embedding of `GNet::addWaYExpMaxSumY`. -/
def GNet.addWaYExpMaxSumY (net : GNet) (v : ℚ) : GNet :=
  { net with waYExpMaxSumStorY := net.waYExpMaxSumStorY + v }

/-- The pin a pointer into `gPinStor_` points at. -/
def pinAt (pins : List GPin) (p : Nat) : GPin := pins.getD p {}

/-- The net a pointer into `gNetStor_` points at. -/
def netAt (nets : List GNet) (n : Option Nat) : GNet :=
  match n with
  | some i => nets.getD i {}
  | none => {}

/-- Embedding of `GNet::updateBox`, reading the pins through `pins`. -/
def GNet.updateBox (net : GNet) (pins : List GPin) : GNet :=
  net.gPins.foldl
    (fun n p =>
      { n with lx := min (pinAt pins p).cx n.lx, ly := min (pinAt pins p).cy n.ly,
               ux := max (pinAt pins p).cx n.ux, uy := max (pinAt pins p).cy n.uy })
    { net with lx := INT_MAX, ly := INT_MAX, ux := INT_MIN, uy := INT_MIN }

/-- Embedding of `fastExp`. -/
def fastExp (a : ℚ) : ℚ :=
  let a0 := 1 * a / 1024
  let a1 := a0 * a0
  let a2 := a1 * a1
  let a3 := a2 * a2
  let a4 := a3 * a3
  let a5 := a4 * a4
  let a6 := a5 * a5
  let a7 := a6 * a6
  let a8 := a7 * a7
  let a9 := a8 * a8
  let a10 := a9 * a9
  a10

/-- The pin at position `p` replaced by its image under `f`. -/
def updatePin (f : GPin → GPin) (pins : List GPin) (p : Nat) : List GPin :=
  pins.set p (f (pinAt pins p))

/-- The `min x` block of the pin loop of `updateWireLengthForceWA`, entered when
`expMinX` exceeds the bar. -/
def blockMinX (expMinX : ℚ) (p : Nat) (s : List GPin × GNet) : List GPin × GNet :=
  let pins := updatePin (fun pin => pin.setMinExpSumX (fastExp expMinX)) s.1 p
  let net := s.2.addWaExpMinSumX (pinAt pins p).minExpSumX
  (pins, net.addWaXExpMinSumX (((pinAt pins p).cx : ℚ) * (pinAt pins p).minExpSumX))

/-- The `max x` block of the pin loop of `updateWireLengthForceWA`. -/
def blockMaxX (expMaxX : ℚ) (p : Nat) (s : List GPin × GNet) : List GPin × GNet :=
  let pins := updatePin (fun pin => pin.setMaxExpSumX (fastExp expMaxX)) s.1 p
  let net := s.2.addWaExpMaxSumX (pinAt pins p).maxExpSumX
  (pins, net.addWaXExpMaxSumX (((pinAt pins p).cx : ℚ) * (pinAt pins p).maxExpSumX))

/-- The `min y` block of the pin loop of `updateWireLengthForceWA`. -/
def blockMinY (expMinY : ℚ) (p : Nat) (s : List GPin × GNet) : List GPin × GNet :=
  let pins := updatePin (fun pin => pin.setMinExpSumY (fastExp expMinY)) s.1 p
  let net := s.2.addWaExpMinSumY (pinAt pins p).minExpSumY
  (pins, net.addWaYExpMinSumY (((pinAt pins p).cy : ℚ) * (pinAt pins p).minExpSumY))

/-- The `max y` block of the pin loop of `updateWireLengthForceWA`. -/
def blockMaxY (expMaxY : ℚ) (p : Nat) (s : List GPin × GNet) : List GPin × GNet :=
  let pins := updatePin (fun pin => pin.setMaxExpSumY (fastExp expMaxY)) s.1 p
  let net := s.2.addWaExpMaxSumY (pinAt pins p).maxExpSumY
  (pins, net.addWaYExpMaxSumY (((pinAt pins p).cy : ℚ) * (pinAt pins p).maxExpSumY))

/-- The argument `expMinX = (gNet->lx() - gPin->cx()) * wlCoeffX`. -/
def expMinX (net : GNet) (pin : GPin) (wlCoeffX : ℚ) : ℚ :=
  ((net.lx - pin.cx : Int) : ℚ) * wlCoeffX

/-- The argument `expMaxX = (gPin->cx() - gNet->ux()) * wlCoeffX`. -/
def expMaxX (net : GNet) (pin : GPin) (wlCoeffX : ℚ) : ℚ :=
  ((pin.cx - net.ux : Int) : ℚ) * wlCoeffX

/-- The argument `expMinY = (gNet->ly() - gPin->cy()) * wlCoeffY`. -/
def expMinY (net : GNet) (pin : GPin) (wlCoeffY : ℚ) : ℚ :=
  ((net.ly - pin.cy : Int) : ℚ) * wlCoeffY

/-- The argument `expMaxY = (gPin->cy() - gNet->ly()) * wlCoeffY`; the source reads
`ly()` here. -/
def expMaxY (net : GNet) (pin : GPin) (wlCoeffY : ℚ) : ℚ :=
  ((pin.cy - net.ly : Int) : ℚ) * wlCoeffY

/-- The body of the pin loop of `updateWireLengthForceWA` for the pin at position
`p`: the four arguments are computed first, then the four blocks run in the order
min x, max x, min y, max y, each only if its argument exceeds
`minWireLengthForceBar`. -/
def pinStep (wlCoeffX wlCoeffY bar : ℚ) (s : List GPin × GNet) (p : Nat) :
    List GPin × GNet :=
  let eMinX := expMinX s.2 (pinAt s.1 p) wlCoeffX
  let eMaxX := expMaxX s.2 (pinAt s.1 p) wlCoeffX
  let eMinY := expMinY s.2 (pinAt s.1 p) wlCoeffY
  let eMaxY := expMaxY s.2 (pinAt s.1 p) wlCoeffY
  let s1 := if eMinX > bar then blockMinX eMinX p s else s
  let s2 := if eMaxX > bar then blockMaxX eMaxX p s1 else s1
  let s3 := if eMinY > bar then blockMinY eMinY p s2 else s2
  if eMaxY > bar then blockMaxY eMaxY p s3 else s3

/-- The body of the net loop of `updateWireLengthForceWA`: `updateBox`, then the pin
loop. -/
def netStep (wlCoeffX wlCoeffY bar : ℚ) (pins : List GPin) (net : GNet) :
    List GPin × GNet :=
  net.gPins.foldl (pinStep wlCoeffX wlCoeffY bar) (pins, net.updateBox pins)

/-- The net loop of `updateWireLengthForceWA` over the nets `nets`, with the pins
`pins`; the nets already visited are collected in order. -/
def netLoop (wlCoeffX wlCoeffY bar : ℚ) :
    List GNet → List GPin → List GPin × List GNet
  | [], pins => (pins, [])
  | net :: rest, pins =>
    let r := netStep wlCoeffX wlCoeffY bar pins net
    let t := netLoop wlCoeffX wlCoeffY bar rest r.1
    (t.1, r.2 :: t.2)

/-- Embedding of `NesterovBase::updateWireLengthForceWA`. -/
def NesterovBase.updateWireLengthForceWA (nb : NesterovBase) (wlCoeffX wlCoeffY : ℚ) :
    NesterovBase :=
  let r := netLoop wlCoeffX wlCoeffY nb.nbVars.minWireLengthForceBar nb.gNetStor nb.gPinStor
  { nb with gPinStor := r.1, gNetStor := r.2 }

/-- A `float` quotient: no finite value when the divisor is zero. -/
def fdiv (a b : ℚ) : Option ℚ :=
  if b = 0 then none else some (a / b)

/-- A `float` difference of two values that may fail to be finite. -/
def fsub (a b : Option ℚ) : Option ℚ :=
  match a, b with
  | some x, some y => some (x - y)
  | _, _ => none

/-- A `float` sum of two values that may fail to be finite. -/
def fadd (a b : Option ℚ) : Option ℚ :=
  match a, b with
  | some x, some y => some (x + y)
  | _, _ => none

/-- Modelled from the spec: the pair type `FloatCoordi`, declared in a header that is
not part of the sources at hand; a default-constructed pair is `(0, 0)`, the start of
the sum "over the cell's pins". -/
structure FloatCoordi where
  x : Option ℚ := some 0
  y : Option ℚ := some 0
deriving DecidableEq, Repr

/-- Embedding of `NesterovBase::getWireLengthGradientPinWA`. -/
def NesterovBase.getWireLengthGradientPinWA (nb : NesterovBase) (gPin : GPin)
    (wlCoeffX wlCoeffY : ℚ) : FloatCoordi :=
  let net := netAt nb.gNetStor gPin.gNet
  let gradientMinX : Option ℚ :=
    if gPin.hasMinExpSumX then
      fdiv (net.waExpMinSumStorX * (gPin.minExpSumX * (1 - wlCoeffX * gPin.cx))
          + wlCoeffX * gPin.minExpSumX * net.waXExpMinSumStorX)
        (net.waExpMinSumStorX * net.waExpMinSumStorX)
    else some 0
  let gradientMaxX : Option ℚ :=
    if gPin.hasMaxExpSumX then
      fdiv (net.waExpMaxSumStorX * (gPin.maxExpSumX * (1 + wlCoeffX * gPin.cx))
          - wlCoeffX * gPin.maxExpSumX * net.waXExpMaxSumStorX)
        (net.waExpMaxSumStorX * net.waExpMaxSumStorX)
    else some 0
  let gradientMinY : Option ℚ :=
    if gPin.hasMinExpSumY then
      fdiv (net.waExpMinSumStorY * (gPin.minExpSumY * (1 - wlCoeffY * gPin.cy))
          + wlCoeffY * gPin.minExpSumY * net.waYExpMinSumStorY)
        (net.waExpMinSumStorY * net.waExpMinSumStorY)
    else some 0
  let gradientMaxY : Option ℚ :=
    if gPin.hasMaxExpSumY then
      fdiv (net.waExpMaxSumStorY * (gPin.maxExpSumY * (1 + wlCoeffY * gPin.cy))
          - wlCoeffY * gPin.maxExpSumY * net.waYExpMaxSumStorY)
        (net.waExpMaxSumStorY * net.waExpMaxSumStorY)
    else some 0
  { x := fsub gradientMaxX gradientMinX, y := fsub gradientMaxY gradientMinY }

/-- Embedding of `NesterovBase::getWireLengthGradientWA`. -/
def NesterovBase.getWireLengthGradientWA (nb : NesterovBase) (gCell : GCell)
    (wlCoeffX wlCoeffY : ℚ) : FloatCoordi :=
  gCell.gPins.foldl
    (fun gradientPair p =>
      let tmpPair := nb.getWireLengthGradientPinWA (pinAt nb.gPinStor p) wlCoeffX wlCoeffY
      { x := fadd gradientPair.x tmpPair.x, y := fadd gradientPair.y tmpPair.y })
    {}

/-! ## Specification-side definitions and scenarios of the wirelength model -/

/-- The approximation of `exp` that the specification describes:
`(1 + a/1024)^1024`. -/
def fastExpSpec (a : ℚ) : ℚ := (1 + a / 1024) ^ 1024

/-- The per-pin gradient of the specification for one axis and one side with the
sign `sgn` (`-1` for min, `+1` for max): `(s·e·(1 + sgn·γ·c) - sgn·γ·e·t) / s²` when
the flag is set, `0` otherwise. -/
def gradientSideSpec (has : Bool) (sgn s t e g c : ℚ) : Option ℚ :=
  if has then fdiv (s * e * (1 + sgn * g * c) - sgn * g * e * t) (s ^ 2) else some 0

/-- The per-pin gradient of the specification: `Gmax - Gmin` on each axis. -/
def gradientPinSpec (net : GNet) (pin : GPin) (gx gy : ℚ) : FloatCoordi :=
  { x := fsub
      (gradientSideSpec pin.hasMaxExpSumX 1 net.waExpMaxSumStorX net.waXExpMaxSumStorX
        pin.maxExpSumX gx pin.cx)
      (gradientSideSpec pin.hasMinExpSumX (-1) net.waExpMinSumStorX net.waXExpMinSumStorX
        pin.minExpSumX gx pin.cx),
    y := fsub
      (gradientSideSpec pin.hasMaxExpSumY 1 net.waExpMaxSumStorY net.waYExpMaxSumStorY
        pin.maxExpSumY gy pin.cy)
      (gradientSideSpec pin.hasMinExpSumY (-1) net.waExpMinSumStorY net.waYExpMinSumStorY
        pin.minExpSumY gy pin.cy) }

/-- The componentwise sum of a list of pairs, starting from `(0, 0)`. -/
def sumCoordi (l : List FloatCoordi) : FloatCoordi :=
  l.foldl (fun acc c => { x := fadd acc.x c.x, y := fadd acc.y c.y }) {}

/-- Every pin moved by `(dx, dy)` through `GPin::setCenterLocation`. -/
def NesterovBase.translatePins (nb : NesterovBase) (dx dy : Int) : NesterovBase :=
  { nb with gPinStor := nb.gPinStor.map (fun p => p.setCenterLocation (p.cx + dx) (p.cy + dy)) }

/-- A fresh state with one net of two pins at `(0, 0)` and `(0, 1024)`, each pin on
its own cell. -/
def twoPinColumn : NesterovBase :=
  { gCellStor := [{ insts := [0], gPins := [0] }, { insts := [1], gPins := [1] }],
    gPinStor := [{ gCell := some 0, gNet := some 0, cx := 0, cy := 0 },
                 { gCell := some 1, gNet := some 0, cx := 0, cy := 1024 }],
    gNetStor := [{ gPins := [0, 1] }] }

/-- A fresh state with one net of two pins that coincide at `(3, 4)`. -/
def coincidentPins : NesterovBase :=
  { gCellStor := [{ insts := [0], gPins := [0] }, { insts := [1], gPins := [1] }],
    gPinStor := [{ gCell := some 0, gNet := some 0, cx := 3, cy := 4 },
                 { gCell := some 1, gNet := some 0, cx := 3, cy := 4 }],
    gNetStor := [{ gPins := [0, 1] }] }

/-- Scenario S4: a fresh state with one net of two pins at `(0, 0)` and `(100, 0)`,
each pin on its own cell. -/
def scenarioS4 : NesterovBase :=
  { gCellStor := [{ insts := [0], gPins := [0] }, { insts := [1], gPins := [1] }],
    gPinStor := [{ gCell := some 0, gNet := some 0, cx := 0, cy := 0 },
                 { gCell := some 1, gNet := some 0, cx := 100, cy := 0 }],
    gNetStor := [{ gPins := [0, 1] }] }

/-- The state `twoPinColumn` with a second net that has no pin. -/
def withEmptyNet : NesterovBase :=
  { twoPinColumn with gNetStor := [{ gPins := [0, 1] }, {}] }

/-! ## Filler sizes and density sizing -/

/-- The value of `avgDx` (or `avgDy`) in `NesterovBase::initFillerGCells` for the
list `stor` of the widths (or heights) of the placeable instances: the sorted
values at the positions `size * 0.10` up to `size * 0.90` are summed in a `uint32_t`
and divided by the number of positions; `none` when that number is zero. -/
def fillerAvg (stor : List Int) : Option Int :=
  let sorted := stor.insertionSort (fun a b => a ≤ b)
  let minIdx := sorted.length / 10
  let maxIdx := sorted.length * 9 / 10
  if maxIdx - minIdx = 0 then none
  else some (wrapInt32 (trimmedSum sorted minIdx maxIdx / ((maxIdx - minIdx : Nat) : Int)))

/-- The trimmed mean of the specification: the integer mean of the sorted values
over the positions `⌊0.10·N⌋` up to `⌊0.90·N⌋`. -/
def trimmedMeanSpec (stor : List Int) : Int :=
  let sorted := stor.insertionSort (fun a b => a ≤ b)
  let lo := sorted.length / 10
  let hi := sorted.length * 9 / 10
  (((sorted.drop lo).take (hi - lo)).sum) / ((hi - lo : Nat) : Int)

/-- Two placeable instances of `3 x 3` on the core `0..10 x 0..10`, no fixed
instance. -/
def oddSizeCore : PlacerBase :=
  { insts := [⟨0, 0, 3, 3⟩, ⟨5, 5, 8, 8⟩], placeInsts := [⟨0, 0, 3, 3⟩, ⟨5, 5, 8, 8⟩],
    placeInstsArea := 18,
    coreLx := 0, coreLy := 0, coreUx := 10, coreUy := 10 }

/-- Two placeable instances of `4 x 2` on the core `0..10 x 0..10`, no fixed
instance. -/
def evenSizeCore : PlacerBase :=
  { insts := [⟨0, 0, 4, 2⟩, ⟨5, 5, 9, 7⟩], placeInsts := [⟨0, 0, 4, 2⟩, ⟨5, 5, 9, 7⟩],
    placeInstsArea := 16,
    coreLx := 0, coreLy := 0, coreUx := 10, coreUy := 10 }

/-- The ten fillers of size `4 x 2` that `initFillerGCells` makes on `evenSizeCore` from
the random stream `k ↦ 7 k + 3`. -/
def evenSizeFillers : List GCell :=
  (List.range 10).map
    (fun (i : Nat) => GCell.mkFiller ((14 * i + 3) % 10) ((14 * i + 10) % 10) 4 2)

/-- The constant `REPLACE_SQRT2`, the decimal `1.414213562373095048801`. -/
def REPLACE_SQRT2 : ℚ := 1414213562373095048801 / 1000000000000000000000

/-- Conversion of a `float` value to `int`: the fractional part is dropped. -/
def floatToInt (q : ℚ) : Int := Int.tdiv q.num q.den

/-- Embedding of `GCell::dCx`. -/
def GCell.dCx (c : GCell) : Int := Int.tdiv (c.dUx - c.dLx) 2

/-- Embedding of `GCell::dCy`. -/
def GCell.dCy (c : GCell) : Int := Int.tdiv (c.dUy - c.dLy) 2

/-- Embedding of `GCell::dDx`. -/
def GCell.dDx (c : GCell) : Int := c.dUx - c.dLx

/-- Embedding of `GCell::dDy`. -/
def GCell.dDy (c : GCell) : Int := c.dUy - c.dLy

/-- Embedding of `GCell::setDensitySize`. -/
def GCell.setDensitySize (c : GCell) (dDx dDy : Int) : GCell :=
  let dCenterX := c.dCx
  let dCenterY := c.dCy
  { c with
    dLx := dCenterX - Int.tdiv dDx 2, dLy := dCenterY - Int.tdiv dDy 2,
    dUx := dCenterX + Int.tdiv dDx 2, dUy := dCenterY + Int.tdiv dDy 2 }

/-- Embedding of `GCell::setDensityScale`. -/
def GCell.setDensityScale (c : GCell) (densityScale : ℚ) : GCell :=
  { c with densityScale := densityScale }

/-- One axis of the body of the density-sizing loop of `NesterovBase::init`: the pair
`(scale, densitySize)` for a cell of extent `d` and the bin size `binSize` (the
quotient is the exact one; a bin size of zero is outside the model). -/
def densityAxis (d binSize : Int) : ℚ × ℚ :=
  if (d : ℚ) < REPLACE_SQRT2 * (binSize : ℚ) then
    ((d : ℚ) / (REPLACE_SQRT2 * (binSize : ℚ)), REPLACE_SQRT2 * (binSize : ℚ) / 2)
  else (1, (d : ℚ))

/-- The body of the density-sizing loop of `NesterovBase::init` for one G-cell. -/
def densitySizeStep (bg : BinGrid) (gCell : GCell) : GCell :=
  let x := densityAxis gCell.dx bg.binSizeX
  let y := densityAxis gCell.dy bg.binSizeY
  (gCell.setDensitySize (floatToInt x.2) (floatToInt y.2)).setDensityScale (x.1 * y.1)

/-- The density-sizing loop that ends `NesterovBase::init`. -/
def NesterovBase.initDensitySize (nb : NesterovBase) : NesterovBase :=
  { nb with gCellStor := nb.gCellStor.map (densitySizeStep nb.bg) }

/-- Embedding of `NesterovBase::init` to its end, as far as the G-cell storage and the
bin grid are concerned: `NesterovBase.init` followed by the density-sizing loop. -/
def NesterovBase.initWithDensity (nbVars : NesterovBaseVars) (pb : PlacerBase)
    (randVal : Nat → Int) : Except Fault NesterovBase := do
  let nb ← NesterovBase.init nbVars pb randVal
  pure nb.initDensitySize

/-- The deposited mass of a G-cell: `densityScale` times the area of the density box. -/
def GCell.densityMass (c : GCell) : ℚ :=
  c.densityScale * (c.dDx : ℚ) * (c.dDy : ℚ)

/-- Scenario S2: the core `0..256 x 0..256` with one placeable instance of `1 x 1`. -/
def scenarioS2 : PlacerBase :=
  { insts := [⟨0, 0, 1, 1⟩], placeInsts := [⟨0, 0, 1, 1⟩], placeInstsArea := 1,
    coreLx := 0, coreLy := 0, coreUx := 256, coreUy := 256 }

/-- The variables of scenario S2: `8 x 8` bins set by the user. -/
def scenarioS2Vars : NesterovBaseVars :=
  { isSetBinCntX := true, isSetBinCntY := true, binCntX := 8, binCntY := 8 }

/-- A G-cell with the placement box `0..1 x 0..1`. -/
def unitCell : GCell := { insts := [0], lx := 0, ly := 0, ux := 1, uy := 1 }

/-- Two placeable instances of `2 x 2` on the core `0..64 x 0..64`. -/
def tinyCellCore : PlacerBase :=
  { insts := [⟨0, 0, 2, 2⟩, ⟨10, 10, 12, 12⟩], placeInsts := [⟨0, 0, 2, 2⟩, ⟨10, 10, 12, 12⟩],
    placeInstsArea := 8,
    coreLx := 0, coreLy := 0, coreUx := 64, coreUy := 64 }

/-- The variables used with `tinyCellCore`: target density `1/64` and `2 x 2` bins set by
the user. -/
def tinyCellVars : NesterovBaseVars :=
  { targetDensity := ⟨1, 64⟩, isSetBinCntX := true, isSetBinCntY := true,
    binCntX := 2, binCntY := 2 }

/-! ## Closed forms of the wirelength pass -/

/-- The position of the pin that `p` points at. -/
def pinLoc (pins : List GPin) (p : Nat) : Int × Int :=
  ((pinAt pins p).cx, (pinAt pins p).cy)

/-- The bounding box `(lx, ly, ux, uy)` stored in a net. -/
def netBox (net : GNet) : Int × Int × Int × Int :=
  (net.lx, net.ly, net.ux, net.uy)

/-- The bounding box of the pins `l` read through the position table `loc`, folded as
`GNet::updateBox` does from `(INT_MAX, INT_MAX, INT_MIN, INT_MIN)`. -/
def boxOf (loc : Nat → Int × Int) (l : List Nat) : Int × Int × Int × Int :=
  l.foldl
    (fun b p => (min (loc p).1 b.1, min (loc p).2 b.2.1, max (loc p).1 b.2.2.1,
      max (loc p).2 b.2.2.2))
    (INT_MAX, INT_MAX, INT_MIN, INT_MIN)

/-- What one pass of the pin loop body does to the pin itself, written as one
function of the net and the pin before the pass (closed form of `pinStep`, see
`pinStep_eq`). -/
def pinUpdate (wlCoeffX wlCoeffY bar : ℚ) (net : GNet) (pin : GPin) : GPin :=
  let pin1 :=
    if expMinX net pin wlCoeffX > bar then
      pin.setMinExpSumX (fastExp (expMinX net pin wlCoeffX))
    else pin
  let pin2 :=
    if expMaxX net pin wlCoeffX > bar then
      pin1.setMaxExpSumX (fastExp (expMaxX net pin wlCoeffX))
    else pin1
  let pin3 :=
    if expMinY net pin wlCoeffY > bar then
      pin2.setMinExpSumY (fastExp (expMinY net pin wlCoeffY))
    else pin2
  if expMaxY net pin wlCoeffY > bar then
    pin3.setMaxExpSumY (fastExp (expMaxY net pin wlCoeffY))
  else pin3

/-- What one pass of the pin loop body does to the net, written as one function of
the net and the pin before the pass (closed form of `pinStep`, see `pinStep_eq`). -/
def netUpdate (wlCoeffX wlCoeffY bar : ℚ) (net : GNet) (pin : GPin) : GNet :=
  let n1 :=
    if expMinX net pin wlCoeffX > bar then
      (net.addWaExpMinSumX (fastExp (expMinX net pin wlCoeffX))).addWaXExpMinSumX
        ((pin.cx : ℚ) * fastExp (expMinX net pin wlCoeffX))
    else net
  let n2 :=
    if expMaxX net pin wlCoeffX > bar then
      (n1.addWaExpMaxSumX (fastExp (expMaxX net pin wlCoeffX))).addWaXExpMaxSumX
        ((pin.cx : ℚ) * fastExp (expMaxX net pin wlCoeffX))
    else n1
  let n3 :=
    if expMinY net pin wlCoeffY > bar then
      (n2.addWaExpMinSumY (fastExp (expMinY net pin wlCoeffY))).addWaYExpMinSumY
        ((pin.cy : ℚ) * fastExp (expMinY net pin wlCoeffY))
    else n2
  if expMaxY net pin wlCoeffY > bar then
    (n3.addWaExpMaxSumY (fastExp (expMaxY net pin wlCoeffY))).addWaYExpMaxSumY
      ((pin.cy : ℚ) * fastExp (expMaxY net pin wlCoeffY))
  else n3

/-- The sum the specification gives for an accumulator of the net `net`: over the pins
of the net whose argument `arg net pin` exceeds `bar`, the sum of
`w pin * fastExp (arg net pin)`; the pins are read through `pins`. -/
def waSumSpec (pins : List GPin) (net : GNet) (arg : GNet → GPin → ℚ) (bar : ℚ)
    (w : GPin → ℚ) : ℚ :=
  ((net.gPins.filter (fun p => decide (arg net (pinAt pins p) > bar))).map
    (fun p => w (pinAt pins p) * fastExp (arg net (pinAt pins p)))).sum

/-- A fresh state with two nets: pins `0` at `(0, 0)` and `1` at `(100, 0)` on the first
net, pin `2` at `(5, 7)` alone on the second. -/
def twoNets : NesterovBase :=
  { gCellStor := [{ insts := [0], gPins := [0, 2] }, { insts := [1], gPins := [1] }],
    gPinStor := [{ gCell := some 0, gNet := some 0, cx := 0, cy := 0 },
                 { gCell := some 1, gNet := some 0, cx := 100, cy := 0 },
                 { gCell := some 0, gNet := some 1, cx := 5, cy := 7 }],
    gNetStor := [{ gPins := [0, 1] }, { gPins := [2] }] }

/-- The term one pin adds to an accumulator: `w * fastExp (d * coeff)` when the
argument `d * coeff` exceeds `bar`, nothing otherwise. -/
def waTerm (coeff bar : ℚ) (d : Int) (w : ℚ) : ℚ :=
  if (d : ℚ) * coeff > bar then w * fastExp ((d : ℚ) * coeff) else 0

/-- What the pin loop body leaves in a pin at `loc` on a net with the box `box`: on
each of the four sides, when the argument exceeds `bar` the flag is set and the stored
value is `fastExp` of the argument. -/
def PinFlagsOK (wlCoeffX wlCoeffY bar : ℚ) (box : Int × Int × Int × Int) (loc : Int × Int)
    (pin : GPin) : Prop :=
  (((box.1 - loc.1 : Int) : ℚ) * wlCoeffX > bar →
    pin.hasMinExpSumX = true ∧
      pin.minExpSumX = fastExp (((box.1 - loc.1 : Int) : ℚ) * wlCoeffX)) ∧
  (((loc.1 - box.2.2.1 : Int) : ℚ) * wlCoeffX > bar →
    pin.hasMaxExpSumX = true ∧
      pin.maxExpSumX = fastExp (((loc.1 - box.2.2.1 : Int) : ℚ) * wlCoeffX)) ∧
  (((box.2.1 - loc.2 : Int) : ℚ) * wlCoeffY > bar →
    pin.hasMinExpSumY = true ∧
      pin.minExpSumY = fastExp (((box.2.1 - loc.2 : Int) : ℚ) * wlCoeffY)) ∧
  (((loc.2 - box.2.1 : Int) : ℚ) * wlCoeffY > bar →
    pin.hasMaxExpSumY = true ∧
      pin.maxExpSumY = fastExp (((loc.2 - box.2.1 : Int) : ℚ) * wlCoeffY))

instance (wlCoeffX wlCoeffY bar : ℚ) (box : Int × Int × Int × Int) (loc : Int × Int)
    (pin : GPin) : Decidable (PinFlagsOK wlCoeffX wlCoeffY bar box loc pin) := by
  unfold PinFlagsOK
  infer_instance

/-! ## Scenarios of the index-range, tiling and filler-size checks -/

/-- The grid that `initBins` builds on the core `0..5 x 0..5` with user bin counts
`2 x 2`, hence four bins of size `3 x 3` (the last column and row are clipped). -/
def cornerGrid : Except Fault BinGrid :=
  (BinGrid.configure (userBinCnt 2 2) (smallCore 5 5)).initBins (smallCore 5 5)

/-- An instance G-cell on `3..5 x 3..5`, the upper right corner of the core
`0..5 x 0..5`. -/
def cornerCell : GCell := { insts := [0], lx := 3, ly := 3, ux := 5, uy := 5 }

/-- An instance G-cell on `0..3 x 0..3`: its upper edges are flush with the edges of
the first bin of `cornerGrid`. -/
def flushCell : GCell := { insts := [0], lx := 0, ly := 0, ux := 3, uy := 3 }

/-- The core `0..5 x 0..5` with one unit placeable instance and one fixed instance on
`3..5 x 3..5`. -/
def cornerFixedCore : PlacerBase :=
  { insts := [⟨0, 0, 1, 1⟩, ⟨3, 3, 5, 5⟩], placeInsts := [⟨0, 0, 1, 1⟩],
    nonPlaceInsts := [⟨3, 3, 5, 5⟩], placeInstsArea := 1, nonPlaceInstsArea := 4,
    coreLx := 0, coreLy := 0, coreUx := 5, coreUy := 5 }

/-- The core `0..100 x 0..100` with a single placeable instance of `7 x 5`. -/
def onePlaceInstCore : PlacerBase :=
  { insts := [⟨10, 10, 17, 15⟩], placeInsts := [⟨10, 10, 17, 15⟩], placeInstsArea := 35,
    coreLx := 0, coreLy := 0, coreUx := 100, coreUy := 100 }

/-- Two placeable instances of `44 x 100` on the core `0..128 x 0..128`. -/
def slimCellCore : PlacerBase :=
  { insts := [⟨0, 0, 44, 100⟩, ⟨50, 0, 94, 100⟩],
    placeInsts := [⟨0, 0, 44, 100⟩, ⟨50, 0, 94, 100⟩],
    placeInstsArea := 8800,
    coreLx := 0, coreLy := 0, coreUx := 128, coreUy := 128 }

/-- The variables used with `slimCellCore`: target density one and `4 x 4` bins set by
the user, hence bins of `32 x 32`. -/
def slimCellVars : NesterovBaseVars :=
  { isSetBinCntX := true, isSetBinCntY := true, binCntX := 4, binCntY := 4 }

/-! ## Cell and pin locations -/

/-- Embedding of `GCell::cx`. -/
def GCell.cx (c : GCell) : Int := Int.tdiv (c.lx + c.ux) 2

/-- Embedding of `GCell::cy`. -/
def GCell.cy (c : GCell) : Int := Int.tdiv (c.ly + c.uy) 2

/-- Embedding of `GPin::updateLocation`. -/
def GPin.updateLocation (pin : GPin) (gCell : GCell) : GPin :=
  { pin with cx := gCell.cx + pin.offsetCx, cy := gCell.cy + pin.offsetCy }

/-- The loop `for(auto& gPin: gPins_) gPin->updateLocation(this)` that ends
`GCell::setLocation` and `GCell::setCenterLocation`, on the pin storage `pins`. -/
def GCell.movePins (c : GCell) (pins : List GPin) : List GPin :=
  c.gPins.foldl (fun ps p => updatePin (fun pin => pin.updateLocation c) ps p) pins

/-- The assignments of `GCell::setLocation(int lx, int ly)` to the placement box:
`ux_` and `uy_` are written; the two statements `lx = lx_; ly = ly_;` assign to the
parameters and leave the members `lx_`, `ly_` as they are. -/
def GCell.setLocationBox (c : GCell) (lx ly : Int) : GCell :=
  { c with ux := lx + (c.ux - c.lx), uy := ly + (c.uy - c.ly) }

/-- Embedding of `GCell::setLocation`: the cell and the pin storage after the call. -/
def GCell.setLocation (c : GCell) (lx ly : Int) (pins : List GPin) : GCell × List GPin :=
  ((c.setLocationBox lx ly), (c.setLocationBox lx ly).movePins pins)

/-- The assignments of `GCell::setCenterLocation(int cx, int cy)` to the placement
box. -/
def GCell.setCenterLocationBox (c : GCell) (cx cy : Int) : GCell :=
  let halfDx := Int.tdiv c.dx 2
  let halfDy := Int.tdiv c.dy 2
  { c with lx := cx - halfDx, ly := cy - halfDy, ux := cx + halfDx, uy := cy + halfDy }

/-- Embedding of `GCell::setCenterLocation`: the cell and the pin storage after the
call. -/
def GCell.setCenterLocation (c : GCell) (cx cy : Int) (pins : List GPin) :
    GCell × List GPin :=
  ((c.setCenterLocationBox cx cy), (c.setCenterLocationBox cx cy).movePins pins)

/-- The loop `for(auto& coordi : coordis) gCells_[idx]->set(coordi.x, coordi.y)` of
`updateGCellLocation` and `updateGCellCenterLocation`, where `set` is the member
function called and `gCells_[idx]` points at the `idx`-th element of `gCellStor_`:
`cells` are the cells from position `idx` on.  The `float` coordinates are converted
to `int`; a coordinate without a finite value and an index past the cells are
undefined behaviour. -/
def updateLocationLoop (set : GCell → Int → Int → List GPin → GCell × List GPin) :
    List GCell → List FloatCoordi → List GPin → Except Fault (List GCell × List GPin)
  | cells, [], pins => .ok (cells, pins)
  | [], _ :: _, _ => .error .outOfBounds
  | c :: cs, coordi :: rest, pins =>
    match coordi.x, coordi.y with
    | some x, some y =>
      match updateLocationLoop set cs rest (set c (floatToInt x) (floatToInt y) pins).2 with
      | .ok r => .ok ((set c (floatToInt x) (floatToInt y) pins).1 :: r.1, r.2)
      | .error e => .error e
    | _, _ => .error .notFinite

/-- Embedding of `NesterovBase::updateGCellLocation`. -/
def NesterovBase.updateGCellLocation (nb : NesterovBase) (coordis : List FloatCoordi) :
    Except Fault NesterovBase :=
  match updateLocationLoop GCell.setLocation nb.gCellStor coordis nb.gPinStor with
  | .ok r => .ok { nb with gCellStor := r.1, gPinStor := r.2 }
  | .error e => .error e

/-- Embedding of `NesterovBase::updateGCellCenterLocation`. -/
def NesterovBase.updateGCellCenterLocation (nb : NesterovBase)
    (coordis : List FloatCoordi) : Except Fault NesterovBase :=
  match updateLocationLoop GCell.setCenterLocation nb.gCellStor coordis nb.gPinStor with
  | .ok r => .ok { nb with gCellStor := r.1, gPinStor := r.2 }
  | .error e => .error e

/-- A state with two cells of `4 x 2` and `2 x 2` that own the pins `0, 1` and `2`. -/
def twoCellsWithPins : NesterovBase :=
  { gCellStor := [{ insts := [0], gPins := [0, 1], lx := 0, ly := 0, ux := 4, uy := 2 },
                  { insts := [1], gPins := [2], lx := 10, ly := 10, ux := 12, uy := 12 }],
    gPinStor := [{ gCell := some 0, offsetCx := -1, offsetCy := 0, cx := 1, cy := 1 },
                 { gCell := some 0, offsetCx := 1, offsetCy := 1, cx := 3, cy := 2 },
                 { gCell := some 1, offsetCx := 0, offsetCy := -1, cx := 11, cy := 10 }] }

/-- Two coordinate pairs, `(5, 7)` and `(20.5, 30)`. -/
def twoCoordis : List FloatCoordi :=
  [{ x := some 5, y := some 7 }, { x := some (41 / 2), y := some 30 }]

/-! ## The storage vectors and the maps of `NesterovBase::init` -/

/-- Modelled from the spec: what `NesterovBase::init` reads of a `Pin` of `placerBase`,
which is not part of the sources at hand: the addresses returned by `instance()` and
`net()` (the "pin↔inst/net back-links") and `cx()`, `cy()`, `offsetCx()`,
`offsetCy()`. -/
structure Pin where
  inst : Nat := 0
  net : Nat := 0
  cx : Int := 0
  cy : Int := 0
  offsetCx : Int := 0
  offsetCy : Int := 0
deriving DecidableEq, Repr

/-- The addresses that `pb_->insts()`, `pb_->pins()` and `pb_->nets()` hand out, in
order, and what a pin address points at. -/
structure Netlist where
  insts : List Nat := []
  pins : List Nat := []
  nets : List Nat := []
  pin : Nat → Pin := fun _ => {}

/-- Embedding of `GCell::instance`: `*insts_.begin()`, `none` when `insts_` is empty
(the dereference is then undefined). -/
def GCell.instance (c : GCell) : Option Nat := c.insts.head?

/-- Embedding of `GPin::pin`: `*pins_.begin()`, `none` when `pins_` is empty. -/
def GPin.pin (g : GPin) : Option Nat := g.pins.head?

/-- Embedding of `GNet::net`: `*nets_.begin()`, `none` when `nets_` is empty. -/
def GNet.net (g : GNet) : Option Nat := g.nets.head?

/-- Embedding of `GPin::GPin(Pin* pin)` for the pin at the address `p` with the
content `d`. -/
def GPin.ofPin (p : Nat) (d : Pin) : GPin :=
  { pins := [p], cx := d.cx, cy := d.cy, offsetCx := d.offsetCx, offsetCy := d.offsetCy }

/-- Embedding of `GNet::GNet(Net* net)`. -/
def GNet.ofNet (n : Nat) : GNet := { nets := [n] }

/-- Embedding of `GPin::setGCell`. -/
def GPin.setGCell (g : GPin) (gCell : Option Nat) : GPin := { g with gCell := gCell }

/-- Embedding of `GPin::setGNet`. -/
def GPin.setGNet (g : GPin) (gNet : Option Nat) : GPin := { g with gNet := gNet }

/-- The lookup `map.find(a)` in a map given by the list of its insertions, the latest
first: the position stored for the address `a`, `none` for `end()`. -/
def mapFind : List (Nat × Nat) → Nat → Option Nat
  | [], _ => none
  | e :: m, a => if e.1 = a then some e.2 else mapFind m a

/-- A loop `for(auto& g : stor) map[key(g)] = &g` over a storage vector, from the
position `k` on: `key g` is the address the element is filed under, `none` when the
loop skips the element. -/
def mapLoop {α : Type} (key : α → Option Nat) :
    List α → Nat → List (Nat × Nat) → List (Nat × Nat)
  | [], _, m => m
  | g :: gs, k, m =>
    match key g with
    | some a => mapLoop key gs (k + 1) ((a, k) :: m)
    | none => mapLoop key gs (k + 1) m

/-- The key of the loop that fills `gCellMap_`: `gCell.instance()`, for the cells with
`isInstance()` only. -/
def gCellKey (c : GCell) : Option Nat := if c.isInstance then c.instance else none

/-- Embedding of `NesterovBase::placerToNesterov(Instance*)`. -/
def NesterovBase.placerToNesterovInst (nb : NesterovBase) (inst : Nat) : Option Nat :=
  mapFind nb.gCellMap inst

/-- Embedding of `NesterovBase::placerToNesterov(Pin*)`. -/
def NesterovBase.placerToNesterovPin (nb : NesterovBase) (pin : Nat) : Option Nat :=
  mapFind nb.gPinMap pin

/-- Embedding of `NesterovBase::placerToNesterov(Net*)`. -/
def NesterovBase.placerToNesterovNet (nb : NesterovBase) (net : Nat) : Option Nat :=
  mapFind nb.gNetMap net

/-- The loop of `NesterovBase::init` that sets `gCell_` and `gNet_` of every G-pin
from the maps. -/
def linkGPin (nl : Netlist) (gCellMap gNetMap : List (Nat × Nat)) (g : GPin) : GPin :=
  match g.pin with
  | some p =>
    (g.setGCell (mapFind gCellMap (nl.pin p).inst)).setGNet (mapFind gNetMap (nl.pin p).net)
  | none => g

/-- Embedding of the part of `NesterovBase::init` that fills the three storage vectors
(`fillers` being what `initFillerGCells` appends), the three maps and the links of the
G-pins to their G-cell and G-net.  The two loops that fill the pin lists `gPins_` of
the G-cells and G-nets write nothing else and are not part of this function. -/
def NesterovBase.initLinks (nl : Netlist) (fillers : List GCell) : NesterovBase :=
  let gCellStor := nl.insts.map GCell.mkInstance ++ fillers
  let gPinStor := nl.pins.map (fun p => GPin.ofPin p (nl.pin p))
  let gNetStor := nl.nets.map GNet.ofNet
  let gCellMap := mapLoop gCellKey gCellStor 0 []
  let gPinMap := mapLoop GPin.pin gPinStor 0 []
  let gNetMap := mapLoop GNet.net gNetStor 0 []
  { gCellStor := gCellStor,
    gPinStor := gPinStor.map (linkGPin nl gCellMap gNetMap),
    gNetStor := gNetStor,
    gCellMap := gCellMap, gPinMap := gPinMap, gNetMap := gNetMap }

/-- A netlist of two instances at the addresses `100`, `200`, three pins at `10`, `11`,
`12` and two nets at `7`, `8`. -/
def smallNetlist : Netlist :=
  { insts := [100, 200], pins := [10, 11, 12], nets := [7, 8],
    pin := fun p =>
      if p = 10 then { inst := 100, net := 7 }
      else if p = 11 then { inst := 200, net := 7 }
      else { inst := 200, net := 8 } }

/-! ## Route file and tile grid (`routeBase.cpp`) -/

/-- Undefined or fatal outcomes of `TileGrid::initFromRoute` and `TileGrid::initTiles`:
the `exit(1)` when the file cannot be opened, an access outside a vector, `atoi` or
`atof` of the null pointer that `strtok` returns at the end of a line, the read of a
local variable that no conversion of `sscanf` has assigned, a `float` value that is
not finite, an integer division by zero and a failed `assert`. -/
inductive RouteFault where
  | cannotOpen
  | outOfBounds
  | nullToken
  | uninitialised
  | notFinite
  | divisionByZero
  | assertFailed
deriving DecidableEq, Repr

/-- A whitespace-separated token of a line of the route file: a word, or a number in
decimal notation given by its value.  A colon is a token of its own. -/
inductive Tok where
  | word (s : String)
  | num (v : ℚ)
deriving DecidableEq, Repr

/-- A line of the route file as `fgets` delivers it: its length `strlen(line)` and its
tokens. -/
structure Line where
  len : Nat
  toks : List Tok
deriving DecidableEq, Repr

/-- Modelled from the spec: `EdgeCapacityInfo(lx, ly, ll, ux, uy, ul, cap)`, declared
in a header that is not part of the sources at hand; the constructor in the source
copies its seven arguments. -/
structure EdgeCapacityInfo where
  lx : Int := 0
  ly : Int := 0
  ll : Int := 0
  ux : Int := 0
  uy : Int := 0
  ul : Int := 0
  capacity : Int := 0
deriving DecidableEq, Repr

/-- The state of `Tile` that `initTiles` writes: grid coordinates, box, the six
supplies, the flag `isMacroIncluded_` and the capacity vector (the blockage, route and
usage vectors are only resized). -/
structure Tile where
  x : Int := 0
  y : Int := 0
  lx : Int := 0
  ly : Int := 0
  ux : Int := 0
  uy : Int := 0
  supplyH : ℚ := 0
  supplyV : ℚ := 0
  supplyHL : ℚ := 0
  supplyHR : ℚ := 0
  supplyVL : ℚ := 0
  supplyVR : ℚ := 0
  isMacroIncluded : Bool := false
  capacity : List Int := []
deriving DecidableEq, Repr

/-- Modelled from the spec: `Tile::area`, declared in a header that is not part of the
sources at hand; the specification sets the initial supply to "area / pitch", the area
of the tile box. -/
def Tile.area (t : Tile) : Int := (t.ux - t.lx) * (t.uy - t.ly)

/-- The state of `TileGrid`.  Modelled from the spec: the element types of the four
per-layer vectors, declared in a header that is not part of the sources at hand
(capacities are 32-bit integers, widths and spacings `float`). -/
structure TileGrid where
  lx : Int := 0
  ly : Int := 0
  tileCntX : Int := 0
  tileCntY : Int := 0
  tileSizeX : Int := 0
  tileSizeY : Int := 0
  tileNumLayers : Int := 0
  blockagePorosity : ℚ := 0
  gRoutePitchScale : ℚ := 27 / 25
  verticalCapacity : List Int := []
  horizontalCapacity : List Int := []
  minWireWidth : List ℚ := []
  minWireSpacing : List ℚ := []
  edgeCapacityStor : List EdgeCapacityInfo := []
  tiles : List Tile := []
deriving DecidableEq, Repr

/-- Embedding of `TileGrid::ux`. -/
def TileGrid.ux (tg : TileGrid) : Int := tg.lx + tg.tileCntX * tg.tileSizeX

/-- Embedding of `TileGrid::uy`. -/
def TileGrid.uy (tg : TileGrid) : Int := tg.ly + tg.tileCntY * tg.tileSizeY

/-- The value `std::round (q)`: nearest integer, halves away from zero. -/
def roundQ (q : ℚ) : Int := roundDiv q.num q.den

/-- The loop of `initTiles` that counts the tracks, from layer `i` on with `n` layers
to go: `numHTracks` and `numVTracks` are `int` variables, so after each layer the sum
with the `float` quotient is converted back to `int`. -/
def trackLoop (tg : TileGrid) : Nat → Nat → Int → Int → Except RouteFault (Int × Int)
  | _, 0, numHTracks, numVTracks => .ok (numHTracks, numVTracks)
  | i, n + 1, numHTracks, numVTracks =>
    match tg.verticalCapacity.get? i, tg.horizontalCapacity.get? i,
      tg.minWireWidth.get? i, tg.minWireSpacing.get? i with
    | some vc, some hc, some w, some s =>
      if w + s = 0 then .error .notFinite
      else
        trackLoop tg (i + 1) n
          (floatToInt ((numHTracks : ℚ) + (hc : ℚ) / (w + s)))
          (floatToInt ((numVTracks : ℚ) + (vc : ℚ) / (w + s)))
    | _, _, _, _ => .error .outOfBounds

/-- The loop of `initTiles` over `tileStor_`: `n` tiles remain to be written and the
loop variables are `x`, `y`, `idxX`, `idxY`. -/
def initTilesLoop (tg : TileGrid) (pitchH pitchV : Int) :
    Nat → Int → Int → Int → Int → Except RouteFault (List Tile)
  | 0, _, _, _, _ => .ok []
  | n + 1, x, y, idxX, idxY =>
    if pitchH = 0 ∨ pitchV = 0 then .error .divisionByZero
    else
      let tile : Tile :=
        { x := idxX, y := idxY, lx := x, ly := y, ux := x + tg.tileSizeX,
          uy := y + tg.tileSizeY }
      let tile1 : Tile :=
        { tile with
          supplyHL := ((Int.tdiv tile.area pitchH : Int) : ℚ),
          supplyHR := ((Int.tdiv tile.area pitchH : Int) : ℚ),
          supplyVL := ((Int.tdiv tile.area pitchV : Int) : ℚ),
          supplyVR := ((Int.tdiv tile.area pitchV : Int) : ℚ) }
      match
        (if x + tg.tileSizeX ≥ tg.ux then
          initTilesLoop tg pitchH pitchV n tg.lx (y + tg.tileSizeY) 0 (idxY + 1)
        else initTilesLoop tg pitchH pitchV n (x + tg.tileSizeX) y (idxX + 1) idxY) with
      | .ok rest => .ok (tile1 :: rest)
      | .error e => .error e

/-- The statement `Tile* t = tiles()[k]; f(t);`. -/
def updateTile (f : Tile → Tile) (tiles : List Tile) (k : Int) :
    Except RouteFault (List Tile) :=
  if 0 ≤ k ∧ k < (tiles.length : Int) then .ok (tiles.modify f k.toNat)
  else .error .outOfBounds

/-- The element `v[k]` of a per-layer vector. -/
def layerAt {α : Type} (v : List α) (k : Int) : Except RouteFault α :=
  if 0 ≤ k then
    match v.get? k.toNat with
    | some a => .ok a
    | none => .error .outOfBounds
  else .error .outOfBounds

/-- The body of the loop of `initTiles` over `edgeCapacityStor_`.  The two tiles are
looked up at `lx * tileCntY() + ly` and `ux * tileCntY() + uy`; the decrement is a
`float` quotient, which is not finite when `minWireWidth + minWireSpacing` or the tile
size is zero. -/
def edgeStep (tg : TileGrid) (tiles : List Tile) (ecInfo : EdgeCapacityInfo) :
    Except RouteFault (List Tile) := do
  let isHorizontal := decide (ecInfo.ly = ecInfo.uy)
  let lx := min ecInfo.lx ecInfo.ux
  let ux := max ecInfo.lx ecInfo.ux
  let ly := min ecInfo.ly ecInfo.uy
  let uy := max ecInfo.ly ecInfo.uy
  if ecInfo.ll ≠ ecInfo.ul then throw RouteFault.assertFailed
  let layer := ecInfo.ll
  let capacity := ecInfo.capacity
  let lIdx := lx * tg.tileCntY + ly
  let uIdx := ux * tg.tileCntY + uy
  if ¬ (0 ≤ lIdx ∧ lIdx < (tiles.length : Int) ∧ 0 ≤ uIdx ∧ uIdx < (tiles.length : Int)) then
    throw RouteFault.outOfBounds
  let cap ← layerAt (if isHorizontal then tg.horizontalCapacity else tg.verticalCapacity)
    (layer - 1)
  let w ← layerAt tg.minWireWidth (layer - 1)
  let s ← layerAt tg.minWireSpacing (layer - 1)
  let size := if isHorizontal then tg.tileSizeX else tg.tileSizeY
  if w + s = 0 ∨ size = 0 then throw RouteFault.notFinite
  let delta : ℚ := ((cap - capacity : Int) : ℚ) / (w + s) / (size : ℚ)
  let lowerLayer := decide (layer ≤ 5 ∧ cap > 0 ∧ capacity < 1)
  if isHorizontal then
    let t1 ← updateTile (fun t => { t with supplyHR := t.supplyHR - delta }) tiles lIdx
    let t2 ← updateTile (fun t => { t with supplyHL := t.supplyHL - delta }) t1 uIdx
    if lowerLayer then updateTile (fun t => { t with isMacroIncluded := true }) t2 lIdx
    else pure t2
  else
    let t1 ← updateTile (fun t => { t with supplyVR := t.supplyVR - delta }) tiles lIdx
    let t2 ← updateTile (fun t => { t with supplyVL := t.supplyVL - delta }) t1 uIdx
    if lowerLayer then updateTile (fun t => { t with isMacroIncluded := true }) t2 lIdx
    else pure t2

/-- The loop of `initTiles` that fills the vector `capacity`, from layer `i` on with
`n` layers to go. -/
def capacityLoop (tg : TileGrid) : Nat → Nat → Except RouteFault (List Int)
  | _, 0 => .ok []
  | i, n + 1 =>
    match tg.horizontalCapacity.get? i with
    | none => .error .outOfBounds
    | some hc =>
      match capacityLoop tg (i + 1) n with
      | .error e => .error e
      | .ok rest =>
        if hc > 0 then .ok (hc :: rest)
        else
          match tg.verticalCapacity.get? i with
          | none => .error .outOfBounds
          | some vc => .ok (vc :: rest)

/-- The track counts `(numHTracks, numVTracks)` of `initTiles`. -/
def TileGrid.numTracks (tg : TileGrid) : Except RouteFault (Int × Int) :=
  trackLoop tg 0 tg.tileNumLayers.toNat 0 0

/-- The tiles of `initTiles` before the loop over `edgeCapacityStor_`: the track
counts, the two pitches (a track count of zero leaves no finite pitch) and the loop
over `tileStor_`. -/
def TileGrid.layoutTiles (tg : TileGrid) : Except RouteFault (List Tile) := do
  let tracks ← tg.numTracks
  if tracks.1 = 0 ∨ tracks.2 = 0 then throw RouteFault.notFinite
  let pitchH := roundQ ((tg.tileSizeY : ℚ) / (tracks.1 : ℚ) * tg.gRoutePitchScale)
  let pitchV := roundQ ((tg.tileSizeX : ℚ) / (tracks.2 : ℚ) * tg.gRoutePitchScale)
  initTilesLoop tg pitchH pitchV (tg.tileCntX * tg.tileCntY).toNat tg.lx tg.ly 0 0

/-- Embedding of `TileGrid::initTiles` (the `assert` on the layer count of the
database and the log output are left out). -/
def TileGrid.initTiles (tg : TileGrid) : Except RouteFault TileGrid := do
  let tiles ← tg.layoutTiles
  let tiles1 ← tg.edgeCapacityStor.foldlM (edgeStep tg) tiles
  let capacity ← capacityLoop tg 0 tg.tileNumLayers.toNat
  pure { tg with
    tiles := tiles1.map (fun t =>
      { t with supplyH := min t.supplyHL t.supplyHR, supplyV := min t.supplyVL t.supplyVR,
               capacity := capacity }) }

/-- The conversions `%d` of `sscanf`, at most `n` of them, on the tokens of a line:
the integers converted, in order.  Conversion stops at the first token that is not a
number, and after the integer part of a number with a fraction. -/
def scanInts : Nat → List Tok → List Int
  | 0, _ => []
  | _ + 1, [] => []
  | _ + 1, Tok.word _ :: _ => []
  | n + 1, Tok.num v :: rest =>
    if v.den = 1 then v.num :: scanInts n rest else [floatToInt v]

/-- The conversions `%lf` of `sscanf`, at most `n` of them, on the tokens of a line. -/
def scanFloats : Nat → List Tok → List ℚ
  | 0, _ => []
  | _ + 1, [] => []
  | _ + 1, Tok.word _ :: _ => []
  | n + 1, Tok.num v :: rest => v :: scanFloats n rest

/-- The tokens that follow the first token and a colon, as the formats
`"%*s : %d ..."` read them; `none` when the line does not start that way. -/
def afterColon : List Tok → Option (List Tok)
  | _ :: Tok.word s :: rest => if s = ":" then some rest else none
  | _ => none

/-- The function `atoi` on a token: the integer part of a number, `0` for a word. -/
def atoi : Tok → Int
  | Tok.num v => floatToInt v
  | Tok.word _ => 0

/-- The function `atof` on a token: the value of a number, `0` for a word. -/
def atof : Tok → ℚ
  | Tok.num v => v
  | Tok.word _ => 0

/-- The tokens that the loop `for(i < tileNumLayers_) { f(token); token = strtok(NULL) }`
hands to `f` after three calls of `strtok`: the third token of the line and the ones
that follow, `layers` in all; a missing token is the null pointer. -/
def layerTokens (layers : Int) (toks : List Tok) : Except RouteFault (List Tok) :=
  if ((toks.drop 2).take layers.toNat).length = layers.toNat then
    .ok ((toks.drop 2).take layers.toNat)
  else .error .nullToken

/-- The state of the loop of `initFromRoute`: the grid being filled, the buffer `temp`
(`none` while nothing has been written to it) and the three flags. -/
structure ParseState where
  tg : TileGrid := {}
  temp : Option Tok := none
  blockageFlag : Bool := false
  beolFlag : Bool := false
  edgeFlag : Bool := false
deriving DecidableEq, Repr

/-- The test `temp[0] == (char) 35`: the token starts with the comment character. -/
def Tok.isComment : Tok → Bool
  | Tok.word s => s.data.head? == some (Char.ofNat 35)
  | Tok.num _ => false

/-- The block `if(beolFlag)` of the loop of `initFromRoute`, for the first token
`temp` of the line.  The branch of `ViaSpacing` only walks over the tokens and writes
nothing. -/
def beolStep (tg : TileGrid) (temp : Tok) (line : Line) : Except RouteFault TileGrid :=
  if temp = Tok.word "Grid" then
    match (afterColon line.toks).map (scanInts 3) with
    | some [a, b, c] => .ok { tg with tileCntX := a, tileCntY := b, tileNumLayers := c }
    | some [a, b] => .ok { tg with tileCntX := a, tileCntY := b }
    | some [a] => .ok { tg with tileCntX := a }
    | _ => .ok tg
  else if temp = Tok.word "VerticalCapacity" then do
    let toks ← layerTokens tg.tileNumLayers line.toks
    pure { tg with verticalCapacity := toks.map atoi }
  else if temp = Tok.word "HorizontalCapacity" then do
    let toks ← layerTokens tg.tileNumLayers line.toks
    pure { tg with horizontalCapacity := toks.map atoi }
  else if temp = Tok.word "MinWireWidth" then do
    let toks ← layerTokens tg.tileNumLayers line.toks
    pure { tg with minWireWidth := toks.map atof }
  else if temp = Tok.word "MinWireSpacing" then do
    let toks ← layerTokens tg.tileNumLayers line.toks
    pure { tg with minWireSpacing := toks.map atof }
  else if temp = Tok.word "ViaSpacing" then .ok tg
  else if temp = Tok.word "GridOrigin" then
    match (afterColon line.toks).map (scanFloats 2) with
    | some [x, y] => .ok { tg with lx := floatToInt x, ly := floatToInt y }
    | _ => .error .uninitialised
  else if temp = Tok.word "TileSize" then
    match (afterColon line.toks).map (scanFloats 2) with
    | some [w, h] => .ok { tg with tileSizeX := floatToInt w, tileSizeY := floatToInt h }
    | _ => .error .uninitialised
  else if temp = Tok.word "BlockagePorosity" then
    match (afterColon line.toks).map (scanFloats 1) with
    | some [p] => .ok { tg with blockagePorosity := p }
    | _ => .error .uninitialised
  else .ok tg

/-- The block `if(edgeFlag)` of the loop of `initFromRoute`: seven conversions `%d`
into the fresh local variables `e1 ... e7`, which are then read. -/
def edgeLine (tg : TileGrid) (line : Line) : Except RouteFault TileGrid :=
  match scanInts 7 line.toks with
  | [e1, e2, e3, e4, e5, e6, e7] =>
    .ok { tg with edgeCapacityStor := tg.edgeCapacityStor ++ [⟨e1, e2, e3, e4, e5, e6, e7⟩] }
  | _ => .error .uninitialised

/-- The body of the loop `while(!feof(fp))` of `initFromRoute` for one line. -/
def parseLine (st : ParseState) (line : Line) : Except RouteFault ParseState :=
  let temp := match line.toks.head? with
    | some t => some t
    | none => st.temp
  if line.len < 5 then .ok { st with temp := temp }
  else
    match temp with
    | none => .error .uninitialised
    | some t =>
      if t.isComment ∨ t = Tok.word "route" then .ok { st with temp := temp }
      else if t = Tok.word "NumBlockageNodes" then
        .ok { st with temp := temp, blockageFlag := true }
      else if t = Tok.word "NumEdgeCapacityAdjustments" then
        .ok { st with temp := temp, blockageFlag := false, edgeFlag := true }
      else if t = Tok.word "NumNiTerminals" then
        .ok { st with temp := temp, beolFlag := false }
      else do
        let beolFlag := if t = Tok.word "Grid" then true else st.beolFlag
        let tg1 ← if beolFlag then beolStep st.tg t line else pure st.tg
        let tg2 ← if st.edgeFlag then edgeLine tg1 line else pure tg1
        pure { st with tg := tg2, temp := temp, beolFlag := beolFlag }

/-- The loop of `initFromRoute` over the lines of the file, from the state of a fresh
`TileGrid` (lines are shorter than the buffer of 255 characters). -/
def parseRoute (tg : TileGrid) (lines : List Line) : Except RouteFault ParseState :=
  lines.foldlM parseLine { tg := tg }

/-- Embedding of `TileGrid::initFromRoute`: `file` is the content of the file, `none`
when it cannot be opened. -/
def TileGrid.initFromRoute (tg : TileGrid) (file : Option (List Line)) :
    Except RouteFault TileGrid :=
  match file with
  | none => .error .cannotOpen
  | some lines => do
    let st ← parseRoute tg lines
    st.tg.initTiles

/-- A line with a directive, a colon and numbers. -/
def directive (name : String) (vals : List ℚ) : Line :=
  { len := name.length + 2 + 2 * vals.length,
    toks := Tok.word name :: Tok.word ":" :: vals.map Tok.num }

/-- The route file of scenario S6: `Grid : 4 4 6`, capacities `5`, wire width and
spacing `1` on the six layers, origin `(0, 0)`, tiles of `10 x 10`, and the single edge
adjustment `0 0 1 1 0 1 0`. -/
def scenarioS6 : List Line :=
  [directive "Grid" [4, 4, 6],
   directive "VerticalCapacity" [5, 5, 5, 5, 5, 5],
   directive "HorizontalCapacity" [5, 5, 5, 5, 5, 5],
   directive "MinWireWidth" [1, 1, 1, 1, 1, 1],
   directive "MinWireSpacing" [1, 1, 1, 1, 1, 1],
   directive "GridOrigin" [0, 0],
   directive "TileSize" [10, 10],
   directive "NumNiTerminals" [0],
   directive "NumEdgeCapacityAdjustments" [1],
   { len := 14, toks := [Tok.num 0, Tok.num 0, Tok.num 1, Tok.num 1, Tok.num 0, Tok.num 1,
       Tok.num 0] }]

/-- A route file with a `Grid` line for six layers and no line for the capacities,
the wire widths or the wire spacings. -/
def missingCapacityFile : List Line :=
  [directive "Grid" [4, 4, 6], directive "GridOrigin" [0, 0], directive "TileSize" [10, 10]]

/-- A route file with a `Grid` line for six layers and a `VerticalCapacity` line with
two values. -/
def shortCapacityFile : List Line :=
  [directive "Grid" [4, 4, 6], directive "VerticalCapacity" [5, 5]]

/-- The adjustment line `0 0 1 1 0 1 0`. -/
def adjustmentLine : Line :=
  { len := 14, toks := [Tok.num 0, Tok.num 0, Tok.num 1, Tok.num 1, Tok.num 0, Tok.num 1,
      Tok.num 0] }

/-- A route file in which a `Grid` line follows the `NumEdgeCapacityAdjustments` line
and one adjustment line. -/
def gridAfterEdgeFile : List Line :=
  [directive "NumEdgeCapacityAdjustments" [1], adjustmentLine, directive "Grid" [4, 4, 6]]

/-- Embedding of `GCell::setDensityLocation`. -/
def GCell.setDensityLocation (c : GCell) (dLx dLy : Int) : GCell :=
  { c with dUx := dLx + (c.dUx - c.dLx), dUy := dLy + (c.dUy - c.dLy),
           dLx := dLx, dLy := dLy }

/-- Embedding of `GCell::setDensityCenterLocation`. -/
def GCell.setDensityCenterLocation (c : GCell) (dCx dCy : Int) : GCell :=
  let halfDDx := Int.tdiv c.dDx 2
  let halfDDy := Int.tdiv c.dDy 2
  { c with dLx := dCx - halfDDx, dLy := dCy - halfDDy,
           dUx := dCx + halfDDx, dUy := dCy + halfDDy }

/-- The centre of the density box as the specification defines a centre,
`((dLx + dUx) / 2, (dLy + dUy) / 2)`, with the integer division of `GCell::cx`. -/
def GCell.densityCentreSpec (c : GCell) : Int × Int :=
  (Int.tdiv (c.dLx + c.dUx) 2, Int.tdiv (c.dLy + c.dUy) 2)

/-- The density box `(dLx, dLy, dUx, dUy)` of a G-cell. -/
def GCell.densityBox (c : GCell) : Int × Int × Int × Int := (c.dLx, c.dLy, c.dUx, c.dUy)

/-- The placement box `(lx, ly, ux, uy)` of a G-cell. -/
def GCell.box (c : GCell) : Int × Int × Int × Int := (c.lx, c.ly, c.ux, c.uy)

/-- A G-cell whose density box is `10..20 x 10..20`. -/
def shiftedDensityCell : GCell :=
  { insts := [0], lx := 10, ly := 10, ux := 20, uy := 20,
    dLx := 10, dLy := 10, dUx := 20, dUy := 20 }

/-- A G-cell with the placement box `0..4 x 0..2`. -/
def originCell : GCell := { insts := [0], lx := 0, ly := 0, ux := 4, uy := 2 }

/-- A state with one net on the pins `0` at `(3, 0)` and `1` at `(3, 1024)`. -/
def tallNet : NesterovBase :=
  { gCellStor := [{ insts := [0], gPins := [0] }, { insts := [1], gPins := [1] }],
    gPinStor := [{ gCell := some 0, gNet := some 0, cx := 3, cy := 0 },
                 { gCell := some 1, gNet := some 0, cx := 3, cy := 1024 }],
    gNetStor := [{ gPins := [0, 1] }] }

/-- A state with one net on the pins `0` at `(0, 0)` and `1` at `(5, 0)`. -/
def wideNet : NesterovBase :=
  { gCellStor := [{ insts := [0], gPins := [0] }, { insts := [1], gPins := [1] }],
    gPinStor := [{ gCell := some 0, gNet := some 0, cx := 0, cy := 0 },
                 { gCell := some 1, gNet := some 0, cx := 5, cy := 0 }],
    gNetStor := [{ gPins := [0, 1] }] }

/-! ## Scenarios beyond 24 significant bits -/

/-- The core `0..16777217 x 0..4` (the width is `2^24 + 1`) with one unit placeable
instance and no fixed instance. -/
def wideCore : PlacerBase := smallCore 16777217 4

/-- The core `0..16777217 x 0..1` filled by two placeable instances of the widths
`8388608` and `8388609`. -/
def filledCore : PlacerBase :=
  { insts := [⟨0, 0, 8388608, 1⟩, ⟨8388608, 0, 16777217, 1⟩],
    placeInsts := [⟨0, 0, 8388608, 1⟩, ⟨8388608, 0, 16777217, 1⟩],
    placeInstsArea := 16777217,
    coreLx := 0, coreLy := 0, coreUx := 16777217, coreUy := 1 }

/-! ## Helper lemmas: the bin-count search -/

theorem foundBinCnt_unfold (c : Int) :
    foundBinCnt c =
      if 4 ≤ c ∧ c < 16 then some 2
      else if 16 ≤ c ∧ c < 64 then some 4
      else if 64 ≤ c ∧ c < 256 then some 8
      else if 256 ≤ c ∧ c < 1024 then some 16
      else if 1024 ≤ c ∧ c < 4096 then some 32
      else if 4096 ≤ c ∧ c < 16384 then some 64
      else if 16384 ≤ c ∧ c < 65536 then some 128
      else if 65536 ≤ c ∧ c < 262144 then some 256
      else if 262144 ≤ c ∧ c < 1048576 then some 512
      else if 1048576 ≤ c ∧ c < 4194304 then some 1024
      else some 2048 := by
  simp [foundBinCnt, foundBinCntLoop]

set_option linter.unreachableTactic false in
set_option linter.unusedTactic false in
theorem foundBinCnt_in_range (c : Int) (h4 : 4 ≤ c) (hlt : c < 4194304) :
    ∃ k, foundBinCnt c = some k ∧ BinCntSpec c k := by
  have hcases : c < 16 ∨ (16 ≤ c ∧ c < 64) ∨ (64 ≤ c ∧ c < 256) ∨ (256 ≤ c ∧ c < 1024)
      ∨ (1024 ≤ c ∧ c < 4096) ∨ (4096 ≤ c ∧ c < 16384) ∨ (16384 ≤ c ∧ c < 65536)
      ∨ (65536 ≤ c ∧ c < 262144) ∨ (262144 ≤ c ∧ c < 1048576) ∨ 1048576 ≤ c := by omega
  rcases hcases with h | h | h | h | h | h | h | h | h | h
  · refine ⟨2, ?_, ⟨1, by norm_num, by norm_num, by norm_num⟩, by omega, by omega⟩
    rw [foundBinCnt_unfold]
    repeat (first | rw [if_pos (by omega)] | rw [if_neg (by omega)])
  · refine ⟨4, ?_, ⟨2, by norm_num, by norm_num, by norm_num⟩, by omega, by omega⟩
    rw [foundBinCnt_unfold]
    repeat (first | rw [if_pos (by omega)] | rw [if_neg (by omega)])
  · refine ⟨8, ?_, ⟨3, by norm_num, by norm_num, by norm_num⟩, by omega, by omega⟩
    rw [foundBinCnt_unfold]
    repeat (first | rw [if_pos (by omega)] | rw [if_neg (by omega)])
  · refine ⟨16, ?_, ⟨4, by norm_num, by norm_num, by norm_num⟩, by omega, by omega⟩
    rw [foundBinCnt_unfold]
    repeat (first | rw [if_pos (by omega)] | rw [if_neg (by omega)])
  · refine ⟨32, ?_, ⟨5, by norm_num, by norm_num, by norm_num⟩, by omega, by omega⟩
    rw [foundBinCnt_unfold]
    repeat (first | rw [if_pos (by omega)] | rw [if_neg (by omega)])
  · refine ⟨64, ?_, ⟨6, by norm_num, by norm_num, by norm_num⟩, by omega, by omega⟩
    rw [foundBinCnt_unfold]
    repeat (first | rw [if_pos (by omega)] | rw [if_neg (by omega)])
  · refine ⟨128, ?_, ⟨7, by norm_num, by norm_num, by norm_num⟩, by omega, by omega⟩
    rw [foundBinCnt_unfold]
    repeat (first | rw [if_pos (by omega)] | rw [if_neg (by omega)])
  · refine ⟨256, ?_, ⟨8, by norm_num, by norm_num, by norm_num⟩, by omega, by omega⟩
    rw [foundBinCnt_unfold]
    repeat (first | rw [if_pos (by omega)] | rw [if_neg (by omega)])
  · refine ⟨512, ?_, ⟨9, by norm_num, by norm_num, by norm_num⟩, by omega, by omega⟩
    rw [foundBinCnt_unfold]
    repeat (first | rw [if_pos (by omega)] | rw [if_neg (by omega)])
  · refine ⟨1024, ?_, ⟨10, by norm_num, by norm_num, by norm_num⟩, by omega, by omega⟩
    rw [foundBinCnt_unfold]
    repeat (first | rw [if_pos (by omega)] | rw [if_neg (by omega)])

set_option linter.unreachableTactic false in
set_option linter.unusedTactic false in
theorem foundBinCnt_out_of_range (c : Int) (h : c < 4 ∨ 4194304 ≤ c) :
    foundBinCnt c = some 2048 := by
  rw [foundBinCnt_unfold]
  repeat (first | rw [if_pos (by omega)] | rw [if_neg (by omega)])

/-- The search loop never exhausts the loop bound of the embedding. -/
theorem foundBinCnt_isSome (c : Int) : ∃ k, foundBinCnt c = some k := by
  by_cases h : 4 ≤ c ∧ c < 4194304
  · obtain ⟨k, hk, _⟩ := foundBinCnt_in_range c h.1 h.2
    exact ⟨k, hk⟩
  · exact ⟨2048, foundBinCnt_out_of_range c (by omega)⟩

/-! ## Helper lemmas: frame of `initBins` -/

theorem updateBinsNonPlaceArea_frame (bg g : BinGrid) (pb : PlacerBase)
    (h : bg.updateBinsNonPlaceArea pb = .ok g) :
    ∃ bins, g = { bg with bins := bins } := by
  unfold BinGrid.updateBinsNonPlaceArea at h
  simp only [bind, Except.bind, pure, Except.pure] at h
  split at h
  · cases h
  · cases h
    exact ⟨_, rfl⟩

theorem updateBinsNonPlaceArea_nil (bg : BinGrid) (pb : PlacerBase)
    (h : pb.nonPlaceInsts = []) :
    bg.updateBinsNonPlaceArea pb =
      .ok { bg with bins := bg.bins.map clearNonPlaceArea } := by
  unfold BinGrid.updateBinsNonPlaceArea
  rw [h]
  rfl

theorem initBinCnt_eq (bg : BinGrid) (pb : PlacerBase) (c k : Int)
    (hc : idealBinCnt pb bg = .ok c) (hk : foundBinCnt c = some k)
    (hx : (if bg.isSetBinCntX then bg.binCntX else k) ≠ 0)
    (hy : (if bg.isSetBinCntY then bg.binCntY else k) ≠ 0) :
    bg.initBinCnt pb = .ok
      { bg with
        binCntX := if bg.isSetBinCntX then bg.binCntX else k,
        binCntY := if bg.isSetBinCntY then bg.binCntY else k,
        binSizeX := binSizeOf (bg.ux - bg.lx) (if bg.isSetBinCntX then bg.binCntX else k),
        binSizeY := binSizeOf (bg.uy - bg.ly) (if bg.isSetBinCntY then bg.binCntY else k) } := by
  unfold BinGrid.initBinCnt
  simp only [bind, Except.bind, hc, hk, pure, Except.pure]
  rw [if_neg (not_or.mpr ⟨hx, hy⟩)]

theorem initBinCnt_zero (bg : BinGrid) (pb : PlacerBase) (c k : Int)
    (hc : idealBinCnt pb bg = .ok c) (hk : foundBinCnt c = some k)
    (h0 : (if bg.isSetBinCntX then bg.binCntX else k) = 0 ∨
      (if bg.isSetBinCntY then bg.binCntY else k) = 0) :
    bg.initBinCnt pb = .error .notFinite := by
  unfold BinGrid.initBinCnt
  simp only [bind, Except.bind, hc, hk, pure, Except.pure]
  rw [if_pos h0]

theorem initBins_counts (bg g : BinGrid) (pb : PlacerBase) (c k : Int)
    (hc : idealBinCnt pb bg = .ok c) (hk : foundBinCnt c = some k)
    (h : bg.initBins pb = .ok g) :
    g.binCntX = (if bg.isSetBinCntX then bg.binCntX else k) ∧
    g.binCntY = (if bg.isSetBinCntY then bg.binCntY else k) := by
  unfold BinGrid.initBins at h
  by_cases h0 : (if bg.isSetBinCntX then bg.binCntX else k) = 0 ∨
      (if bg.isSetBinCntY then bg.binCntY else k) = 0
  · rw [initBinCnt_zero bg pb c k hc hk h0] at h
    cases h
  · rw [initBinCnt_eq bg pb c k hc hk (not_or.mp h0).1 (not_or.mp h0).2] at h
    simp only [bind, Except.bind] at h
    obtain ⟨bins, hg⟩ := updateBinsNonPlaceArea_frame _ _ _ h
    subst hg
    exact ⟨rfl, rfl⟩

theorem initBins_returns (bg : BinGrid) (pb : PlacerBase) (c k : Int)
    (hc : idealBinCnt pb bg = .ok c) (hk : foundBinCnt c = some k)
    (hx : (if bg.isSetBinCntX then bg.binCntX else k) ≠ 0)
    (hy : (if bg.isSetBinCntY then bg.binCntY else k) ≠ 0)
    (hn : pb.nonPlaceInsts = []) :
    ∃ g, bg.initBins pb = .ok g := by
  unfold BinGrid.initBins
  rw [initBinCnt_eq bg pb c k hc hk hx hy]
  simp only [bind, Except.bind]
  rw [updateBinsNonPlaceArea_nil _ _ hn]
  exact ⟨_, rfl⟩

/-! ## C1: overlap areas -/

/-- C1, evaluated at two failing inputs: for the bin box and the cell box
`(0, 0, 65536, 65536)` each of the three overlap routines returns `0`, and for the
boxes `(0, 0, 46341, 46341)` a negative number, because the product of the two side
lengths is formed in 32 bits, while the exact overlap areas of the specification are
`65536 * 65536 = 4294967296` and `46341 * 46341 = 2147488281`. -/
theorem overlapArea_wraps_at_65536 :
    getOverlapArea (Bin.mk6 0 0 0 0 65536 65536) { ux := 65536, uy := 65536 } = 0 ∧
    getOverlapDensityArea (Bin.mk6 0 0 0 0 65536 65536) { dUx := 65536, dUy := 65536 } = 0 ∧
    getOverlapAreaInst (Bin.mk6 0 0 0 0 65536 65536) ⟨0, 0, 65536, 65536⟩ = 0 ∧
    overlapAreaSpec 0 0 65536 65536 0 0 65536 65536 = 4294967296 ∧
    getOverlapArea (Bin.mk6 0 0 0 0 46341 46341) { ux := 46341, uy := 46341 }
      = -2147479015 ∧
    overlapAreaSpec 0 0 46341 46341 0 0 46341 46341 = 2147488281 := by
  decide

/-! ## C2: layout of the bin array -/

/-- C2, evaluated at a failing input: on the core `0..4 x 0..4` with user bin counts
`Nx = Ny = 2` (bin width `2`, so the core width is an exact multiple of it)
`initBins` returns a grid whose bin at index `1 * Nx + 0` has grid coordinates
`(2, 0)` and not `(0, 1)`: the row is only left when `x > ux`, so a third, empty bin
is written at `x = ux`. -/
theorem initBins_exact_multiple_layout :
    (do
      let g ← (BinGrid.configure (userBinCnt 2 2) (smallCore 4 4)).initBins (smallCore 4 4)
      pure (g.binCntX, g.binCntY, g.binSizeX, g.binSizeY,
            (g.bins.get? (1 * 2 + 0)).map (fun b => (b.x, b.y, b.lx, b.ux)))) =
      Except.ok (2, 2, 2, 2, some (2, 0, 4, 4)) := by
  rfl

/-! ## C3: the automatic bin count -/

/-- C3 as stated fails: for `idealBinCnt = 3` and for `idealBinCnt = 4194304` the
count found by `initBins` is `2048`, which does not satisfy the specified property
(no `k` in `2, ..., 1024` has `k² ≤ 3`, and `4194304 ≥ (2 * 1024)²`). -/
theorem foundBinCnt_spec_fails :
    (foundBinCnt 3 = some 2048 ∧ ¬ ∃ k, foundBinCnt 3 = some k ∧ BinCntSpec 3 k) ∧
    (foundBinCnt 4194304 = some 2048 ∧
      ¬ ∃ k, foundBinCnt 4194304 = some k ∧ BinCntSpec 4194304 k) := by
  have h3 : foundBinCnt 3 = some 2048 := by decide
  have h4 : foundBinCnt 4194304 = some 2048 := by decide
  refine ⟨⟨h3, ?_⟩, ⟨h4, ?_⟩⟩
  · rintro ⟨k, hk, hspec⟩
    rw [h3] at hk
    cases hk
    have hle : (2048 : Int) * 2048 ≤ 3 := hspec.2.1
    omega
  · rintro ⟨k, hk, hspec⟩
    rw [h4] at hk
    cases hk
    obtain ⟨e, -, he, hpow⟩ := hspec.1
    have hmono : (2 : Int) ^ e ≤ 2 ^ 10 := pow_le_pow_right₀ (by norm_num) he
    rw [← hpow] at hmono
    norm_num at hmono

/-- C3, amended: when no bin count is supplied by the user and
`4 ≤ idealBinCnt < 4194304`, the search of `initBins` finds the power of two `k` in
`2, 4, ..., 1024` with `k² ≤ idealBinCnt < (2k)²`, every grid returned by `initBins`
has `Nx = Ny = k`, and `initBins` does return a grid when no instance is
fixed. -/
theorem initBins_binCnt_spec (bg : BinGrid) (pb : PlacerBase) (c : Int)
    (hX : bg.isSetBinCntX = false) (hY : bg.isSetBinCntY = false)
    (hc : idealBinCnt pb bg = .ok c) (h4 : 4 ≤ c) (hlt : c < 4194304) :
    ∃ k, foundBinCnt c = some k ∧ BinCntSpec c k ∧
      (∀ g, bg.initBins pb = .ok g → g.binCntX = k ∧ g.binCntY = k) ∧
      (pb.nonPlaceInsts = [] → ∃ g, bg.initBins pb = .ok g) := by
  obtain ⟨k, hk, hspec⟩ := foundBinCnt_in_range c h4 hlt
  refine ⟨k, hk, hspec, ?_, ?_⟩
  · intro g hg
    have := initBins_counts bg g pb c k hc hk hg
    simpa [hX, hY] using this
  · intro hn
    obtain ⟨⟨e, _, _, hpow⟩, _, _⟩ := hspec
    have hk0 : k ≠ 0 := by
      rw [hpow]
      exact pow_ne_zero e (by decide)
    exact initBins_returns bg pb c k hc hk (by rw [hX]; exact hk0) (by rw [hY]; exact hk0) hn

/-- Witness of `initBins_binCnt_spec` on scenario S1, where `idealBinCnt = 1000000`. -/
theorem initBins_binCnt_spec_witness :
    ∃ k, foundBinCnt 1000000 = some k ∧ BinCntSpec 1000000 k ∧
      (∀ g, (BinGrid.configure {} scenarioS1).initBins scenarioS1 = .ok g →
        g.binCntX = k ∧ g.binCntY = k) ∧
      (scenarioS1.nonPlaceInsts = [] →
        ∃ g, (BinGrid.configure {} scenarioS1).initBins scenarioS1 = .ok g) :=
  initBins_binCnt_spec (BinGrid.configure {} scenarioS1) scenarioS1 1000000
    rfl rfl rfl (by decide) (by decide)

/-! ## C4: scenario S1 -/

/-- C4 as stated fails: on scenario S1 (target density 1, no user bin counts)
`initBins` does not return a grid with `Nx = Ny = 2`. -/
theorem scenarioS1_binCnt_not_two :
    ¬ ∃ g, (BinGrid.configure {} scenarioS1).initBins scenarioS1 = .ok g ∧
      g.binCntX = 2 ∧ g.binCntY = 2 := by
  rintro ⟨g, hg, hx, -⟩
  have h := (initBins_counts (BinGrid.configure {} scenarioS1) g scenarioS1
    1000000 512 rfl (by decide) hg).1
  rw [hx] at h
  revert h
  decide

/-- C4, amended: on scenario S1 (`idealBinCnt = 1000 * 1000 / 1`) `initBins` returns
a grid with `Nx = Ny = 512`, the power of two with `512² ≤ 1000000 < 1024²`. -/
theorem scenarioS1_binCnt :
    ∃ g, (BinGrid.configure {} scenarioS1).initBins scenarioS1 = .ok g ∧
      g.binCntX = 512 ∧ g.binCntY = 512 := by
  obtain ⟨g, hg⟩ := initBins_returns (BinGrid.configure {} scenarioS1) scenarioS1
    1000000 512 rfl (by decide) (by decide) (by decide) rfl
  have h := initBins_counts (BinGrid.configure {} scenarioS1) g scenarioS1
    1000000 512 rfl (by decide) hg
  exact ⟨g, hg, h.1, h.2⟩

/-! ## Helper lemmas: loops in the `Except` monad -/

theorem foldlM_preserves {α σ : Type} (P : σ → Prop) (f : σ → α → Except Fault σ)
    (hf : ∀ s a s', P s → f s a = .ok s' → P s') (l : List α) :
    ∀ s s', P s → l.foldlM f s = .ok s' → P s' := by
  induction l with
  | nil =>
    intro s s' hs h
    simp only [List.foldlM, pure, Except.pure] at h
    cases h
    exact hs
  | cons a l ih =>
    intro s s' hs h
    simp only [List.foldlM, bind, Except.bind] at h
    cases hfa : f s a with
    | error e => rw [hfa] at h; cases h
    | ok s1 =>
      rw [hfa] at h
      exact ih s1 s' (hf s a s1 hs hfa) h

theorem modifyNth_map_frame (f : Bin → Bin) (hf : ∀ b, (f b).frame = b.frame) :
    ∀ (k : Nat) (bins : List Bin), (modifyNth f k bins).map Bin.frame = bins.map Bin.frame
  | 0, [] => rfl
  | _ + 1, [] => rfl
  | 0, b :: bs => by simp [modifyNth, hf]
  | k + 1, b :: bs => by simp [modifyNth, modifyNth_map_frame f hf k bs]

theorem depositLoop_frame (binCntX : Int) (f : Bin → Bin)
    (hf : ∀ b, (f b).frame = b.frame) (pairX pairY : Int × Int) (bins bins' : List Bin)
    (h : depositLoop binCntX f pairX pairY bins = .ok bins') :
    bins'.map Bin.frame = bins.map Bin.frame := by
  unfold depositLoop at h
  refine foldlM_preserves (fun bs => bs.map Bin.frame = bins.map Bin.frame) _ ?_ _ _ _ rfl h
  intro s i s' hs hi
  refine foldlM_preserves (fun bs => bs.map Bin.frame = bins.map Bin.frame) _ ?_ _ _ _ hs hi
  intro t j t' ht hj
  unfold updateAt at hj
  split at hj
  · cases hj
    rw [modifyNth_map_frame f hf]
    exact ht
  · cases hj

theorem gCellAreaStep_frame (bg : BinGrid) (bs bs' : List Bin) (cell : GCell)
    (h : gCellAreaStep bg bs cell = .ok bs') :
    bs'.map Bin.frame = bs.map Bin.frame := by
  unfold gCellAreaStep at h
  simp only [bind, Except.bind, pure, Except.pure] at h
  split at h
  · cases h
  · split at h
    · cases h
    · split at h
      · exact depositLoop_frame _ (addPlacedArea cell) (fun _ => rfl) _ _ _ _ h
      · split at h
        · exact depositLoop_frame _ (addFillerArea cell) (fun _ => rfl) _ _ _ _ h
        · cases h
          rfl

theorem gCellDensityAreaStep_frame (bg : BinGrid) (bs bs' : List Bin) (cell : GCell)
    (h : gCellDensityAreaStep bg bs cell = .ok bs') :
    bs'.map Bin.frame = bs.map Bin.frame := by
  unfold gCellDensityAreaStep at h
  simp only [bind, Except.bind, pure, Except.pure] at h
  split at h
  · cases h
  · split at h
    · cases h
    · split at h
      · exact depositLoop_frame _ (addPlacedDensityArea cell) (fun _ => rfl) _ _ _ _ h
      · split at h
        · exact depositLoop_frame _ (addFillerDensityArea cell) (fun _ => rfl) _ _ _ _ h
        · cases h
          rfl

theorem map_clearGCellArea_frame (bins : List Bin) :
    (bins.map clearGCellArea).map Bin.frame = bins.map Bin.frame := by
  rw [List.map_map]
  rfl

theorem updateBinsGCellArea_unfold (bg g : BinGrid) (cells : List GCell)
    (h : bg.updateBinsGCellArea cells = .ok g) :
    ∃ bins, cells.foldlM (gCellAreaStep bg) (bg.bins.map clearGCellArea) = .ok bins ∧
      g = { bg with bins := bins } := by
  unfold BinGrid.updateBinsGCellArea at h
  simp only [bind, Except.bind, pure, Except.pure] at h
  split at h
  · cases h
  · rename_i bins hb
    cases h
    exact ⟨bins, hb, rfl⟩

theorem updateBinsGCellDensityArea_unfold (bg g : BinGrid) (cells : List GCell)
    (h : bg.updateBinsGCellDensityArea cells = .ok g) :
    ∃ bins, cells.foldlM (gCellDensityAreaStep bg) (bg.bins.map clearGCellArea)
        = .ok bins ∧
      g = { bg with bins := bins } := by
  unfold BinGrid.updateBinsGCellDensityArea at h
  simp only [bind, Except.bind, pure, Except.pure] at h
  split at h
  · cases h
  · rename_i bins hb
    cases h
    exact ⟨bins, hb, rfl⟩

/-! ## Helper lemmas: interval arithmetic -/

theorem wrapInt32_of_range (z : Int) (h1 : -2147483648 ≤ z) (h2 : z < 2147483648) :
    wrapInt32 z = z := by
  unfold wrapInt32
  omega

theorem overlapLen_step (x S ux cl cu : Int) (hS : 0 < S) (hcl : cl ≤ cu) (hcu : cu ≤ ux) :
    overlapLen x (min (x + S) ux) cl cu = clampTo cl cu (x + S) - clampTo cl cu x := by
  unfold overlapLen clampTo
  omega

theorem overlapLen_nonneg (a b c d : Int) : 0 ≤ overlapLen a b c d := by
  unfold overlapLen
  omega

theorem overlapLen_bin_le (x S ux cl cu : Int) (hS : 0 < S) :
    overlapLen x (min (x + S) ux) cl cu ≤ S := by
  unfold overlapLen
  omega

theorem overlapBody_eq_mul (bLx bLy bUx bUy cLx cLy cUx cUy Sx Sy : Int)
    (hSx : 0 < Sx) (hSy : 0 < Sy) (hS : Sx * Sy < 2147483648)
    (hx : overlapLen bLx bUx cLx cUx ≤ Sx) (hy : overlapLen bLy bUy cLy cUy ≤ Sy) :
    overlapBody bLx bLy bUx bUy cLx cLy cUx cUy =
      overlapLen bLx bUx cLx cUx * overlapLen bLy bUy cLy cUy := by
  unfold overlapBody
  simp only []
  by_cases hc : max bLx cLx ≥ min bUx cUx ∨ max bLy cLy ≥ min bUy cUy
  · rw [if_pos hc]
    rcases hc with h | h
    · have : overlapLen bLx bUx cLx cUx = 0 := by unfold overlapLen; omega
      rw [this, zero_mul]
    · have : overlapLen bLy bUy cLy cUy = 0 := by unfold overlapLen; omega
      rw [this, mul_zero]
  · rw [if_neg hc]
    have hw : overlapLen bLx bUx cLx cUx = min bUx cUx - max bLx cLx := by
      unfold overlapLen; omega
    have hh : overlapLen bLy bUy cLy cUy = min bUy cUy - max bLy cLy := by
      unfold overlapLen; omega
    rw [← hw, ← hh]
    have hw0 := overlapLen_nonneg bLx bUx cLx cUx
    have hh0 := overlapLen_nonneg bLy bUy cLy cUy
    have hSx' : Sx ≤ Sx * Sy := by nlinarith
    have hSy' : Sy ≤ Sx * Sy := by nlinarith
    have hprod : overlapLen bLx bUx cLx cUx * overlapLen bLy bUy cLy cUy ≤ Sx * Sy :=
      mul_le_mul hx hy hh0 (by omega)
    have hprod0 : 0 ≤ overlapLen bLx bUx cLx cUx * overlapLen bLy bUy cLy cUy :=
      mul_nonneg hw0 hh0
    rw [wrapInt32_of_range (overlapLen bLx bUx cLx cUx) (by omega) (by omega),
      wrapInt32_of_range (overlapLen bLy bUy cLy cUy) (by omega) (by omega),
      wrapInt32_of_range _ (by omega) (by omega)]

/-- On boxes whose overlap is at most `W` wide and `H` high with `W * H < 2^31` the
overlap routines return the exact overlap area of the specification. -/
theorem overlapBody_eq_spec (bLx bLy bUx bUy cLx cLy cUx cUy W H : Int)
    (hW : 0 < W) (hH : 0 < H) (hWH : W * H < 2147483648)
    (hx : overlapLen bLx bUx cLx cUx ≤ W) (hy : overlapLen bLy bUy cLy cUy ≤ H) :
    overlapBody bLx bLy bUx bUy cLx cLy cUx cUy =
      overlapAreaSpec bLx bLy bUx bUy cLx cLy cUx cUy := by
  rw [overlapBody_eq_mul bLx bLy bUx bUy cLx cLy cUx cUy W H hW hH hWH hx hy]
  rfl

theorem sum_idxRange_telescope (G : Int → Int) (lo hi : Int) (h : lo ≤ hi + 1) :
    ((idxRange lo hi).map (fun i => G (i + 1) - G i)).sum = G (hi + 1) - G lo := by
  unfold idxRange
  have key : ∀ n : Nat,
      (((List.range n).map (fun (k : Nat) => lo + (k : Int))).map
        (fun i => G (i + 1) - G i)).sum = G (lo + n) - G lo := by
    intro n
    induction n with
    | zero => simp
    | succ n ih =>
      rw [List.range_succ, List.map_append, List.map_append, List.sum_append, ih]
      simp only [List.map_cons, List.map_nil, List.sum_cons, List.sum_nil]
      push_cast
      ring_nf
  rw [key]
  have : lo + ((hi + 1 - lo).toNat : Int) = hi + 1 := by
    rw [Int.toNat_of_nonneg (by omega)]
    ring
  rw [this]

/-- The overlap lengths of a box side `[cl, cu]` with the bins `lo, ..., hi` of one
axis add up to the length of the side, when the bins `lo` to `hi` cover it. -/
theorem sum_overlapLen_bins (o S ux cl cu lo hi : Int) (hS : 0 < S) (hcl : cl ≤ cu)
    (hcu : cu ≤ ux) (hlohi : lo ≤ hi) (hlo : o + lo * S ≤ cl) (hhi : cu ≤ o + hi * S) :
    ((idxRange lo hi).map
      (fun i => overlapLen (o + i * S) (min (o + i * S + S) ux) cl cu)).sum = cu - cl := by
  have hfun : (fun i => overlapLen (o + i * S) (min (o + i * S + S) ux) cl cu) =
      (fun i => (fun k => clampTo cl cu (o + k * S)) (i + 1) -
        (fun k => clampTo cl cu (o + k * S)) i) := by
    funext i
    rw [overlapLen_step _ _ _ _ _ hS hcl hcu]
    have : o + (i + 1) * S = o + i * S + S := by ring
    simp only [this]
  rw [hfun, sum_idxRange_telescope (fun k => clampTo cl cu (o + k * S)) lo hi (by omega)]
  have h1 : o + (hi + 1) * S = o + hi * S + S := by ring
  simp only [h1]
  unfold clampTo
  omega

/-- The index pair of `getMinMaxIdx` for a box side `[lo, hi]` that starts at or after
the grid origin and ends at or before the start of bin `M`. -/
theorem getMinMaxIdx_spec (lo hi origin S M : Int) (hS : 0 < S) (h0 : origin ≤ lo)
    (h1 : lo ≤ hi) (h2 : hi ≤ origin + M * S) :
    ∃ a b, getMinMaxIdx lo hi origin S = .ok (a, b) ∧ 0 ≤ a ∧ a ≤ b ∧ b ≤ M ∧
      origin + a * S ≤ lo ∧ hi ≤ origin + b * S := by
  have hS0 : S ≠ 0 := by omega
  unfold getMinMaxIdx
  rw [if_neg hS0]
  simp only []
  have hlo_nonneg : 0 ≤ lo - origin := by omega
  have hhi_nonneg : 0 ≤ hi - origin := by omega
  have hta : Int.tdiv (lo - origin) S = (lo - origin) / S :=
    Int.tdiv_eq_ediv hlo_nonneg (by omega)
  have htb : Int.tdiv (hi - origin) S = (hi - origin) / S :=
    Int.tdiv_eq_ediv hhi_nonneg (by omega)
  have hmod : fastModulo (hi - origin) S = 0 ↔ (hi - origin) % S = 0 := by
    unfold fastModulo
    split
    · rw [Int.tmod_eq_emod hhi_nonneg (by omega)]
    · rw [Int.emod_eq_of_lt hhi_nonneg (by omega)]
  have ha1 : (lo - origin) / S * S ≤ lo - origin := Int.ediv_mul_le _ hS0
  have ha2 : lo - origin < ((lo - origin) / S + 1) * S :=
    Int.lt_ediv_add_one_mul_self _ hS
  have hb1 : (hi - origin) / S * S ≤ hi - origin := Int.ediv_mul_le _ hS0
  have hb2 : hi - origin < ((hi - origin) / S + 1) * S :=
    Int.lt_ediv_add_one_mul_self _ hS
  have ha0 : 0 ≤ (lo - origin) / S := Int.ediv_nonneg hlo_nonneg (by omega)
  have hdiv_le : (lo - origin) / S ≤ (hi - origin) / S :=
    Int.ediv_le_ediv hS (by omega)
  rw [hta, htb]
  by_cases hm : (hi - origin) % S = 0
  · rw [if_pos (hmod.mpr hm)]
    have hb3 : (hi - origin) / S * S = hi - origin := Int.ediv_mul_cancel_of_emod_eq_zero hm
    refine ⟨_, _, rfl, ha0, hdiv_le, ?_, by omega, by omega⟩
    by_contra hcon
    have : M + 1 ≤ (hi - origin) / S := by omega
    have : (M + 1) * S ≤ (hi - origin) / S * S := by nlinarith
    nlinarith
  · rw [if_neg (fun h => hm (hmod.mp h))]
    refine ⟨_, _, rfl, ha0, by omega, ?_, by omega, ?_⟩
    · by_contra hcon
      have h3 : M ≤ (hi - origin) / S := by omega
      have h4 : M * S ≤ (hi - origin) / S * S := by nlinarith
      have h5 : (hi - origin) / S * S = hi - origin := by omega
      exact hm (Int.emod_eq_zero_of_dvd ⟨(hi - origin) / S, by rw [mul_comm]; omega⟩)
    · have : ((hi - origin) / S + 1) * S = (hi - origin) / S * S + S := by ring
      omega

/-! ## Helper lemmas: sums over the bin array -/

theorem foldlM_accumulate {α σ : Type} (I : σ → Prop) (S : σ → Int)
    (step : σ → α → Except Fault σ) (amount : α → Int) (good : α → Prop)
    (hstep : ∀ s a, I s → good a → ∃ s', step s a = .ok s' ∧ I s' ∧ S s' = S s + amount a) :
    ∀ (l : List α) (s : σ), I s → (∀ a ∈ l, good a) →
      ∃ s', l.foldlM step s = .ok s' ∧ I s' ∧ S s' = S s + (l.map amount).sum := by
  intro l
  induction l with
  | nil =>
    intro s hs _
    exact ⟨s, rfl, hs, by simp⟩
  | cons a l ih =>
    intro s hs hgood
    obtain ⟨s1, h1, hI1, hS1⟩ := hstep s a hs (hgood a (List.mem_cons_self a l))
    obtain ⟨s2, h2, hI2, hS2⟩ := ih s1 hI1 (fun x hx => hgood x (List.mem_cons_of_mem a hx))
    refine ⟨s2, ?_, hI2, ?_⟩
    · simp only [List.foldlM, bind, Except.bind, h1]
      exact h2
    · rw [hS2, hS1, List.map_cons, List.sum_cons]
      ring

theorem modifyNth_map_preserved {β : Type} (π : Bin → β) (f : Bin → Bin)
    (hf : ∀ b, π (f b) = π b) :
    ∀ (k : Nat) (bins : List Bin), (modifyNth f k bins).map π = bins.map π
  | 0, [] => rfl
  | _ + 1, [] => rfl
  | 0, b :: bs => by simp [modifyNth, hf]
  | k + 1, b :: bs => by simp [modifyNth, modifyNth_map_preserved π f hf k bs]

theorem sumOver_modifyNth (fld : Bin → Int) (f : Bin → Bin) :
    ∀ (k : Nat) (bins : List Bin) (b : Bin), bins.get? k = some b →
      sumOver fld (modifyNth f k bins) = sumOver fld bins + (fld (f b) - fld b)
  | _, [], b => by simp
  | 0, c :: bs, b => by
    intro h
    simp only [List.get?_cons_zero, Option.some.injEq] at h
    subst h
    simp only [sumOver, modifyNth, List.map_cons, List.sum_cons]
    ring
  | k + 1, c :: bs, b => by
    intro h
    simp only [List.get?_cons_succ] at h
    have ih := sumOver_modifyNth fld f k bs b h
    simp only [sumOver, modifyNth, List.map_cons, List.sum_cons] at ih ⊢
    rw [ih]
    ring

/-- One statement `f(bins_[k])` on a bin array with known boxes: it succeeds when `k`
is a position of the array, keeps the boxes and adds `amt` of the box at `k` to the
sum of the field `fld`. -/
theorem updateAt_sum (f : Bin → Bin) (fld : Bin → Int) (amt : Int × Int × Int × Int → Int)
    (hbox : ∀ b, (f b).box = b.box) (hadd : ∀ b, fld (f b) = fld b + amt b.box)
    (boxes : List (Int × Int × Int × Int)) (bs : List Bin) (hbs : bs.map Bin.box = boxes)
    (k : Int) (hk : 0 ≤ k) (bx : Int × Int × Int × Int)
    (hget : boxes.get? k.toNat = some bx) :
    ∃ bs', updateAt f bs k = .ok bs' ∧ bs'.map Bin.box = boxes ∧
      sumOver fld bs' = sumOver fld bs + amt bx := by
  have hlt : k.toNat < boxes.length := by
    rcases Nat.lt_or_ge k.toNat boxes.length with h | h
    · exact h
    · rw [List.get?_eq_none.mpr h] at hget
      cases hget
  have hlen : bs.length = boxes.length := by rw [← hbs, List.length_map]
  have hget2 : (bs.get? k.toNat).map Bin.box = some bx := by
    rw [List.get?_eq_getElem?, ← List.getElem?_map, hbs, ← List.get?_eq_getElem?, hget]
  obtain ⟨b, hb, hbb⟩ : ∃ b, bs.get? k.toNat = some b ∧ b.box = bx := by
    cases hq : bs.get? k.toNat with
    | none => rw [hq] at hget2; cases hget2
    | some b =>
      rw [hq] at hget2
      simp only [Option.map_some', Option.some.injEq] at hget2
      exact ⟨b, rfl, hget2⟩
  refine ⟨modifyNth f k.toNat bs, ?_, ?_, ?_⟩
  · unfold updateAt
    rw [if_pos]
    constructor
    · exact hk
    · omega
  · rw [modifyNth_map_preserved Bin.box f hbox, hbs]
  · rw [sumOver_modifyNth fld f _ _ b hb, hadd b, hbb]
    ring

theorem gridBoxes_get (lx ly ux uy Sx Sy : Int) (Nx Ny : Nat) (i j : Int)
    (hi0 : 0 ≤ i) (hi : i < Nx) (hj0 : 0 ≤ j) (hj : j < Ny) :
    0 ≤ j * Nx + i ∧
    (gridBoxes lx ly ux uy Sx Sy Nx (Nx * Ny)).get? (j * (Nx : Int) + i).toNat =
      some (gridBox lx ly ux uy Sx Sy i j) := by
  lift i to ℕ using hi0
  lift j to ℕ using hj0
  have hi' : i < Nx := by exact_mod_cast hi
  have hj' : j < Ny := by exact_mod_cast hj
  have hcast : ((j : Int) * (Nx : Int) + (i : Int)) = ((j * Nx + i : Nat) : Int) := by
    push_cast
    ring
  rw [hcast, Int.toNat_natCast]
  have hlt : j * Nx + i < Nx * Ny := by
    have : (j + 1) * Nx ≤ Ny * Nx := Nat.mul_le_mul_right Nx hj'
    nlinarith
  have hmod : (j * Nx + i) % Nx = i := by
    rw [Nat.mul_comm, Nat.mul_add_mod, Nat.mod_eq_of_lt hi']
  have hdiv : (j * Nx + i) / Nx = j := by
    rw [Nat.mul_comm, Nat.mul_add_div (by omega), Nat.div_eq_of_lt hi', Nat.add_zero]
  refine ⟨by positivity, ?_⟩
  unfold gridBoxes
  rw [List.get?_eq_getElem?, List.getElem?_map, List.getElem?_range hlt]
  simp only [Option.map_some', hmod, hdiv]

theorem mem_idxRange (lo hi a : Int) (h : a ∈ idxRange lo hi) : lo ≤ a ∧ a ≤ hi := by
  unfold idxRange at h
  rw [List.mem_map] at h
  obtain ⟨k, hk, rfl⟩ := h
  rw [List.mem_range] at hk
  omega

/-- The nested deposition loops on a row-major grid: when the index ranges stay inside
the grid and cover the box `(cLx, cLy, cUx, cUy)`, the loops succeed, keep the bin
boxes and add `w` times the area of the box to the sum of the field. -/
theorem depositLoop_sum (lx ly ux uy Sx Sy : Int) (Nx Ny : Nat)
    (hSx : 0 < Sx) (hSy : 0 < Sy) (hS : Sx * Sy < 2147483648)
    (f : Bin → Bin) (fld : Bin → Int) (w cLx cLy cUx cUy : Int)
    (hbox : ∀ b, (f b).box = b.box)
    (hadd : ∀ b, fld (f b) = fld b + w * overlapBody b.lx b.ly b.ux b.uy cLx cLy cUx cUy)
    (loX hiX loY hiY : Int)
    (hloX : 0 ≤ loX) (hX : loX ≤ hiX) (hhiX : hiX < Nx)
    (hloY : 0 ≤ loY) (hY : loY ≤ hiY) (hhiY : hiY < Ny)
    (hcx : cLx ≤ cUx) (hcxu : cUx ≤ ux) (hcxl : lx + loX * Sx ≤ cLx)
    (hcxh : cUx ≤ lx + hiX * Sx)
    (hcy : cLy ≤ cUy) (hcyu : cUy ≤ uy) (hcyl : ly + loY * Sy ≤ cLy)
    (hcyh : cUy ≤ ly + hiY * Sy)
    (bs : List Bin) (hbs : bs.map Bin.box = gridBoxes lx ly ux uy Sx Sy Nx (Nx * Ny)) :
    ∃ bs', depositLoop Nx f (loX, hiX) (loY, hiY) bs = .ok bs' ∧
      bs'.map Bin.box = gridBoxes lx ly ux uy Sx Sy Nx (Nx * Ny) ∧
      sumOver fld bs' = sumOver fld bs + w * ((cUx - cLx) * (cUy - cLy)) := by
  unfold depositLoop
  have houter := foldlM_accumulate
    (fun s : List Bin => s.map Bin.box = gridBoxes lx ly ux uy Sx Sy Nx (Nx * Ny))
    (sumOver fld)
    (fun bs i => (idxRange loY hiY).foldlM
      (fun bs2 j => updateAt f bs2 (j * (Nx : Int) + i)) bs)
    (fun i => w * ((cUy - cLy) * overlapLen (lx + i * Sx) (min (lx + i * Sx + Sx) ux) cLx cUx))
    (fun i => 0 ≤ i ∧ i < Nx)
    (by
      intro s i hs hi
      have hinner := foldlM_accumulate
        (fun s : List Bin => s.map Bin.box = gridBoxes lx ly ux uy Sx Sy Nx (Nx * Ny))
        (sumOver fld)
        (fun bs2 j => updateAt f bs2 (j * (Nx : Int) + i))
        (fun j => (w * overlapLen (lx + i * Sx) (min (lx + i * Sx + Sx) ux) cLx cUx) *
          overlapLen (ly + j * Sy) (min (ly + j * Sy + Sy) uy) cLy cUy)
        (fun j => 0 ≤ j ∧ j < Ny)
        (by
          intro t j ht hj
          obtain ⟨hk0, hget⟩ := gridBoxes_get lx ly ux uy Sx Sy Nx Ny i j hi.1 hi.2 hj.1 hj.2
          obtain ⟨t', h1, h2, h3⟩ := updateAt_sum f fld
            (fun bx => w * overlapBody bx.1 bx.2.1 bx.2.2.1 bx.2.2.2 cLx cLy cUx cUy)
            hbox hadd _ t ht _ hk0 _ hget
          refine ⟨t', h1, h2, ?_⟩
          rw [h3]
          simp only [gridBox]
          rw [overlapBody_eq_mul _ _ _ _ _ _ _ _ Sx Sy hSx hSy hS
            (overlapLen_bin_le _ _ _ _ _ hSx) (overlapLen_bin_le _ _ _ _ _ hSy)]
          ring)
        (idxRange loY hiY) s hs
        (by
          intro j hj
          have := mem_idxRange _ _ _ hj
          omega)
      obtain ⟨s', h1, h2, h3⟩ := hinner
      refine ⟨s', h1, h2, ?_⟩
      rw [h3, List.sum_map_mul_left,
        sum_overlapLen_bins ly Sy uy cLy cUy loY hiY hSy hcy hcyu hY hcyl hcyh]
      ring)
    (idxRange loX hiX) bs hbs
    (by
      intro i hi
      have := mem_idxRange _ _ _ hi
      omega)
  obtain ⟨bs', h1, h2, h3⟩ := houter
  refine ⟨bs', h1, h2, ?_⟩
  rw [h3, List.sum_map_mul_left, List.sum_map_mul_left,
    sum_overlapLen_bins lx Sx ux cLx cUx loX hiX hSx hcx hcxu hX hcxl hcxh]
  ring

/-! ## Helper lemmas: the layout written by `initBins` -/

theorem succ_mod_div_of_lt (p N : Nat) (h : p % N + 1 < N) :
    (p + 1) % N = p % N + 1 ∧ (p + 1) / N = p / N := by
  have hN : 0 < N := by omega
  have hp : p + 1 = N * (p / N) + (p % N + 1) := by
    have := Nat.div_add_mod p N
    omega
  constructor
  · rw [hp, Nat.mul_add_mod, Nat.mod_eq_of_lt h]
  · rw [hp, Nat.mul_add_div hN, Nat.div_eq_of_lt h, Nat.add_zero]

theorem succ_mod_div_of_eq (p N : Nat) (h : p % N + 1 = N) :
    (p + 1) % N = 0 ∧ (p + 1) / N = p / N + 1 := by
  have hN : 0 < N := by omega
  have hp : p + 1 = N * (p / N + 1) := by
    have := Nat.div_add_mod p N
    rw [Nat.mul_add, Nat.mul_one]
    omega
  constructor
  · rw [hp, Nat.mul_mod_right]
  · rw [hp, Nat.mul_div_cancel_left _ hN]

theorem initBinsLoop_boxes (lx ly ux uy Sx Sy : Int) (Nx : Nat) (hN : 0 < Nx)
    (hSx : 0 < Sx) (h1 : ((Nx : Int) - 1) * Sx ≤ ux - lx) (h2 : ux - lx < Nx * Sx) :
    ∀ (n p : Nat),
      (initBinsLoop lx ux uy Sx Sy n (lx + ((p % Nx : Nat) : Int) * Sx)
        (ly + ((p / Nx : Nat) : Int) * Sy) ((p % Nx : Nat) : Int)
        ((p / Nx : Nat) : Int)).map Bin.box =
      (List.range n).map (fun (k : Nat) =>
        gridBox lx ly ux uy Sx Sy (((p + k) % Nx : Nat) : Int) (((p + k) / Nx : Nat) : Int)) := by
  intro n
  induction n with
  | zero => intro p; simp [initBinsLoop]
  | succ n ih =>
    intro p
    have hmodlt : p % Nx < Nx := Nat.mod_lt _ hN
    rw [List.range_succ_eq_map, List.map_cons, List.map_map]
    by_cases hw : lx + ((p % Nx : Nat) : Int) * Sx + Sx > ux
    · have hlast : p % Nx + 1 = Nx := by
        by_contra hcon
        have hlt : ((p % Nx : Nat) : Int) + 1 ≤ (Nx : Int) - 1 := by omega
        have : (((p % Nx : Nat) : Int) + 1) * Sx ≤ ((Nx : Int) - 1) * Sx :=
          mul_le_mul_of_nonneg_right hlt (le_of_lt hSx)
        nlinarith
      obtain ⟨hm, hd⟩ := succ_mod_div_of_eq p Nx hlast
      have ih' := ih (p + 1)
      rw [hm, hd] at ih'
      simp only [initBinsLoop, if_pos hw, List.map_cons]
      congr 1
      · simp only [Bin.box, Bin.mk6, gridBox, Nat.add_zero]
        have : (if ly + ((p / Nx : Nat) : Int) * Sy + Sy > uy
            then uy - (ly + ((p / Nx : Nat) : Int) * Sy) else Sy) =
            min (ly + ((p / Nx : Nat) : Int) * Sy + Sy) uy - (ly + ((p / Nx : Nat) : Int) * Sy) := by
          split <;> omega
        rw [this]
        have hx : min (lx + ((p % Nx : Nat) : Int) * Sx + Sx) ux = ux := by omega
        rw [hx]
        simp
      · have hstate : initBinsLoop lx ux uy Sx Sy n lx (ly + ((p / Nx : Nat) : Int) * Sy + Sy) 0
            (((p / Nx : Nat) : Int) + 1) =
            initBinsLoop lx ux uy Sx Sy n (lx + ((0 : Nat) : Int) * Sx)
              (ly + ((p / Nx + 1 : Nat) : Int) * Sy) ((0 : Nat) : Int)
              ((p / Nx + 1 : Nat) : Int) := by
          congr 1
          · simp
          · push_cast; ring
        rw [hstate, ih']
        apply List.map_congr_left
        intro k _
        simp only [Function.comp, Nat.succ_eq_add_one]
        have : p + 1 + k = p + (k + 1) := by omega
        rw [this]
    · have hnot : p % Nx + 1 < Nx := by
        by_contra hcon
        have hEq : ((p % Nx : Nat) : Int) + 1 = (Nx : Int) := by omega
        have : (Nx : Int) * Sx = ((p % Nx : Nat) : Int) * Sx + Sx := by
          rw [← hEq]; ring
        omega
      obtain ⟨hm, hd⟩ := succ_mod_div_of_lt p Nx hnot
      have ih' := ih (p + 1)
      rw [hm, hd] at ih'
      simp only [initBinsLoop, if_neg hw, List.map_cons]
      congr 1
      · simp only [Bin.box, Bin.mk6, gridBox, Nat.add_zero]
        have : (if ly + ((p / Nx : Nat) : Int) * Sy + Sy > uy
            then uy - (ly + ((p / Nx : Nat) : Int) * Sy) else Sy) =
            min (ly + ((p / Nx : Nat) : Int) * Sy + Sy) uy - (ly + ((p / Nx : Nat) : Int) * Sy) := by
          split <;> omega
        rw [this]
        have hx : min (lx + ((p % Nx : Nat) : Int) * Sx + Sx) ux
            = lx + ((p % Nx : Nat) : Int) * Sx + Sx := by omega
        rw [hx]
        simp
      · have hstate : initBinsLoop lx ux uy Sx Sy n (lx + ((p % Nx : Nat) : Int) * Sx + Sx)
            (ly + ((p / Nx : Nat) : Int) * Sy) (((p % Nx : Nat) : Int) + 1)
            ((p / Nx : Nat) : Int) =
            initBinsLoop lx ux uy Sx Sy n (lx + ((p % Nx + 1 : Nat) : Int) * Sx)
              (ly + ((p / Nx : Nat) : Int) * Sy) ((p % Nx + 1 : Nat) : Int)
              ((p / Nx : Nat) : Int) := by
          congr 1
          · push_cast; ring
        rw [hstate, ih']
        apply List.map_congr_left
        intro k _
        simp only [Function.comp, Nat.succ_eq_add_one]
        have : p + 1 + k = p + (k + 1) := by omega
        rw [this]

/-! ## Helper lemmas: deposition of one box on a regular grid -/

/-- The index pairs and the deposition loops for one box on a regular grid: all of
them succeed, the bin boxes are kept, and the sum of the field `fld` grows by `w`
times the area of the box. -/
theorem boxStep_sum (bg : BinGrid) (hgrid : RegularGrid bg)
    (f : Bin → Bin) (fld : Bin → Int) (w cLx cLy cUx cUy : Int)
    (hin : BoxBeforeLastBins bg cLx cLy cUx cUy)
    (hbox : ∀ b, (f b).box = b.box)
    (hadd : ∀ b, fld (f b) = fld b + w * overlapBody b.lx b.ly b.ux b.uy cLx cLy cUx cUy)
    (bs : List Bin) (hbs : bs.map Bin.box = bg.gridBoxes) :
    ∃ pairX pairY bs',
      getMinMaxIdx cLx cUx bg.lx bg.binSizeX = .ok pairX ∧
      getMinMaxIdx cLy cUy bg.ly bg.binSizeY = .ok pairY ∧
      depositLoop bg.binCntX f pairX pairY bs = .ok bs' ∧
      bs'.map Bin.box = bg.gridBoxes ∧
      sumOver fld bs' = sumOver fld bs + w * ((cUx - cLx) * (cUy - cLy)) := by
  obtain ⟨hNx, hNy, hSx, hSy, hS, hx1, hx2, hy1⟩ := hgrid
  obtain ⟨hcx0, hcx, hcx1, hcy0, hcy, hcy1⟩ := hin
  obtain ⟨aX, bX, hpx, hax0, habX, hbX, hloX, hhiX⟩ :=
    getMinMaxIdx_spec cLx cUx bg.lx bg.binSizeX (bg.binCntX - 1) hSx hcx0 hcx hcx1
  obtain ⟨aY, bY, hpy, hay0, habY, hbY, hloY, hhiY⟩ :=
    getMinMaxIdx_spec cLy cUy bg.ly bg.binSizeY (bg.binCntY - 1) hSy hcy0 hcy hcy1
  have hNxc : ((bg.binCntX.toNat : Nat) : Int) = bg.binCntX := Int.toNat_of_nonneg (by omega)
  have hNyc : ((bg.binCntY.toNat : Nat) : Int) = bg.binCntY := Int.toNat_of_nonneg (by omega)
  have hdep := depositLoop_sum bg.lx bg.ly bg.ux bg.uy bg.binSizeX bg.binSizeY
    bg.binCntX.toNat bg.binCntY.toNat hSx hSy hS f fld w cLx cLy cUx cUy hbox hadd
    aX bX aY bY hax0 habX (by omega) hay0 habY (by omega)
    hcx (by omega) hloX hhiX hcy (by omega) hloY hhiY bs hbs
  rw [hNxc] at hdep
  obtain ⟨bs', h1, h2, h3⟩ := hdep
  exact ⟨(aX, bX), (aY, bY), bs', hpx, hpy, h1, h2, h3⟩

theorem except_ok_inj {α : Type} {a b : α} (x : Except Fault α)
    (ha : x = .ok a) (hb : x = .ok b) : a = b := by
  rw [ha] at hb
  cases hb
  rfl

/-- One step of the loop over the fixed instances on a regular grid. -/
theorem nonPlaceAreaStep_sum (bg : BinGrid) (hgrid : RegularGrid bg) (inst : Instance)
    (hin : BoxBeforeLastBins bg inst.lx inst.ly inst.ux inst.uy)
    (bs : List Bin) (hbs : bs.map Bin.box = bg.gridBoxes) :
    ∃ bs', nonPlaceAreaStep bg bs inst = .ok bs' ∧ bs'.map Bin.box = bg.gridBoxes ∧
      sumOver Bin.nonPlaceArea bs' = sumOver Bin.nonPlaceArea bs +
        (inst.ux - inst.lx) * (inst.uy - inst.ly) := by
  obtain ⟨pairX, pairY, bs', hpx, hpy, h1, h2, h3⟩ :=
    boxStep_sum bg hgrid (addNonPlaceArea inst) Bin.nonPlaceArea 1
      inst.lx inst.ly inst.ux inst.uy hin (fun _ => rfl)
      (fun b => by simp [addNonPlaceArea, getOverlapAreaInst]) bs hbs
  refine ⟨bs', ?_, h2, by rw [h3]; ring⟩
  unfold nonPlaceAreaStep BinGrid.getMinMaxIdxXInst BinGrid.getMinMaxIdxYInst
  simp only [bind, Except.bind, hpx, hpy]
  exact h1

/-- One step of the loop over the G-cells in `updateBinsGCellArea` on a regular
grid. -/
theorem gCellAreaStep_sum (bg : BinGrid) (hgrid : RegularGrid bg) (cell : GCell)
    (hin : BoxBeforeLastBins bg cell.lx cell.ly cell.ux cell.uy)
    (bs : List Bin) (hbs : bs.map Bin.box = bg.gridBoxes) :
    ∃ bs', gCellAreaStep bg bs cell = .ok bs' ∧ bs'.map Bin.box = bg.gridBoxes ∧
      sumOver Bin.placedArea bs' = sumOver Bin.placedArea bs +
        (if cell.isInstance then cell.dx * cell.dy else 0) ∧
      sumOver Bin.fillerArea bs' = sumOver Bin.fillerArea bs +
        (if cell.isFiller then cell.dx * cell.dy else 0) ∧
      sumOver Bin.nonPlaceArea bs' = sumOver Bin.nonPlaceArea bs := by
  unfold gCellAreaStep BinGrid.getMinMaxIdxX BinGrid.getMinMaxIdxY
  by_cases hI : cell.isInstance = true
  · have hF : cell.isFiller = false := by
      unfold GCell.isInstance at hI
      unfold GCell.isFiller
      simp only [beq_iff_eq] at hI
      simp [hI]
    obtain ⟨pairX, pairY, bs', hpx, hpy, h1, h2, h3⟩ :=
      boxStep_sum bg hgrid (addPlacedArea cell) Bin.placedArea 1
        cell.lx cell.ly cell.ux cell.uy hin (fun _ => rfl)
        (fun b => by simp [addPlacedArea, getOverlapArea]) bs hbs
    obtain ⟨pairX2, pairY2, bs2, hpx2, hpy2, h12, -, h32⟩ :=
      boxStep_sum bg hgrid (addPlacedArea cell) Bin.fillerArea 0
        cell.lx cell.ly cell.ux cell.uy hin (fun _ => rfl)
        (fun b => by simp [addPlacedArea]) bs hbs
    obtain ⟨pairX3, pairY3, bs3, hpx3, hpy3, h13, -, h33⟩ :=
      boxStep_sum bg hgrid (addPlacedArea cell) Bin.nonPlaceArea 0
        cell.lx cell.ly cell.ux cell.uy hin (fun _ => rfl)
        (fun b => by simp [addPlacedArea]) bs hbs
    have eX2 := except_ok_inj _ hpx hpx2
    have eY2 := except_ok_inj _ hpy hpy2
    have eX3 := except_ok_inj _ hpx hpx3
    have eY3 := except_ok_inj _ hpy hpy3
    subst eX2 eY2 eX3 eY3
    have e2 := except_ok_inj _ h1 h12
    have e3 := except_ok_inj _ h1 h13
    subst e2 e3
    refine ⟨bs', ?_, h2, ?_, ?_, ?_⟩
    · simp only [bind, Except.bind, hpx, hpy, hI, if_true]
      exact h1
    · rw [h3, if_pos hI]
      unfold GCell.dx GCell.dy
      ring
    · rw [h32, hF]
      simp
    · rw [h33]
      simp
  · by_cases hF : cell.isFiller = true
    · obtain ⟨pairX, pairY, bs', hpx, hpy, h1, h2, h3⟩ :=
        boxStep_sum bg hgrid (addFillerArea cell) Bin.fillerArea 1
          cell.lx cell.ly cell.ux cell.uy hin (fun _ => rfl)
          (fun b => by simp [addFillerArea, getOverlapArea]) bs hbs
      obtain ⟨pairX2, pairY2, bs2, hpx2, hpy2, h12, -, h32⟩ :=
        boxStep_sum bg hgrid (addFillerArea cell) Bin.placedArea 0
          cell.lx cell.ly cell.ux cell.uy hin (fun _ => rfl)
          (fun b => by simp [addFillerArea]) bs hbs
      obtain ⟨pairX3, pairY3, bs3, hpx3, hpy3, h13, -, h33⟩ :=
        boxStep_sum bg hgrid (addFillerArea cell) Bin.nonPlaceArea 0
          cell.lx cell.ly cell.ux cell.uy hin (fun _ => rfl)
          (fun b => by simp [addFillerArea]) bs hbs
      have eX2 := except_ok_inj _ hpx hpx2
      have eY2 := except_ok_inj _ hpy hpy2
      have eX3 := except_ok_inj _ hpx hpx3
      have eY3 := except_ok_inj _ hpy hpy3
      subst eX2 eY2 eX3 eY3
      have e2 := except_ok_inj _ h1 h12
      have e3 := except_ok_inj _ h1 h13
      subst e2 e3
      refine ⟨bs', ?_, h2, ?_, ?_, ?_⟩
      · simp only [bind, Except.bind, hpx, hpy, hI, hF, if_true]
        exact h1
      · rw [h32]
        simp [hI]
      · rw [h3, if_pos hF]
        unfold GCell.dx GCell.dy
        ring
      · rw [h33]
        simp
    · obtain ⟨pairX, pairY, bs', hpx, hpy, -, -, -⟩ :=
        boxStep_sum bg hgrid (addFillerArea cell) Bin.fillerArea 1
          cell.lx cell.ly cell.ux cell.uy hin (fun _ => rfl)
          (fun b => by simp [addFillerArea, getOverlapArea]) bs hbs
      refine ⟨bs, ?_, hbs, ?_, ?_, rfl⟩
      · simp only [bind, Except.bind, hpx, hpy, hI, hF, pure, Except.pure]
        rfl
      · simp [hI]
      · simp [hF]

/-! ## Helper lemmas: the three loops on a regular grid -/

theorem initBinStor_boxes (bg : BinGrid) (hgrid : RegularGrid bg) :
    bg.initBinStor.bins.map Bin.box = bg.gridBoxes := by
  obtain ⟨hNx, hNy, hSx, hSy, hS, hx1, hx2, hy1⟩ := hgrid
  have hNxc : ((bg.binCntX.toNat : Nat) : Int) = bg.binCntX := Int.toNat_of_nonneg (by omega)
  have hNyc : ((bg.binCntY.toNat : Nat) : Int) = bg.binCntY := Int.toNat_of_nonneg (by omega)
  have hn : (bg.binCntX * bg.binCntY).toNat = bg.binCntX.toNat * bg.binCntY.toNat := by
    rw [← hNxc, ← hNyc, ← Nat.cast_mul, Int.toNat_natCast, Int.toNat_natCast,
      Int.toNat_natCast]
  have key := initBinsLoop_boxes bg.lx bg.ly bg.ux bg.uy bg.binSizeX bg.binSizeY
    bg.binCntX.toNat (by omega) hSx (by rw [hNxc]; exact hx1) (by rw [hNxc]; exact hx2)
    (bg.binCntX.toNat * bg.binCntY.toNat) 0
  simp only [Nat.zero_mod, Nat.zero_div, Nat.cast_zero, zero_mul, add_zero, Nat.zero_add]
    at key
  unfold BinGrid.initBinStor BinGrid.gridBoxes gridBoxes
  simp only [hn]
  exact key

theorem sumOver_map_clearNonPlaceArea (bins : List Bin) :
    sumOver Bin.nonPlaceArea (bins.map clearNonPlaceArea) = 0 := by
  induction bins with
  | nil => rfl
  | cons b bs ih =>
    simp only [sumOver, List.map_cons, List.sum_cons] at ih ⊢
    rw [ih]
    simp [clearNonPlaceArea]

theorem sumOver_map_clearGCellArea (bins : List Bin) :
    sumOver Bin.placedArea (bins.map clearGCellArea) = 0 ∧
    sumOver Bin.fillerArea (bins.map clearGCellArea) = 0 ∧
    sumOver Bin.nonPlaceArea (bins.map clearGCellArea) = sumOver Bin.nonPlaceArea bins := by
  induction bins with
  | nil => exact ⟨rfl, rfl, rfl⟩
  | cons b bs ih =>
    obtain ⟨h1, h2, h3⟩ := ih
    simp only [sumOver, List.map_cons, List.sum_cons] at h1 h2 h3 ⊢
    rw [h1, h2, h3]
    simp [clearGCellArea]

/-- Routine `updateBinsNonPlaceArea` on a regular grid whose bins have the row-major
boxes: it returns, keeps the boxes, and the `nonPlaceArea` fields add up to the total
area of the fixed instances. -/
theorem updateBinsNonPlaceArea_sum (bg : BinGrid) (pb : PlacerBase)
    (hgrid : RegularGrid bg) (hbs : bg.bins.map Bin.box = bg.gridBoxes)
    (hinst : ∀ inst ∈ pb.nonPlaceInsts,
      BoxBeforeLastBins bg inst.lx inst.ly inst.ux inst.uy) :
    ∃ bins, bg.updateBinsNonPlaceArea pb = .ok { bg with bins := bins } ∧
      bins.map Bin.box = bg.gridBoxes ∧
      sumOver Bin.nonPlaceArea bins =
        (pb.nonPlaceInsts.map (fun i => (i.ux - i.lx) * (i.uy - i.ly))).sum := by
  have hclear : (bg.bins.map clearNonPlaceArea).map Bin.box = bg.gridBoxes := by
    rw [← hbs, List.map_map]
    rfl
  obtain ⟨bins, h1, h2, h3⟩ := foldlM_accumulate
    (fun s : List Bin => s.map Bin.box = bg.gridBoxes) (sumOver Bin.nonPlaceArea)
    (nonPlaceAreaStep bg) (fun i => (i.ux - i.lx) * (i.uy - i.ly))
    (fun i => BoxBeforeLastBins bg i.lx i.ly i.ux i.uy)
    (fun s a hs ha => nonPlaceAreaStep_sum bg hgrid a ha s hs)
    pb.nonPlaceInsts _ hclear hinst
  refine ⟨bins, ?_, h2, ?_⟩
  · unfold BinGrid.updateBinsNonPlaceArea
    simp only [bind, Except.bind, h1, pure, Except.pure]
  · rw [h3, sumOver_map_clearNonPlaceArea, zero_add]

/-- Routine `updateBinsGCellArea` on a regular grid whose bins have the row-major
boxes: it
returns, and the `placedArea`, `fillerArea` and `nonPlaceArea` fields add up to the
total area of the instance cells, the total area of the filler cells and the former
total `nonPlaceArea`. -/
theorem updateBinsGCellArea_sum (bg : BinGrid) (cells : List GCell)
    (hgrid : RegularGrid bg) (hbs : bg.bins.map Bin.box = bg.gridBoxes)
    (hcell : ∀ c ∈ cells, BoxBeforeLastBins bg c.lx c.ly c.ux c.uy) :
    ∃ g, bg.updateBinsGCellArea cells = .ok g ∧
      sumOver Bin.placedArea g.bins =
        (cells.map (fun c => if c.isInstance then c.dx * c.dy else 0)).sum ∧
      sumOver Bin.fillerArea g.bins =
        (cells.map (fun c => if c.isFiller then c.dx * c.dy else 0)).sum ∧
      sumOver Bin.nonPlaceArea g.bins = sumOver Bin.nonPlaceArea bg.bins := by
  have hclear : (bg.bins.map clearGCellArea).map Bin.box = bg.gridBoxes := by
    rw [← hbs, List.map_map]
    rfl
  obtain ⟨c1, c2, c3⟩ := sumOver_map_clearGCellArea bg.bins
  obtain ⟨bins, h1, -, h3⟩ := foldlM_accumulate
    (fun s : List Bin => s.map Bin.box = bg.gridBoxes) (sumOver Bin.placedArea)
    (gCellAreaStep bg) (fun c => if c.isInstance then c.dx * c.dy else 0)
    (fun c => BoxBeforeLastBins bg c.lx c.ly c.ux c.uy)
    (fun s a hs ha => by
      obtain ⟨s', e1, e2, e3, -, -⟩ := gCellAreaStep_sum bg hgrid a ha s hs
      exact ⟨s', e1, e2, e3⟩)
    cells _ hclear hcell
  obtain ⟨bins2, h12, -, h32⟩ := foldlM_accumulate
    (fun s : List Bin => s.map Bin.box = bg.gridBoxes) (sumOver Bin.fillerArea)
    (gCellAreaStep bg) (fun c => if c.isFiller then c.dx * c.dy else 0)
    (fun c => BoxBeforeLastBins bg c.lx c.ly c.ux c.uy)
    (fun s a hs ha => by
      obtain ⟨s', e1, e2, -, e4, -⟩ := gCellAreaStep_sum bg hgrid a ha s hs
      exact ⟨s', e1, e2, e4⟩)
    cells _ hclear hcell
  obtain ⟨bins3, h13, -, h33⟩ := foldlM_accumulate
    (fun s : List Bin => s.map Bin.box = bg.gridBoxes) (sumOver Bin.nonPlaceArea)
    (gCellAreaStep bg) (fun _ => 0)
    (fun c => BoxBeforeLastBins bg c.lx c.ly c.ux c.uy)
    (fun s a hs ha => by
      obtain ⟨s', e1, e2, -, -, e5⟩ := gCellAreaStep_sum bg hgrid a ha s hs
      exact ⟨s', e1, e2, by rw [e5, add_zero]⟩)
    cells _ hclear hcell
  have e2 := except_ok_inj _ h1 h12
  have e3 := except_ok_inj _ h1 h13
  subst e2 e3
  refine ⟨{ bg with bins := bins }, ?_, ?_, ?_, ?_⟩
  · unfold BinGrid.updateBinsGCellArea
    simp only [bind, Except.bind, h1, pure, Except.pure]
  · show sumOver Bin.placedArea bins = _
    rw [h3, c1, zero_add]
  · show sumOver Bin.fillerArea bins = _
    rw [h32, c2, zero_add]
  · show sumOver Bin.nonPlaceArea bins = _
    rw [h33, c3]
    simp

/-! ## C5: deposition of placement boxes -/

/-- C5, evaluated at a failing input: on the grid of the core `0..5 x 0..11` with
`2 x 4` bins of size `3 x 3`, `updateBinsGCellArea` with the single instance cell
`(0, 0, 5, 4)` (inside the core, area `20`) leaves `placedArea = 6` in the bin with
grid coordinates `(0, 1)` and box `(0, 3, 3, 6)`, whose overlap with the cell is `3`,
and a total `placedArea` of `23`: the column loop runs up to index `2 = Nx`
inclusive, which is the bin `(0, 1)` again. -/
theorem updateBinsGCellArea_double_count :
    (do
      let g ← exampleGrid
      let g' ← g.updateBinsGCellArea [{ insts := [0], lx := 0, ly := 0, ux := 5, uy := 4 }]
      pure ((g'.bins.get? (1 * 2 + 0)).map
              (fun b => (b.x, b.y, b.lx, b.ly, b.ux, b.uy, b.placedArea)),
            sumPlacedArea g'.bins)) =
      Except.ok (some (0, 1, 0, 3, 3, 6, 6), 23) ∧
    overlapAreaSpec 0 3 3 6 0 0 5 4 = 3 := by
  constructor
  · rfl
  · decide

/-! ## C6: total deposited area -/

/-- C6 as stated fails, on the grid of the core `0..5 x 0..11` (area `55`) with `2 x 4`
bins and no fixed instance: with the single instance cell `(1, 1, 2, 2)`, which lies
inside the core, the three sums add up to `1`, not to the core area; with four cells
of one instance each on `(0, 0, 3, 6)` they add up to `72`, more than the core
area. -/
theorem binAreaSum_bound_fails :
    (do
      let g ← exampleGrid
      let g' ← g.updateBinsGCellArea [{ insts := [0], lx := 1, ly := 1, ux := 2, uy := 2 }]
      pure (sumPlacedArea g'.bins + sumFillerArea g'.bins + sumNonPlaceArea g'.bins,
            (g'.ux - g'.lx) * (g'.uy - g'.ly))) = Except.ok (1, 55) ∧
    (do
      let g ← exampleGrid
      let g' ← g.updateBinsGCellArea
        [{ insts := [0], lx := 0, ly := 0, ux := 3, uy := 6 },
         { insts := [1], lx := 0, ly := 0, ux := 3, uy := 6 },
         { insts := [2], lx := 0, ly := 0, ux := 3, uy := 6 },
         { insts := [3], lx := 0, ly := 0, ux := 3, uy := 6 }]
      pure (sumPlacedArea g'.bins + sumFillerArea g'.bins + sumNonPlaceArea g'.bins,
            (g'.ux - g'.lx) * (g'.uy - g'.ly))) = Except.ok (72, 55) := by
  constructor
  · rfl
  · rfl

/-- C6, amended: if the grid computed by the first part of `initBins` is regular, its
bin columns and rows lie in `int` range, and every fixed instance and every G-cell has
a well-formed box that starts inside the core and ends at or before the start of the
last bin column and row, then `initBins` and `updateBinsGCellArea` return, and
afterwards the sum of `placedArea` over the bins is the total area of the instance
cells, the sum of `fillerArea` is the total area of the filler cells, and the sum of
`nonPlaceArea` is the total area of the fixed instances. -/
theorem binAreaSum_eq_total_area (bg bg1 : BinGrid) (pb : PlacerBase) (cells : List GCell)
    (hcnt : bg.initBinCnt pb = .ok bg1) (hgrid : RegularGrid bg1)
    (_hrange : INT_MIN ≤ bg1.lx ∧ bg1.lx + bg1.binCntX * bg1.binSizeX ≤ INT_MAX ∧
      INT_MIN ≤ bg1.ly ∧ bg1.ly + bg1.binCntY * bg1.binSizeY ≤ INT_MAX)
    (hinst : ∀ inst ∈ pb.nonPlaceInsts,
      BoxBeforeLastBins bg1 inst.lx inst.ly inst.ux inst.uy)
    (hcell : ∀ c ∈ cells, BoxBeforeLastBins bg1 c.lx c.ly c.ux c.uy) :
    ∃ g g', bg.initBins pb = .ok g ∧ g.updateBinsGCellArea cells = .ok g' ∧
      sumPlacedArea g'.bins =
        (cells.map (fun c => if c.isInstance then c.dx * c.dy else 0)).sum ∧
      sumFillerArea g'.bins =
        (cells.map (fun c => if c.isFiller then c.dx * c.dy else 0)).sum ∧
      sumNonPlaceArea g'.bins =
        (pb.nonPlaceInsts.map (fun i => (i.ux - i.lx) * (i.uy - i.ly))).sum := by
  obtain ⟨bins, hN1, hN2, hN3⟩ := updateBinsNonPlaceArea_sum bg1.initBinStor pb hgrid
    (initBinStor_boxes bg1 hgrid) hinst
  obtain ⟨g', hG1, hG2, hG3, hG4⟩ := updateBinsGCellArea_sum
    { bg1.initBinStor with bins := bins } cells hgrid hN2 hcell
  refine ⟨{ bg1.initBinStor with bins := bins }, g', ?_, hG1, hG2, hG3, ?_⟩
  · unfold BinGrid.initBins
    simp only [bind, Except.bind, hcnt]
    exact hN1
  · show sumOver Bin.nonPlaceArea g'.bins = _
    rw [hG4]
    exact hN3

/-- Witness of `binAreaSum_eq_total_area`: the core `0..5 x 0..11` with `2 x 4` bins, one
fixed instance, two instance cells and one filler cell. -/
theorem binAreaSum_eq_total_area_witness :
    (BinGrid.configure (userBinCnt 2 4) fixedInstCore).initBinCnt fixedInstCore
      = .ok fixedInstGrid ∧
    RegularGrid fixedInstGrid ∧
    (INT_MIN ≤ fixedInstGrid.lx ∧
      fixedInstGrid.lx + fixedInstGrid.binCntX * fixedInstGrid.binSizeX ≤ INT_MAX ∧
      INT_MIN ≤ fixedInstGrid.ly ∧
      fixedInstGrid.ly + fixedInstGrid.binCntY * fixedInstGrid.binSizeY ≤ INT_MAX) ∧
    ∃ g g', (BinGrid.configure (userBinCnt 2 4) fixedInstCore).initBins fixedInstCore
        = .ok g ∧
      g.updateBinsGCellArea fixedInstCells = .ok g' ∧
      sumPlacedArea g'.bins =
        (fixedInstCells.map (fun c => if c.isInstance then c.dx * c.dy else 0)).sum ∧
      sumFillerArea g'.bins =
        (fixedInstCells.map (fun c => if c.isFiller then c.dx * c.dy else 0)).sum ∧
      sumNonPlaceArea g'.bins =
        (fixedInstCore.nonPlaceInsts.map (fun i => (i.ux - i.lx) * (i.uy - i.ly))).sum :=
  ⟨rfl, by decide, by decide,
    binAreaSum_eq_total_area (BinGrid.configure (userBinCnt 2 4) fixedInstCore) fixedInstGrid
      fixedInstCore fixedInstCells rfl (by decide) (by decide) (by decide) (by decide)⟩

/-- The sums of the witness, evaluated: `18 + 2` for the instance cells, `7` for the
filler cell and `6` for the fixed instance. -/
theorem fixedInst_sums :
    (do
      let g ← (BinGrid.configure (userBinCnt 2 4) fixedInstCore).initBins fixedInstCore
      let g' ← g.updateBinsGCellArea fixedInstCells
      pure (sumPlacedArea g'.bins, sumFillerArea g'.bins, sumNonPlaceArea g'.bins))
      = Except.ok (20, 7, 6) := by rfl

/-! ## C7: deposition of density boxes -/

/-- C7, evaluated at a failing input: on the same grid (8 bins),
`updateBinsGCellDensityArea` with one instance cell whose placement box is
`(0, 0, 1, 1)` and whose density box is `(3, 6, 5, 11)` (inside the core, area `10`)
leaves a total `placedArea` of `0`: the bins visited are those of the placement
box, none of which meets the density box. -/
theorem updateBinsGCellDensityArea_misses_density_box :
    (do
      let g ← exampleGrid
      let g' ← g.updateBinsGCellDensityArea
        [{ insts := [0], lx := 0, ly := 0, ux := 1, uy := 1,
           dLx := 3, dLy := 6, dUx := 5, dUy := 11 }]
      pure (g'.bins.length, sumPlacedArea g'.bins)) = Except.ok (8, 0) ∧
    overlapAreaSpec 0 0 5 11 3 6 5 11 = 10 := by
  constructor
  · rfl
  · decide

/-! ## C8: frame of the G-cell area routines -/

/-- C8: whenever `updateBinsGCellArea` or `updateBinsGCellDensityArea` returns a
grid, that grid has the same coordinates, bin counts `Nx`, `Ny` and bin sizes `Sx`,
`Sy` as before, the same number of bins, and every bin keeps its grid coordinates,
its box and its `nonPlaceArea`; only `placedArea` and `fillerArea` can differ. -/
theorem updateBinsGCell_frame (bg g : BinGrid) (cells : List GCell)
    (h : bg.updateBinsGCellArea cells = .ok g ∨
      bg.updateBinsGCellDensityArea cells = .ok g) :
    g.binCntX = bg.binCntX ∧ g.binCntY = bg.binCntY ∧
    g.binSizeX = bg.binSizeX ∧ g.binSizeY = bg.binSizeY ∧
    g.lx = bg.lx ∧ g.ly = bg.ly ∧ g.ux = bg.ux ∧ g.uy = bg.uy ∧
    g.bins.length = bg.bins.length ∧
    g.bins.map Bin.frame = bg.bins.map Bin.frame := by
  have key : ∃ bins, g = { bg with bins := bins } ∧
      bins.map Bin.frame = bg.bins.map Bin.frame := by
    rcases h with h | h
    · obtain ⟨bins, hb, hg⟩ := updateBinsGCellArea_unfold bg g cells h
      refine ⟨bins, hg, ?_⟩
      have := foldlM_preserves
        (fun bs => bs.map Bin.frame = bg.bins.map Bin.frame) (gCellAreaStep bg)
        (fun s a s' hs hstep => (gCellAreaStep_frame bg s s' a hstep).trans hs)
        cells _ _ (map_clearGCellArea_frame bg.bins) hb
      exact this
    · obtain ⟨bins, hb, hg⟩ := updateBinsGCellDensityArea_unfold bg g cells h
      refine ⟨bins, hg, ?_⟩
      have := foldlM_preserves
        (fun bs => bs.map Bin.frame = bg.bins.map Bin.frame) (gCellDensityAreaStep bg)
        (fun s a s' hs hstep => (gCellDensityAreaStep_frame bg s s' a hstep).trans hs)
        cells _ _ (map_clearGCellArea_frame bg.bins) hb
      exact this
  obtain ⟨bins, hg, hframe⟩ := key
  subst hg
  refine ⟨rfl, rfl, rfl, rfl, rfl, rfl, rfl, rfl, ?_, hframe⟩
  have := congrArg List.length hframe
  simpa using this

/-- Witness of `updateBinsGCell_frame`: `updateBinsGCellArea` on `frameGrid` with a
single instance cell returns `frameGridAfter`. -/
theorem updateBinsGCell_frame_witness :
    frameGrid.updateBinsGCellArea [{ insts := [0], lx := 1, ly := 1, ux := 2, uy := 2 }]
      = .ok frameGridAfter ∧
    (frameGridAfter.binCntX = frameGrid.binCntX ∧
     frameGridAfter.binCntY = frameGrid.binCntY ∧
     frameGridAfter.binSizeX = frameGrid.binSizeX ∧
     frameGridAfter.binSizeY = frameGrid.binSizeY ∧
     frameGridAfter.lx = frameGrid.lx ∧ frameGridAfter.ly = frameGrid.ly ∧
     frameGridAfter.ux = frameGrid.ux ∧ frameGridAfter.uy = frameGrid.uy ∧
     frameGridAfter.bins.length = frameGrid.bins.length ∧
     frameGridAfter.bins.map Bin.frame = frameGrid.bins.map Bin.frame) :=
  ⟨rfl, updateBinsGCell_frame frameGrid frameGridAfter
    [{ insts := [0], lx := 1, ly := 1, ux := 2, uy := 2 }] (Or.inl rfl)⟩

/-! ## C9: the insufficient-whitespace error -/

theorem fillerCells_ne_fillerAreaNegative (pb : PlacerBase) (randVal : Nat → Int)
    (avgDx avgDy : Int) :
    ∀ (n i : Nat), fillerCells pb randVal avgDx avgDy n i ≠ .error .fillerAreaNegative
  | 0, _ => by simp [fillerCells]
  | n + 1, i => by
    unfold fillerCells
    split
    · simp
    · have ih := fillerCells_ne_fillerAreaNegative pb randVal avgDx avgDy n (i + 1)
      simp only [bind, Except.bind, pure, Except.pure]
      split
      · rename_i e he
        intro h
        cases h
        exact ih he
      · simp

/-- With at least two placeable instances `initFillerGCells` stops with the
insufficient-whitespace error exactly when `totalFillerArea` is negative. -/
theorem initFillerGCells_error_iff (nbVars : NesterovBaseVars) (pb : PlacerBase)
    (randVal : Nat → Int) (hN : 2 ≤ pb.placeInsts.length) :
    initFillerGCells nbVars pb randVal = .error .fillerAreaNegative ↔
      totalFillerArea nbVars pb < 0 := by
  have hlen : ((pb.placeInsts.map Instance.dx).insertionSort (fun a b => a ≤ b)).length
      = pb.placeInsts.length := by
    rw [List.length_insertionSort, List.length_map]
  have hidx : ¬ (pb.placeInsts.length * 9 / 10 - pb.placeInsts.length / 10 = 0) := by
    omega
  unfold initFillerGCells
  simp only [hlen, if_neg hidx]
  by_cases hneg : totalFillerArea nbVars pb < 0
  · simp [hneg]
  · simp only [if_neg hneg]
    constructor
    · intro h
      exfalso
      split at h
      · cases h
      · exact fillerCells_ne_fillerAreaNegative _ _ _ _ _ _ h
    · intro h
      exact absurd h hneg

/-- C9, evaluated at a failing input: with target density `0.1`, a single
placeable instance of area `90` on a core of area `100` and no fixed instance,
`totalFillerArea` is `10 - 90 = -80 < 0`, yet `initFillerGCells` does not stop with
the insufficient-whitespace error: it reaches the division by
`maxIdx - minIdx = 0` first.  With two instances of the same total area it does stop
with that error. -/
theorem initFillerGCells_single_instance :
    totalFillerArea density10 singleInstCore = -80 ∧
    (∀ randVal, initFillerGCells density10 singleInstCore randVal
      = .error .divisionByZero) ∧
    totalFillerArea density10 twoInstCore = -80 ∧
    (∀ randVal, initFillerGCells density10 twoInstCore randVal
      = .error .fillerAreaNegative) := by
  refine ⟨by decide, fun _ => rfl, by decide, fun _ => rfl⟩

/-! ## C10: no placeable instance -/

/-- Without placeable instances `initFillerGCells` divides by `maxIdx - minIdx = 0`,
whatever the other inputs are. -/
theorem initFillerGCells_no_placeInsts (nbVars : NesterovBaseVars) (pb : PlacerBase)
    (randVal : Nat → Int) (h : pb.placeInsts = []) :
    initFillerGCells nbVars pb randVal = .error .divisionByZero := by
  unfold initFillerGCells
  rw [h]
  rfl

/-- Without placeable instances `NesterovBase::init` divides by zero in
`initFillerGCells`, whatever the other inputs are. -/
theorem init_no_placeInsts (nbVars : NesterovBaseVars) (pb : PlacerBase)
    (randVal : Nat → Int) (h : pb.placeInsts = []) :
    NesterovBase.init nbVars pb randVal = .error .divisionByZero := by
  unfold NesterovBase.init
  simp only [bind, Except.bind, initFillerGCells_no_placeInsts nbVars pb randVal h]

/-- C10, evaluated at a failing input: on the core `0..10 x 0..10` with no instance
at all (target density 1), `NesterovBase::init` ends in the division by
`maxIdx - minIdx = 0` of `initFillerGCells`, and `BinGrid::initBins` on its own ends in
the division of `placeInstsArea` by the number of placeable instances, `0`; neither
reports an error of its own. -/
theorem init_empty_core :
    (∀ randVal, NesterovBase.init {} emptyCore randVal = .error .divisionByZero) ∧
    (∀ randVal, initFillerGCells {} emptyCore randVal = .error .divisionByZero) ∧
    (BinGrid.configure {} emptyCore).initBins emptyCore = .error .divisionByZero := by
  refine ⟨fun _ => rfl, fun _ => rfl, rfl⟩


/-! ## C12: the fast exponential -/

/-- The value computed by `fastExp` in closed form: `(a / 1024)^1024`. -/
theorem fastExp_eq_pow (a : ℚ) : fastExp a = (a / 1024) ^ 1024 := by
  simp only [fastExp]
  ring

/-- C12, evaluated at failing inputs: `fastExp 0` is `0` and `fastExp 1024` is `1`,
whereas `(1 + a/1024)^1024` is `1` at `0` and `2^1024` at `1024`: the first statement
of `fastExp` multiplies by `1.0` where the formula adds `1.0`. -/
theorem fastExp_zero_and_1024 :
    fastExp 0 = 0 ∧ fastExpSpec 0 = 1 ∧ fastExp 1024 = 1 ∧ fastExpSpec 1024 = 2 ^ 1024 := by
  refine ⟨?_, ?_, ?_, ?_⟩
  · simp [fastExp]
  · simp [fastExpSpec]
  · norm_num [fastExp]
  · norm_num [fastExpSpec]

/-! ## C14: the accumulators are not reset -/

set_option maxRecDepth 100000 in
/-- C14, evaluated at a failing input: on the fresh net with pins at `(0, 0)` and
`(0, 1024)` and coefficients `1`, one pass leaves `waExpMaxSumY = 1` and
`waYExpMaxSumY = 1024`; a second pass with the same coefficients and no movement
leaves `2` and `2048`: the pass adds to the accumulators without resetting them. -/
theorem updateWireLengthForceWA_twice :
    (twoPinColumn.updateWireLengthForceWA 1 1).gNetStor.map
        (fun n => (n.waExpMinSumStorX, n.waXExpMinSumStorX, n.waExpMaxSumStorX,
          n.waXExpMaxSumStorX, n.waExpMinSumStorY, n.waYExpMinSumStorY,
          n.waExpMaxSumStorY, n.waYExpMaxSumStorY))
      = [(0, 0, 0, 0, 0, 0, 1, 1024)] ∧
    ((twoPinColumn.updateWireLengthForceWA 1 1).updateWireLengthForceWA 1 1).gNetStor.map
        (fun n => (n.waExpMinSumStorX, n.waXExpMinSumStorX, n.waExpMaxSumStorX,
          n.waXExpMaxSumStorX, n.waExpMinSumStorY, n.waYExpMinSumStorY,
          n.waExpMaxSumStorY, n.waYExpMaxSumStorY))
      = [(0, 0, 0, 0, 0, 0, 2, 2048)] := by
  constructor
  · with_unfolding_all rfl
  · with_unfolding_all rfl

/-! ## C16: coincident pins -/

set_option maxRecDepth 100000 in
/-- C16, evaluated at a failing input: for the fresh net of `N = 2` pins that coincide
at `(3, 4)`, with coefficients `1/100` and the default bar `-300`, one pass leaves
all four `waExp*Sum*` accumulators at `0`, not at `2` (every argument is `0` and
`fastExp 0 = 0`), and the gradient of each pin has no finite value (it is `0 / 0`). -/
theorem coincidentPins_pass :
    (coincidentPins.updateWireLengthForceWA (1 / 100) (1 / 100)).gNetStor.map
        (fun n => (n.waExpMinSumStorX, n.waExpMaxSumStorX, n.waExpMinSumStorY,
          n.waExpMaxSumStorY))
      = [(0, 0, 0, 0)] ∧
    (coincidentPins.updateWireLengthForceWA (1 / 100) (1 / 100)).gPinStor.map
        (fun p => (p.hasMinExpSumX, p.hasMaxExpSumX, p.hasMinExpSumY, p.hasMaxExpSumY))
      = [(true, true, true, true), (true, true, true, true)] ∧
    (coincidentPins.updateWireLengthForceWA (1 / 100) (1 / 100)).gPinStor.map
        (fun p => (coincidentPins.updateWireLengthForceWA (1 / 100)
          (1 / 100)).getWireLengthGradientPinWA p (1 / 100) (1 / 100))
      = [{ x := none, y := none }, { x := none, y := none }] := by
  refine ⟨?_, ?_, ?_⟩
  · with_unfolding_all rfl
  · with_unfolding_all rfl
  · with_unfolding_all rfl

/-! ## C17: translation and a second pass -/

set_option maxRecDepth 100000 in
/-- C17, evaluated at a failing input: on the net with pins at `(0, 0)` and
`(0, 1024)` and coefficients `1`, after one pass the Y gradient of the second pin
(and of its cell) is `1`; after every pin is translated by `(50, 50)` and the pass is
run again with the same coefficients it is `13`: the second pass adds to the
accumulators of the first. -/
theorem translation_second_pass :
    (twoPinColumn.updateWireLengthForceWA 1 1).gPinStor.map
        (fun p => ((twoPinColumn.updateWireLengthForceWA 1 1).getWireLengthGradientPinWA
          p 1 1).y)
      = [none, some 1] ∧
    (((twoPinColumn.updateWireLengthForceWA 1 1).translatePins 50
        50).updateWireLengthForceWA 1 1).gPinStor.map
        (fun p => ((((twoPinColumn.updateWireLengthForceWA 1 1).translatePins 50
          50).updateWireLengthForceWA 1 1).getWireLengthGradientPinWA p 1 1).y)
      = [none, some 13] ∧
    ((twoPinColumn.updateWireLengthForceWA 1 1).getWireLengthGradientWA
        { insts := [1], gPins := [1] } 1 1).y = some 1 ∧
    ((((twoPinColumn.updateWireLengthForceWA 1 1).translatePins 50
        50).updateWireLengthForceWA 1 1).getWireLengthGradientWA
        { insts := [1], gPins := [1] } 1 1).y = some 13 := by
  refine ⟨?_, ?_, ?_, ?_⟩
  · with_unfolding_all rfl
  · with_unfolding_all rfl
  · with_unfolding_all rfl
  · with_unfolding_all rfl

/-! ## C18: scenario S4 -/

set_option maxRecDepth 100000 in
/-- C18, evaluated on scenario S4 (pins at `(0, 0)` and `(100, 0)`, coefficients
`1/100`, one pass from the fresh state): the Y component of the gradient of each of
the two cells has no finite value, it is not zero.  Both pins have `cy = ly`, so their
Y arguments are `0`, `fastExp 0 = 0`, the Y accumulators of the net are `0` and the
Y gradient is `0 / 0`. -/
theorem scenarioS4_gradient_y :
    (scenarioS4.updateWireLengthForceWA (1 / 100) (1 / 100)).gNetStor.map
        (fun n => (n.waExpMinSumStorY, n.waYExpMinSumStorY, n.waExpMaxSumStorY,
          n.waYExpMaxSumStorY))
      = [(0, 0, 0, 0)] ∧
    (scenarioS4.gCellStor.map
        (fun c => ((scenarioS4.updateWireLengthForceWA (1 / 100)
          (1 / 100)).getWireLengthGradientWA c (1 / 100) (1 / 100)).y))
      = [none, none] := by
  constructor
  · with_unfolding_all rfl
  · with_unfolding_all rfl

/-! ## C15: the gradient formulas -/

theorem fdiv_congr {a b c d : ℚ} (h1 : a = c) (h2 : b = d) : fdiv a b = fdiv c d := by
  rw [h1, h2]

/-- C15: for every state, pin and pair of coefficients, `getWireLengthGradientPinWA`
returns `Gmax - Gmin` on each axis, where `Gmin = (s·e_min·(1 - γ·c) + γ·e_min·t) / s²`
if the min flag is set and `0` otherwise, and
`Gmax = (s⁺·e_max·(1 + γ·c) - γ·e_max·t⁺) / (s⁺)²` if the max flag is set and `0`
otherwise (`s`, `t` the accumulators of the pin's net, `c` the pin coordinate); and
`getWireLengthGradientWA` returns the componentwise sum of these pairs over the pins
of the cell. -/
theorem wireLengthGradient_eq_spec (nb : NesterovBase) (gPin : GPin) (gCell : GCell)
    (wlCoeffX wlCoeffY : ℚ) :
    nb.getWireLengthGradientPinWA gPin wlCoeffX wlCoeffY =
      gradientPinSpec (netAt nb.gNetStor gPin.gNet) gPin wlCoeffX wlCoeffY ∧
    nb.getWireLengthGradientWA gCell wlCoeffX wlCoeffY =
      sumCoordi (gCell.gPins.map (fun p =>
        gradientPinSpec (netAt nb.gNetStor (pinAt nb.gPinStor p).gNet)
          (pinAt nb.gPinStor p) wlCoeffX wlCoeffY)) := by
  have hpin : ∀ pin : GPin, nb.getWireLengthGradientPinWA pin wlCoeffX wlCoeffY =
      gradientPinSpec (netAt nb.gNetStor pin.gNet) pin wlCoeffX wlCoeffY := by
    intro pin
    unfold NesterovBase.getWireLengthGradientPinWA gradientPinSpec gradientSideSpec
    simp only []
    congr 1
    · congr 1
      · split
        · exact fdiv_congr (by ring) (by ring)
        · rfl
      · split
        · exact fdiv_congr (by ring) (by ring)
        · rfl
    · congr 1
      · split
        · exact fdiv_congr (by ring) (by ring)
        · rfl
      · split
        · exact fdiv_congr (by ring) (by ring)
        · rfl
  refine ⟨hpin gPin, ?_⟩
  unfold NesterovBase.getWireLengthGradientWA sumCoordi
  rw [List.foldl_map]
  congr 1
  funext acc p
  rw [hpin]

/-! ## C19: nets without pins -/

theorem netLoop_length (gx gy bar : ℚ) :
    ∀ (nets : List GNet) (pins : List GPin),
      (netLoop gx gy bar nets pins).2.length = nets.length
  | [], _ => rfl
  | net :: rest, pins => by
    simp only [netLoop, List.length_cons]
    rw [netLoop_length gx gy bar rest]

/-- Each net written by the net loop is the result of the net step on that net,
for the pin storage as it is when the net is reached. -/
theorem netLoop_get (gx gy bar : ℚ) :
    ∀ (nets : List GNet) (pins : List GPin) (i : Nat) (net : GNet),
      nets.get? i = some net →
      ∃ pinsI, (netLoop gx gy bar nets pins).2.get? i = some (netStep gx gy bar pinsI net).2
  | [], _, _, _ => by simp
  | n :: rest, pins, 0, net => by
    intro h
    simp only [List.get?_cons_zero, Option.some.injEq] at h
    subst h
    exact ⟨pins, by simp [netLoop]⟩
  | n :: rest, pins, i + 1, net => by
    intro h
    simp only [List.get?_cons_succ] at h
    obtain ⟨pinsI, hI⟩ := netLoop_get gx gy bar rest (netStep gx gy bar pins n).1 i net h
    exact ⟨pinsI, by simp only [netLoop, List.get?_cons_succ]; exact hI⟩

/-- C19: a G-net with zero pins is don't-care, `isDontCare()` holds exactly for the
nets that have zero pins or whose flag is set, the flag is clear on a fresh net, is
set by `setDontCare()` and is kept by `addGPin` and `updateBox`; and for a net with
zero pins at position `i`, `updateWireLengthForceWA` leaves a net at position `i` that
is still don't-care and has the same eight accumulators (so they stay `0`). -/
theorem emptyNet_dontCare (nb : NesterovBase) (wlCoeffX wlCoeffY : ℚ) (i : Nat)
    (net : GNet) (hget : nb.gNetStor.get? i = some net) (hempty : net.gPins = []) :
    net.isDontCare = true ∧
    (∀ n : GNet, n.isDontCare = true ↔ (n.gPins.length = 0 ∨ n.isDontCare_ = true)) ∧
    (({} : GNet).isDontCare_ = false ∧
      ∀ (n : GNet) (p : Nat) (pins : List GPin),
        n.setDontCare.isDontCare_ = true ∧ n.setDontCare.gPins = n.gPins ∧
        (n.addGPin p).isDontCare_ = n.isDontCare_ ∧
        (n.updateBox pins).isDontCare_ = n.isDontCare_) ∧
    ∃ net', (nb.updateWireLengthForceWA wlCoeffX wlCoeffY).gNetStor.get? i = some net' ∧
      net'.isDontCare = true ∧
      net'.waExpMinSumStorX = net.waExpMinSumStorX ∧
      net'.waXExpMinSumStorX = net.waXExpMinSumStorX ∧
      net'.waExpMaxSumStorX = net.waExpMaxSumStorX ∧
      net'.waXExpMaxSumStorX = net.waXExpMaxSumStorX ∧
      net'.waExpMinSumStorY = net.waExpMinSumStorY ∧
      net'.waYExpMinSumStorY = net.waYExpMinSumStorY ∧
      net'.waExpMaxSumStorY = net.waExpMaxSumStorY ∧
      net'.waYExpMaxSumStorY = net.waYExpMaxSumStorY := by
  have hiff : ∀ n : GNet, n.isDontCare = true ↔ (n.gPins.length = 0 ∨ n.isDontCare_ = true) := by
    intro n
    simp [GNet.isDontCare]
  have hbox : ∀ (n : GNet) (pins : List GPin),
      (n.updateBox pins).isDontCare_ = n.isDontCare_ := by
    intro n pins
    unfold GNet.updateBox
    generalize hn0 : ({ n with lx := INT_MAX, ly := INT_MAX, ux := INT_MIN, uy := INT_MIN }
      : GNet) = n0
    have h0 : n0.isDontCare_ = n.isDontCare_ := by rw [← hn0]
    clear hn0
    induction n.gPins generalizing n0 with
    | nil => exact h0
    | cons p ps ih => exact ih _ h0
  refine ⟨(hiff net).mpr (Or.inl (by rw [hempty]; rfl)), hiff, ⟨rfl, ?_⟩, ?_⟩
  · intro n p pins
    exact ⟨rfl, rfl, rfl, hbox n pins⟩
  · obtain ⟨pinsI, hI⟩ := netLoop_get wlCoeffX wlCoeffY nb.nbVars.minWireLengthForceBar
      nb.gNetStor nb.gPinStor i net hget
    refine ⟨_, hI, ?_⟩
    simp only [netStep, hempty, List.foldl_nil, GNet.updateBox, GNet.isDontCare,
      List.length_nil, beq_self_eq_true, Bool.true_or, and_self]

/-- Witness of `emptyNet_dontCare`: the second net of `withEmptyNet` has no pin. -/
theorem emptyNet_dontCare_witness :
    withEmptyNet.gNetStor.get? 1 = some {} ∧
    (({} : GNet).isDontCare = true ∧
    (∀ n : GNet, n.isDontCare = true ↔ (n.gPins.length = 0 ∨ n.isDontCare_ = true)) ∧
    (({} : GNet).isDontCare_ = false ∧
      ∀ (n : GNet) (p : Nat) (pins : List GPin),
        n.setDontCare.isDontCare_ = true ∧ n.setDontCare.gPins = n.gPins ∧
        (n.addGPin p).isDontCare_ = n.isDontCare_ ∧
        (n.updateBox pins).isDontCare_ = n.isDontCare_) ∧
    ∃ net', (withEmptyNet.updateWireLengthForceWA 1 1).gNetStor.get? 1 = some net' ∧
      net'.isDontCare = true ∧
      net'.waExpMinSumStorX = ({} : GNet).waExpMinSumStorX ∧
      net'.waXExpMinSumStorX = ({} : GNet).waXExpMinSumStorX ∧
      net'.waExpMaxSumStorX = ({} : GNet).waExpMaxSumStorX ∧
      net'.waXExpMaxSumStorX = ({} : GNet).waXExpMaxSumStorX ∧
      net'.waExpMinSumStorY = ({} : GNet).waExpMinSumStorY ∧
      net'.waYExpMinSumStorY = ({} : GNet).waYExpMinSumStorY ∧
      net'.waExpMaxSumStorY = ({} : GNet).waExpMaxSumStorY ∧
      net'.waYExpMaxSumStorY = ({} : GNet).waYExpMaxSumStorY) :=
  ⟨rfl, emptyNet_dontCare withEmptyNet 1 1 1 {} rfl rfl⟩

/-! ## C11: the filler cells -/

theorem fillerCells_spec (pb : PlacerBase) (randVal : Nat → Int) (avgDx avgDy : Int) :
    ∀ (n i : Nat) (cells : List GCell),
      fillerCells pb randVal avgDx avgDy n i = .ok cells →
      cells.length = n ∧ ∀ c ∈ cells, ∃ cx cy, c = GCell.mkFiller cx cy avgDx avgDy
  | 0, _, cells => by
    intro h
    simp only [fillerCells] at h
    cases h
    simp
  | n + 1, i, cells => by
    intro h
    unfold fillerCells at h
    split at h
    · cases h
    · simp only [bind, Except.bind, pure, Except.pure] at h
      split at h
      · cases h
      · rename_i rest hrest
        cases h
        obtain ⟨hlen, hall⟩ := fillerCells_spec pb randVal avgDx avgDy n (i + 1) rest hrest
        refine ⟨by simp [hlen], ?_⟩
        intro c hc
        rcases List.mem_cons.mp hc with h1 | h1
        · exact ⟨_, _, h1⟩
        · exact hall c h1

theorem mkFiller_size (cx cy dx dy : Int) :
    (GCell.mkFiller cx cy dx dy).isFiller = true ∧
    (GCell.mkFiller cx cy dx dy).dx = dx - Int.tmod dx 2 ∧
    (GCell.mkFiller cx cy dx dy).dy = dy - Int.tmod dy 2 := by
  refine ⟨rfl, ?_, ?_⟩
  · simp only [GCell.mkFiller, GCell.dx]
    have := Int.tmod_add_tdiv dx 2
    omega
  · simp only [GCell.mkFiller, GCell.dy]
    have := Int.tmod_add_tdiv dy 2
    omega

theorem foldl_wrapUInt32_eq_sum :
    ∀ (l : List Int) (acc : Int), (∀ v ∈ l, 0 ≤ v) → 0 ≤ acc → acc + l.sum < 4294967296 →
      l.foldl (fun a v => wrapUInt32 (a + v)) acc = acc + l.sum
  | [], acc => by
    intro _ _ _
    simp
  | v :: l, acc => by
    intro hnn hacc hsum
    have hv : 0 ≤ v := hnn v (List.mem_cons_self _ _)
    have hl : ∀ w ∈ l, 0 ≤ w := fun w hw => hnn w (List.mem_cons_of_mem _ hw)
    have hl0 : 0 ≤ l.sum := List.sum_nonneg hl
    rw [List.sum_cons] at hsum
    have hw : wrapUInt32 (acc + v) = acc + v := by
      unfold wrapUInt32
      omega
    rw [List.foldl_cons, hw, foldl_wrapUInt32_eq_sum l (acc + v) hl (by omega) (by omega),
      List.sum_cons]
    ring

theorem fillerAvg_eq_trimmedMeanSpec (stor : List Int) (hnn : ∀ v ∈ stor, 0 ≤ v)
    (hsum : stor.sum < 2147483648) (avg : Int) (h : fillerAvg stor = some avg) :
    avg = trimmedMeanSpec stor := by
  unfold fillerAvg at h
  simp only at h
  split at h
  · cases h
  · cases h
    have hperm := List.perm_insertionSort (fun a b : Int => a ≤ b) stor
    have hnn1 : ∀ v ∈ stor.insertionSort (fun a b => a ≤ b), 0 ≤ v :=
      fun v hv => hnn v (hperm.mem_iff.mp hv)
    have hsub : (((stor.insertionSort (fun a b => a ≤ b)).drop
        ((stor.insertionSort (fun a b => a ≤ b)).length / 10)).take
        ((stor.insertionSort (fun a b => a ≤ b)).length * 9 / 10 -
          (stor.insertionSort (fun a b => a ≤ b)).length / 10)).Sublist
        (stor.insertionSort (fun a b => a ≤ b)) :=
      (List.take_sublist _ _).trans (List.drop_sublist _ _)
    have hnn2 := fun v hv => hnn1 v (hsub.subset hv)
    have hle := List.Sublist.sum_le_sum hsub (fun v hv => hnn1 v hv)
    rw [hperm.sum_eq] at hle
    have h0 := List.sum_nonneg hnn2
    unfold trimmedSum trimmedMeanSpec
    simp only
    rw [foldl_wrapUInt32_eq_sum _ 0 hnn2 le_rfl (by omega), zero_add]
    generalize (((stor.insertionSort (fun a b => a ≤ b)).drop _).take _).sum = t at h0 hle ⊢
    generalize (((stor.insertionSort (fun a b => a ≤ b)).length * 9 / 10 -
      (stor.insertionSort (fun a b => a ≤ b)).length / 10 : Nat) : Int) = n
    have hq0 : 0 ≤ t / n ∨ t / n ≤ 0 := le_total _ _
    have hq1 : t / n ≤ t := Int.ediv_le_self _ h0
    have hq2 : -t ≤ t / n := by
      rcases le_total 0 n with hn | hn
      · have := Int.ediv_nonneg h0 hn
        omega
      · have h1 : t / n = -(t / (-n)) := by
          rw [Int.ediv_neg, neg_neg]
        have h2 : t / (-n) ≤ t := Int.ediv_le_self _ h0
        omega
    unfold wrapInt32
    omega

theorem initFillerGCells_unfold (nbVars : NesterovBaseVars) (pb : PlacerBase)
    (randVal : Nat → Int) (cells : List GCell)
    (h : initFillerGCells nbVars pb randVal = .ok cells) :
    ∃ avgDx avgDy : Int,
      fillerAvg (pb.placeInsts.map Instance.dx) = some avgDx ∧
      fillerAvg (pb.placeInsts.map Instance.dy) = some avgDy ∧
      0 ≤ totalFillerArea nbVars pb ∧ wrapInt32 (avgDx * avgDy) ≠ 0 ∧
      fillerCells pb randVal avgDx avgDy
        (wrapInt32 (Int.tdiv (totalFillerArea nbVars pb) (wrapInt32 (avgDx * avgDy)))).toNat 0
        = .ok cells := by
  unfold initFillerGCells at h
  simp only at h
  split at h
  · cases h
  · rename_i hne
    split at h
    · cases h
    · rename_i htot
      split at h
      · cases h
      · rename_i hprod
        refine ⟨_, _, ?_, ?_, not_lt.mp htot, hprod, h⟩
        · simp only [fillerAvg]
          rw [if_neg hne]
        · simp only [fillerAvg, List.length_insertionSort, List.length_map] at hne ⊢
          rw [if_neg hne]

/-- The fillers of a successful run: when `initFillerGCells` succeeds with the cells
`cells`, the trimmed sums have a non-empty index range with quotients `avgDx`, `avgDy`, the number
of cells is the `int` value of `totalFillerArea / (avgDx * avgDy)` (the exact truncated
quotient when the product and the quotient are in `int` range), and every cell is a
filler whose placement box has width `avgDx - avgDx mod 2` and height
`avgDy - avgDy mod 2`: the size itself for an even value, one less for an odd positive
value. When the widths (heights) are non-negative with a sum in `int` range, `avgDx`
(`avgDy`) is the trimmed mean of the specification. -/
theorem initFillerGCells_fillers (nbVars : NesterovBaseVars) (pb : PlacerBase)
    (randVal : Nat → Int) (cells : List GCell)
    (h : initFillerGCells nbVars pb randVal = .ok cells) :
    ∃ avgDx avgDy : Int,
      fillerAvg (pb.placeInsts.map Instance.dx) = some avgDx ∧
      fillerAvg (pb.placeInsts.map Instance.dy) = some avgDy ∧
      ((∀ v ∈ pb.placeInsts.map Instance.dx, 0 ≤ v) →
        (pb.placeInsts.map Instance.dx).sum < 2147483648 →
        avgDx = trimmedMeanSpec (pb.placeInsts.map Instance.dx)) ∧
      ((∀ v ∈ pb.placeInsts.map Instance.dy, 0 ≤ v) →
        (pb.placeInsts.map Instance.dy).sum < 2147483648 →
        avgDy = trimmedMeanSpec (pb.placeInsts.map Instance.dy)) ∧
      cells.length =
        (wrapInt32 (Int.tdiv (totalFillerArea nbVars pb) (wrapInt32 (avgDx * avgDy)))).toNat ∧
      (0 < avgDx * avgDy → avgDx * avgDy < 2147483648 →
        Int.tdiv (totalFillerArea nbVars pb) (avgDx * avgDy) < 2147483648 →
        (cells.length : Int) = Int.tdiv (totalFillerArea nbVars pb) (avgDx * avgDy)) ∧
      ∀ c ∈ cells, c.isFiller = true ∧
        c.dx = avgDx - Int.tmod avgDx 2 ∧ c.dy = avgDy - Int.tmod avgDy 2 ∧
        (Int.tmod avgDx 2 = 0 → c.dx = avgDx) ∧ (Int.tmod avgDy 2 = 0 → c.dy = avgDy) := by
  obtain ⟨avgDx, avgDy, hx, hy, htot, _, hcells⟩ :=
    initFillerGCells_unfold nbVars pb randVal cells h
  obtain ⟨hlen, hall⟩ := fillerCells_spec pb randVal avgDx avgDy _ _ cells hcells
  refine ⟨avgDx, avgDy, hx, hy,
    fun hnn hsum => fillerAvg_eq_trimmedMeanSpec _ hnn hsum avgDx hx,
    fun hnn hsum => fillerAvg_eq_trimmedMeanSpec _ hnn hsum avgDy hy, hlen, ?_, ?_⟩
  · intro hpos hlt hq
    rw [hlen]
    have hw : wrapInt32 (avgDx * avgDy) = avgDx * avgDy := by
      unfold wrapInt32
      omega
    rw [hw]
    have hq0 : 0 ≤ Int.tdiv (totalFillerArea nbVars pb) (avgDx * avgDy) :=
      Int.tdiv_nonneg htot (le_of_lt hpos)
    have hw2 : wrapInt32 (Int.tdiv (totalFillerArea nbVars pb) (avgDx * avgDy)) =
        Int.tdiv (totalFillerArea nbVars pb) (avgDx * avgDy) := by
      unfold wrapInt32
      omega
    rw [hw2]
    exact Int.toNat_of_nonneg hq0
  · intro c hc
    obtain ⟨cx, cy, rfl⟩ := hall c hc
    obtain ⟨h1, h2, h3⟩ := mkFiller_size cx cy avgDx avgDy
    refine ⟨h1, h2, h3, ?_, ?_⟩
    · intro h0
      rw [h2, h0, sub_zero]
    · intro h0
      rw [h3, h0, sub_zero]

/-- Witness of `initFillerGCells_fillers`: `evenSizeCore` at target density one gives
the ten fillers `evenSizeFillers`. -/
theorem initFillerGCells_fillers_witness :
    initFillerGCells {} evenSizeCore (fun k => 7 * k + 3) = .ok evenSizeFillers ∧
    ∃ avgDx avgDy : Int,
      fillerAvg (evenSizeCore.placeInsts.map Instance.dx) = some avgDx ∧
      fillerAvg (evenSizeCore.placeInsts.map Instance.dy) = some avgDy ∧
      ((∀ v ∈ evenSizeCore.placeInsts.map Instance.dx, 0 ≤ v) →
        (evenSizeCore.placeInsts.map Instance.dx).sum < 2147483648 →
        avgDx = trimmedMeanSpec (evenSizeCore.placeInsts.map Instance.dx)) ∧
      ((∀ v ∈ evenSizeCore.placeInsts.map Instance.dy, 0 ≤ v) →
        (evenSizeCore.placeInsts.map Instance.dy).sum < 2147483648 →
        avgDy = trimmedMeanSpec (evenSizeCore.placeInsts.map Instance.dy)) ∧
      evenSizeFillers.length =
        (wrapInt32 (Int.tdiv (totalFillerArea {} evenSizeCore)
          (wrapInt32 (avgDx * avgDy)))).toNat ∧
      (0 < avgDx * avgDy → avgDx * avgDy < 2147483648 →
        Int.tdiv (totalFillerArea {} evenSizeCore) (avgDx * avgDy) < 2147483648 →
        (evenSizeFillers.length : Int) =
          Int.tdiv (totalFillerArea {} evenSizeCore) (avgDx * avgDy)) ∧
      ∀ c ∈ evenSizeFillers, c.isFiller = true ∧
        c.dx = avgDx - Int.tmod avgDx 2 ∧ c.dy = avgDy - Int.tmod avgDy 2 ∧
        (Int.tmod avgDx 2 = 0 → c.dx = avgDx) ∧ (Int.tmod avgDy 2 = 0 → c.dy = avgDy) :=
  ⟨by rfl, initFillerGCells_fillers {} evenSizeCore (fun k => 7 * k + 3) evenSizeFillers
    (by rfl)⟩

/-- C11, evaluated at a failing input: on `oddSizeCore` (two placeable instances of
`3 x 3`, so `avgDx = avgDy = 3`, and `totalFillerArea = 82`) the routine succeeds with
`82 / 9 = 9` fillers, and every one of them has width `2` and height `2`, not the
`avgDx = avgDy = 3` it is meant to have: the constructor halves the odd size with an
integer division. -/
theorem initFillerGCells_odd_size :
    fillerAvg (oddSizeCore.placeInsts.map Instance.dx) = some 3 ∧
    fillerAvg (oddSizeCore.placeInsts.map Instance.dy) = some 3 ∧
    totalFillerArea {} oddSizeCore = 82 ∧
    (do
      let cells ← initFillerGCells {} oddSizeCore (fun k => 7 * k + 3)
      pure (cells.map (fun c => (c.isFiller, c.dx, c.dy)))) =
      Except.ok (List.replicate 9 (true, 2, 2)) :=
  ⟨rfl, rfl, rfl, rfl⟩

/-! ## C20: density sizing -/

/-- In the branch taken by a cell smaller than `√2` bin sizes on both axes, the product
of the two scales and the two density sizes (before their conversion to `int`) is a
quarter of the placement area. -/
theorem densityAxis_tiny_mass (dx dy sx sy : Int) (hsx : 0 < sx) (hsy : 0 < sy)
    (hx : (dx : ℚ) < REPLACE_SQRT2 * (sx : ℚ)) (hy : (dy : ℚ) < REPLACE_SQRT2 * (sy : ℚ)) :
    (densityAxis dx sx).1 * (densityAxis dy sy).1 *
      ((densityAxis dx sx).2 * (densityAxis dy sy).2) = (dx : ℚ) * (dy : ℚ) / 4 := by
  unfold densityAxis
  rw [if_pos hx, if_pos hy]
  have h2 : REPLACE_SQRT2 ≠ 0 := by
    unfold REPLACE_SQRT2
    norm_num
  have h3 : (sx : ℚ) ≠ 0 := by
    exact_mod_cast (ne_of_gt hsx)
  have h4 : (sy : ℚ) ≠ 0 := by
    exact_mod_cast (ne_of_gt hsy)
  have key : ∀ a b p q : ℚ, p ≠ 0 → q ≠ 0 →
      a / p * (b / q) * (p / 2 * (q / 2)) = a * b / 4 := by
    intro a b p q hp hq
    have h1 : a / p * (b / q) * (p / 2 * (q / 2)) = a * b * (p / p) * (q / q) / 4 := by
      ring
    rw [h1, div_self hp, div_self hq]
    ring
  exact key _ _ _ _ (mul_ne_zero h2 h3) (mul_ne_zero h2 h4)

set_option maxRecDepth 100000 in
/-- C20: in scenario S2 the bin grid has `Sx = Sy = 32`, and the density-sizing step of
`NesterovBase::init` gives the `1 x 1` cell a density box of `22 x 22` with a scale of
`1 / (√2·32)²`: the deposited mass is `484 / (1024·√2²)`, less than a quarter, not `1`.
Through `NesterovBase::init` on `tinyCellCore` every filler has the placement size
`2 x 2`, the density box `22 x 22` and a deposited mass below `1`, not `4`. -/
theorem densitySize_mass_not_preserved :
    (do
      let bg ← (BinGrid.configure scenarioS2Vars scenarioS2).initBins scenarioS2
      let c := densitySizeStep bg unitCell
      pure (bg.binSizeX, bg.binSizeY, c.dx * c.dy, c.dDx, c.dDy,
        c.densityMass * (REPLACE_SQRT2 * REPLACE_SQRT2),
        decide (c.densityMass < 1 / 4))) =
      Except.ok (32, 32, 1, 22, 22, 484 / 1024, true) ∧
    (do
      let nb ← NesterovBase.initWithDensity tinyCellVars tinyCellCore (fun k => 7 * k + 3)
      pure (nb.bg.binSizeX, nb.bg.binSizeY,
        (nb.gCellStor.filter (fun c => decide (0 < c.dx ∧ 0 < c.dy))).map
          (fun c => (c.isFiller, c.dx * c.dy, c.dDx, c.dDy, decide (c.densityMass < 1))))) =
      Except.ok (32, 32, List.replicate 14 (true, 4, 22, 22, true)) := by
  constructor
  · with_unfolding_all rfl
  · with_unfolding_all rfl

/-! ## C13: the accumulators after one pass -/

theorem pinAt_set_self (P : List GPin) (p : Nat) (a : GPin) (hp : p < P.length) :
    pinAt (P.set p a) p = a := by
  simp [pinAt, List.getD_eq_getElem?_getD, hp]

theorem pinAt_set_ne (P : List GPin) (p q : Nat) (a : GPin) (h : q ≠ p) :
    pinAt (P.set p a) q = pinAt P q := by
  simp [pinAt, List.getD_eq_getElem?_getD, List.getElem?_set_ne (Ne.symm h)]

theorem set_pinAt_self (P : List GPin) (p : Nat) (hp : p < P.length) :
    P.set p (pinAt P p) = P := by
  apply List.ext_getElem
  · simp
  · intro n h1 h2
    by_cases h : n = p
    · subst h
      simp [pinAt, List.getD_eq_getElem?_getD, hp]
    · simp [pinAt, List.getD_eq_getElem?_getD, hp, List.getElem_set_ne (Ne.symm h)]

theorem blockMinX_set (e : ℚ) (P : List GPin) (p : Nat) (a : GPin) (N : GNet)
    (hp : p < P.length) :
    blockMinX e p (P.set p a, N) =
      (P.set p (a.setMinExpSumX (fastExp e)),
        (N.addWaExpMinSumX (fastExp e)).addWaXExpMinSumX ((a.cx : ℚ) * fastExp e)) := by
  have hp1 : p < (P.set p a).length := by simpa using hp
  simp only [blockMinX, updatePin, pinAt_set_self _ _ _ hp, pinAt_set_self _ _ _ hp1,
    List.set_set]
  rfl

theorem blockMaxX_set (e : ℚ) (P : List GPin) (p : Nat) (a : GPin) (N : GNet)
    (hp : p < P.length) :
    blockMaxX e p (P.set p a, N) =
      (P.set p (a.setMaxExpSumX (fastExp e)),
        (N.addWaExpMaxSumX (fastExp e)).addWaXExpMaxSumX ((a.cx : ℚ) * fastExp e)) := by
  have hp1 : p < (P.set p a).length := by simpa using hp
  simp only [blockMaxX, updatePin, pinAt_set_self _ _ _ hp, pinAt_set_self _ _ _ hp1,
    List.set_set]
  rfl

theorem blockMinY_set (e : ℚ) (P : List GPin) (p : Nat) (a : GPin) (N : GNet)
    (hp : p < P.length) :
    blockMinY e p (P.set p a, N) =
      (P.set p (a.setMinExpSumY (fastExp e)),
        (N.addWaExpMinSumY (fastExp e)).addWaYExpMinSumY ((a.cy : ℚ) * fastExp e)) := by
  have hp1 : p < (P.set p a).length := by simpa using hp
  simp only [blockMinY, updatePin, pinAt_set_self _ _ _ hp, pinAt_set_self _ _ _ hp1,
    List.set_set]
  rfl

theorem blockMaxY_set (e : ℚ) (P : List GPin) (p : Nat) (a : GPin) (N : GNet)
    (hp : p < P.length) :
    blockMaxY e p (P.set p a, N) =
      (P.set p (a.setMaxExpSumY (fastExp e)),
        (N.addWaExpMaxSumY (fastExp e)).addWaYExpMaxSumY ((a.cy : ℚ) * fastExp e)) := by
  have hp1 : p < (P.set p a).length := by simpa using hp
  simp only [blockMaxY, updatePin, pinAt_set_self _ _ _ hp, pinAt_set_self _ _ _ hp1,
    List.set_set]
  rfl

theorem pinStep_set (gx gy bar : ℚ) (P : List GPin) (p : Nat) (a : GPin) (N : GNet)
    (hp : p < P.length) :
    pinStep gx gy bar (P.set p a, N) p =
      (P.set p (pinUpdate gx gy bar N a), netUpdate gx gy bar N a) := by
  unfold pinStep pinUpdate netUpdate
  simp only [pinAt_set_self _ _ _ hp]
  by_cases h1 : expMinX N a gx > bar <;> by_cases h2 : expMaxX N a gx > bar <;>
    by_cases h3 : expMinY N a gy > bar <;> by_cases h4 : expMaxY N a gy > bar <;>
    simp only [h1, h2, h3, h4, if_true, if_false, blockMinX_set _ _ _ _ _ hp,
      blockMaxX_set _ _ _ _ _ hp, blockMinY_set _ _ _ _ _ hp, blockMaxY_set _ _ _ _ _ hp] <;>
    rfl

/-- Closed form of the pin loop body for a valid pin pointer. -/
theorem pinStep_eq (gx gy bar : ℚ) (s : List GPin × GNet) (p : Nat) (hp : p < s.1.length) :
    pinStep gx gy bar s p =
      (s.1.set p (pinUpdate gx gy bar s.2 (pinAt s.1 p)),
        netUpdate gx gy bar s.2 (pinAt s.1 p)) := by
  have h := pinStep_set gx gy bar s.1 p (pinAt s.1 p) s.2 hp
  rw [set_pinAt_self _ _ hp] at h
  exact h

theorem pinUpdate_loc (gx gy bar : ℚ) (N : GNet) (a : GPin) :
    (pinUpdate gx gy bar N a).cx = a.cx ∧ (pinUpdate gx gy bar N a).cy = a.cy := by
  unfold pinUpdate
  simp only
  split_ifs <;> exact ⟨rfl, rfl⟩

theorem netUpdate_frame (gx gy bar : ℚ) (N : GNet) (a : GPin) :
    netBox (netUpdate gx gy bar N a) = netBox N ∧
    (netUpdate gx gy bar N a).gPins = N.gPins ∧
    (netUpdate gx gy bar N a).isDontCare_ = N.isDontCare_ := by
  unfold netUpdate
  simp only
  split_ifs <;>
    simp only [netBox, GNet.addWaExpMinSumX, GNet.addWaXExpMinSumX, GNet.addWaExpMaxSumX,
      GNet.addWaXExpMaxSumX, GNet.addWaExpMinSumY, GNet.addWaYExpMinSumY,
      GNet.addWaExpMaxSumY, GNet.addWaYExpMaxSumY, and_self]

theorem pinStep_frame (gx gy bar : ℚ) (s : List GPin × GNet) (p : Nat)
    (hp : p < s.1.length) :
    (pinStep gx gy bar s p).1.length = s.1.length ∧
    pinLoc (pinStep gx gy bar s p).1 = pinLoc s.1 ∧
    (∀ q, q ≠ p → pinAt (pinStep gx gy bar s p).1 q = pinAt s.1 q) ∧
    netBox (pinStep gx gy bar s p).2 = netBox s.2 ∧
    (pinStep gx gy bar s p).2.gPins = s.2.gPins ∧
    (pinStep gx gy bar s p).2.isDontCare_ = s.2.isDontCare_ := by
  rw [pinStep_eq gx gy bar s p hp]
  obtain ⟨hb, hg, hd⟩ := netUpdate_frame gx gy bar s.2 (pinAt s.1 p)
  refine ⟨by simp, ?_, fun q hq => pinAt_set_ne _ _ _ _ hq, hb, hg, hd⟩
  funext q
  by_cases hq : q = p
  · subst hq
    unfold pinLoc
    rw [pinAt_set_self _ _ _ hp, (pinUpdate_loc gx gy bar s.2 (pinAt s.1 q)).1,
      (pinUpdate_loc gx gy bar s.2 (pinAt s.1 q)).2]
  · unfold pinLoc
    rw [pinAt_set_ne _ _ _ _ hq]

theorem pinFold_frame (gx gy bar : ℚ) :
    ∀ (l : List Nat) (s : List GPin × GNet), (∀ p ∈ l, p < s.1.length) →
      (l.foldl (pinStep gx gy bar) s).1.length = s.1.length ∧
      pinLoc (l.foldl (pinStep gx gy bar) s).1 = pinLoc s.1 ∧
      (∀ q, q ∉ l → pinAt (l.foldl (pinStep gx gy bar) s).1 q = pinAt s.1 q) ∧
      netBox (l.foldl (pinStep gx gy bar) s).2 = netBox s.2 ∧
      (l.foldl (pinStep gx gy bar) s).2.gPins = s.2.gPins ∧
      (l.foldl (pinStep gx gy bar) s).2.isDontCare_ = s.2.isDontCare_
  | [], s => by
    intro _
    exact ⟨rfl, rfl, fun _ _ => rfl, rfl, rfl, rfl⟩
  | p :: l, s => by
    intro hv
    have hp : p < s.1.length := hv p (List.mem_cons_self _ _)
    obtain ⟨h1, h2, h3, h4, h5, h6⟩ := pinStep_frame gx gy bar s p hp
    have hv1 : ∀ q ∈ l, q < (pinStep gx gy bar s p).1.length := by
      intro q hq
      rw [h1]
      exact hv q (List.mem_cons_of_mem _ hq)
    obtain ⟨k1, k2, k3, k4, k5, k6⟩ := pinFold_frame gx gy bar l (pinStep gx gy bar s p) hv1
    rw [List.foldl_cons]
    refine ⟨k1.trans h1, k2.trans h2, ?_, k4.trans h4, k5.trans h5, k6.trans h6⟩
    intro q hq
    rw [k3 q (fun h => hq (List.mem_cons_of_mem _ h)),
      h3 q (fun h => hq (h ▸ List.mem_cons_self _ _))]

/-- An accumulator `g` to which the pin loop body adds `t box loc` grows over a pin
list by the sum of these terms. -/
theorem pinFold_acc (gx gy bar : ℚ) (g : GNet → ℚ)
    (t : Int × Int × Int × Int → Int × Int → ℚ)
    (hstep : ∀ (N : GNet) (a : GPin),
      g (netUpdate gx gy bar N a) = g N + t (netBox N) (a.cx, a.cy)) :
    ∀ (l : List Nat) (s : List GPin × GNet), (∀ p ∈ l, p < s.1.length) →
      g (l.foldl (pinStep gx gy bar) s).2 =
        g s.2 + (l.map (fun p => t (netBox s.2) (pinLoc s.1 p))).sum
  | [], s => by
    intro _
    simp
  | p :: l, s => by
    intro hv
    have hp : p < s.1.length := hv p (List.mem_cons_self _ _)
    obtain ⟨h1, h2, _, h4, _, _⟩ := pinStep_frame gx gy bar s p hp
    have hv1 : ∀ q ∈ l, q < (pinStep gx gy bar s p).1.length := by
      intro q hq
      rw [h1]
      exact hv q (List.mem_cons_of_mem _ hq)
    have ih := pinFold_acc gx gy bar g t hstep l (pinStep gx gy bar s p) hv1
    rw [List.foldl_cons, ih, h2, h4, List.map_cons, List.sum_cons]
    have h0 : g (pinStep gx gy bar s p).2 = g s.2 + t (netBox s.2) (pinLoc s.1 p) := by
      rw [pinStep_eq gx gy bar s p hp]
      exact hstep s.2 (pinAt s.1 p)
    rw [h0]
    ring

/-- A property `φ box loc pin` that the pin loop body establishes for the pin it
visits holds, after the loop over a pin list, for every pin of the list. -/
theorem pinFold_flag (gx gy bar : ℚ)
    (φ : Int × Int × Int × Int → Int × Int → GPin → Prop)
    (hset : ∀ (N : GNet) (a : GPin), φ (netBox N) (a.cx, a.cy) (pinUpdate gx gy bar N a)) :
    ∀ (l : List Nat) (s : List GPin × GNet), (∀ p ∈ l, p < s.1.length) →
      ∀ p ∈ l, φ (netBox s.2) (pinLoc s.1 p) (pinAt (l.foldl (pinStep gx gy bar) s).1 p)
  | [], _ => by
    intro _ p hp
    cases hp
  | p0 :: l, s => by
    intro hv p hpl
    have hp0 : p0 < s.1.length := hv p0 (List.mem_cons_self _ _)
    obtain ⟨h1, h2, _, h4, _, _⟩ := pinStep_frame gx gy bar s p0 hp0
    have hv1 : ∀ q ∈ l, q < (pinStep gx gy bar s p0).1.length := by
      intro q hq
      rw [h1]
      exact hv q (List.mem_cons_of_mem _ hq)
    rw [List.foldl_cons]
    by_cases hin : p ∈ l
    · have ih := pinFold_flag gx gy bar φ hset l (pinStep gx gy bar s p0) hv1 p hin
      rw [h2, h4] at ih
      exact ih
    · have hpe : p = p0 := by
        rcases List.mem_cons.mp hpl with h | h
        · exact h
        · exact absurd h hin
      subst hpe
      rw [(pinFold_frame gx gy bar l (pinStep gx gy bar s p) hv1).2.2.1 p hin,
        pinStep_eq gx gy bar s p hp0, pinAt_set_self _ _ _ hp0]
      exact hset s.2 (pinAt s.1 p)

theorem updateBox_fold (P : List GPin) (g : GNet → ℚ)
    (hg : ∀ (n : GNet) (lx ly ux uy : Int),
      g { n with lx := lx, ly := ly, ux := ux, uy := uy } = g n) :
    ∀ (l : List Nat) (n0 : GNet),
      g (l.foldl
        (fun n p =>
          { n with lx := min (pinAt P p).cx n.lx, ly := min (pinAt P p).cy n.ly,
                   ux := max (pinAt P p).cx n.ux, uy := max (pinAt P p).cy n.uy }) n0) = g n0
  | [], _ => rfl
  | p :: l, n0 => by
    rw [List.foldl_cons, updateBox_fold P g hg l, hg]

theorem updateBox_acc (P : List GPin) (g : GNet → ℚ)
    (hg : ∀ (n : GNet) (lx ly ux uy : Int),
      g { n with lx := lx, ly := ly, ux := ux, uy := uy } = g n) (net : GNet) :
    g (net.updateBox P) = g net := by
  unfold GNet.updateBox
  rw [updateBox_fold P g hg, hg]

theorem updateBox_fold_box (P : List GPin) :
    ∀ (l : List Nat) (n0 : GNet),
      netBox (l.foldl
        (fun n p =>
          { n with lx := min (pinAt P p).cx n.lx, ly := min (pinAt P p).cy n.ly,
                   ux := max (pinAt P p).cx n.ux, uy := max (pinAt P p).cy n.uy }) n0) =
        l.foldl
          (fun b p => (min (pinLoc P p).1 b.1, min (pinLoc P p).2 b.2.1,
            max (pinLoc P p).1 b.2.2.1, max (pinLoc P p).2 b.2.2.2)) (netBox n0) ∧
      (l.foldl
        (fun n p =>
          { n with lx := min (pinAt P p).cx n.lx, ly := min (pinAt P p).cy n.ly,
                   ux := max (pinAt P p).cx n.ux, uy := max (pinAt P p).cy n.uy })
          n0).gPins = n0.gPins ∧
      (l.foldl
        (fun n p =>
          { n with lx := min (pinAt P p).cx n.lx, ly := min (pinAt P p).cy n.ly,
                   ux := max (pinAt P p).cx n.ux, uy := max (pinAt P p).cy n.uy })
          n0).isDontCare_ = n0.isDontCare_
  | [], _ => ⟨rfl, rfl, rfl⟩
  | p :: l, n0 => by
    rw [List.foldl_cons, List.foldl_cons]
    obtain ⟨h1, h2, h3⟩ := updateBox_fold_box P l
      { n0 with lx := min (pinAt P p).cx n0.lx, ly := min (pinAt P p).cy n0.ly,
                ux := max (pinAt P p).cx n0.ux, uy := max (pinAt P p).cy n0.uy }
    exact ⟨h1, h2, h3⟩

theorem updateBox_box (P : List GPin) (net : GNet) :
    netBox (net.updateBox P) = boxOf (pinLoc P) net.gPins ∧
    (net.updateBox P).gPins = net.gPins ∧
    (net.updateBox P).isDontCare_ = net.isDontCare_ := by
  unfold GNet.updateBox boxOf
  obtain ⟨h1, h2, h3⟩ := updateBox_fold_box P net.gPins
    { net with lx := INT_MAX, ly := INT_MAX, ux := INT_MIN, uy := INT_MIN }
  exact ⟨h1, h2, h3⟩

theorem netStep_frame (gx gy bar : ℚ) (P : List GPin) (net : GNet)
    (hv : ∀ p ∈ net.gPins, p < P.length) :
    (netStep gx gy bar P net).1.length = P.length ∧
    pinLoc (netStep gx gy bar P net).1 = pinLoc P ∧
    (∀ q, q ∉ net.gPins → pinAt (netStep gx gy bar P net).1 q = pinAt P q) ∧
    netBox (netStep gx gy bar P net).2 = boxOf (pinLoc P) net.gPins ∧
    (netStep gx gy bar P net).2.gPins = net.gPins ∧
    (netStep gx gy bar P net).2.isDontCare_ = net.isDontCare_ := by
  obtain ⟨h1, h2, h3, h4, h5, h6⟩ :=
    pinFold_frame gx gy bar net.gPins (P, net.updateBox P) hv
  obtain ⟨k1, k2, k3⟩ := updateBox_box P net
  exact ⟨h1, h2, h3, h4.trans k1, h5.trans k2, h6.trans k3⟩

theorem netStep_acc (gx gy bar : ℚ) (g : GNet → ℚ)
    (t : Int × Int × Int × Int → Int × Int → ℚ)
    (hstep : ∀ (N : GNet) (a : GPin),
      g (netUpdate gx gy bar N a) = g N + t (netBox N) (a.cx, a.cy))
    (hg : ∀ (n : GNet) (lx ly ux uy : Int),
      g { n with lx := lx, ly := ly, ux := ux, uy := uy } = g n)
    (P : List GPin) (net : GNet) (hv : ∀ p ∈ net.gPins, p < P.length) :
    g (netStep gx gy bar P net).2 =
      g net + (net.gPins.map (fun p => t (boxOf (pinLoc P) net.gPins) (pinLoc P p))).sum := by
  have h := pinFold_acc gx gy bar g t hstep net.gPins (P, net.updateBox P) hv
  rw [(updateBox_box P net).1, updateBox_acc P g hg net] at h
  exact h

theorem netStep_flag (gx gy bar : ℚ)
    (φ : Int × Int × Int × Int → Int × Int → GPin → Prop)
    (hset : ∀ (N : GNet) (a : GPin), φ (netBox N) (a.cx, a.cy) (pinUpdate gx gy bar N a))
    (P : List GPin) (net : GNet) (hv : ∀ p ∈ net.gPins, p < P.length) :
    ∀ p ∈ net.gPins,
      φ (boxOf (pinLoc P) net.gPins) (pinLoc P p) (pinAt (netStep gx gy bar P net).1 p) := by
  intro p hp
  have h := pinFold_flag gx gy bar φ hset net.gPins (P, net.updateBox P) hv p hp
  rw [(updateBox_box P net).1] at h
  exact h

/-- The net loop keeps the pins in place, and the net it writes at position `i` is the
result of the net step on the `i`-th net for a pin storage with the positions of the
initial one; when no pin is on two nets, the pins of that net are not touched again. -/
theorem netLoop_spec (gx gy bar : ℚ) :
    ∀ (L : List GNet) (P : List GPin), (∀ net ∈ L, ∀ p ∈ net.gPins, p < P.length) →
      (netLoop gx gy bar L P).1.length = P.length ∧
      pinLoc (netLoop gx gy bar L P).1 = pinLoc P ∧
      (∀ q, (∀ net ∈ L, q ∉ net.gPins) → pinAt (netLoop gx gy bar L P).1 q = pinAt P q) ∧
      ∀ (i : Nat) (net : GNet), L.get? i = some net →
        ∃ PI : List GPin, PI.length = P.length ∧ pinLoc PI = pinLoc P ∧
          (netLoop gx gy bar L P).2.get? i = some (netStep gx gy bar PI net).2 ∧
          (L.Pairwise (fun a b => ∀ p ∈ a.gPins, p ∉ b.gPins) →
            ∀ p ∈ net.gPins,
              pinAt (netLoop gx gy bar L P).1 p = pinAt (netStep gx gy bar PI net).1 p)
  | [], P => by
    intro _
    refine ⟨rfl, rfl, fun _ _ => rfl, ?_⟩
    intro i net h
    simp at h
  | n :: rest, P => by
    intro hv
    have hvn : ∀ p ∈ n.gPins, p < P.length := hv n (List.mem_cons_self _ _)
    obtain ⟨h1, h2, h3, _, _, _⟩ := netStep_frame gx gy bar P n hvn
    have hv1 : ∀ net ∈ rest, ∀ p ∈ net.gPins, p < (netStep gx gy bar P n).1.length := by
      intro net hnet p hp
      rw [h1]
      exact hv net (List.mem_cons_of_mem _ hnet) p hp
    obtain ⟨k1, k2, k3, k4⟩ := netLoop_spec gx gy bar rest (netStep gx gy bar P n).1 hv1
    have hunf : netLoop gx gy bar (n :: rest) P =
        ((netLoop gx gy bar rest (netStep gx gy bar P n).1).1,
          (netStep gx gy bar P n).2 :: (netLoop gx gy bar rest (netStep gx gy bar P n).1).2) :=
      rfl
    rw [hunf]
    refine ⟨k1.trans h1, k2.trans h2, ?_, ?_⟩
    · intro q hq
      rw [k3 q (fun net hnet => hq net (List.mem_cons_of_mem _ hnet)),
        h3 q (hq n (List.mem_cons_self _ _))]
    · intro i net hget
      cases i with
      | zero =>
        simp only [List.get?_cons_zero, Option.some.injEq] at hget
        subst hget
        refine ⟨P, rfl, rfl, rfl, ?_⟩
        intro hpw p hp
        exact k3 p (fun net hnet => (List.pairwise_cons.mp hpw).1 net hnet p hp)
      | succ i =>
        simp only [List.get?_cons_succ] at hget
        obtain ⟨PI, e1, e2, e3, e4⟩ := k4 i net hget
        refine ⟨PI, e1.trans h1, e2.trans h2, ?_, ?_⟩
        · simp only [List.get?_cons_succ]
          exact e3
        · intro hpw p hp
          exact e4 (List.pairwise_cons.mp hpw).2 p hp

theorem netUpdate_acc (gx gy bar : ℚ) (N : GNet) (a : GPin) :
    (netUpdate gx gy bar N a).waExpMinSumStorX =
      N.waExpMinSumStorX + waTerm gx bar ((netBox N).1 - a.cx) 1 ∧
    (netUpdate gx gy bar N a).waXExpMinSumStorX =
      N.waXExpMinSumStorX + waTerm gx bar ((netBox N).1 - a.cx) (a.cx : ℚ) ∧
    (netUpdate gx gy bar N a).waExpMaxSumStorX =
      N.waExpMaxSumStorX + waTerm gx bar (a.cx - (netBox N).2.2.1) 1 ∧
    (netUpdate gx gy bar N a).waXExpMaxSumStorX =
      N.waXExpMaxSumStorX + waTerm gx bar (a.cx - (netBox N).2.2.1) (a.cx : ℚ) ∧
    (netUpdate gx gy bar N a).waExpMinSumStorY =
      N.waExpMinSumStorY + waTerm gy bar ((netBox N).2.1 - a.cy) 1 ∧
    (netUpdate gx gy bar N a).waYExpMinSumStorY =
      N.waYExpMinSumStorY + waTerm gy bar ((netBox N).2.1 - a.cy) (a.cy : ℚ) ∧
    (netUpdate gx gy bar N a).waExpMaxSumStorY =
      N.waExpMaxSumStorY + waTerm gy bar (a.cy - (netBox N).2.1) 1 ∧
    (netUpdate gx gy bar N a).waYExpMaxSumStorY =
      N.waYExpMaxSumStorY + waTerm gy bar (a.cy - (netBox N).2.1) (a.cy : ℚ) := by
  unfold netUpdate waTerm
  simp only [netBox, expMinX, expMaxX, expMinY, expMaxY]
  split_ifs <;>
    simp only [GNet.addWaExpMinSumX, GNet.addWaXExpMinSumX, GNet.addWaExpMaxSumX,
      GNet.addWaXExpMaxSumX, GNet.addWaExpMinSumY, GNet.addWaYExpMinSumY,
      GNet.addWaExpMaxSumY, GNet.addWaYExpMaxSumY, add_zero, one_mul, and_self]

theorem pinUpdate_flags (gx gy bar : ℚ) (N : GNet) (a : GPin) :
    PinFlagsOK gx gy bar (netBox N) (a.cx, a.cy) (pinUpdate gx gy bar N a) := by
  unfold PinFlagsOK pinUpdate
  simp only [netBox, expMinX, expMaxX, expMinY, expMaxY]
  split_ifs <;> refine ⟨fun h => ?_, fun h => ?_, fun h => ?_, fun h => ?_⟩ <;>
    first
    | exact absurd h (by assumption)
    | exact ⟨rfl, rfl⟩

theorem foldl_min_spec (f : Nat → Int) :
    ∀ (l : List Nat) (init : Int),
      l.foldl (fun m p => min (f p) m) init ≤ init ∧
      (∀ p ∈ l, l.foldl (fun m p => min (f p) m) init ≤ f p) ∧
      (l.foldl (fun m p => min (f p) m) init = init ∨
        ∃ p ∈ l, l.foldl (fun m p => min (f p) m) init = f p)
  | [], init => by
    refine ⟨le_rfl, ?_, Or.inl rfl⟩
    intro p hp
    cases hp
  | q :: l, init => by
    obtain ⟨h1, h2, h3⟩ := foldl_min_spec f l (min (f q) init)
    rw [List.foldl_cons]
    refine ⟨h1.trans (min_le_right _ _), ?_, ?_⟩
    · intro p hp
      rcases List.mem_cons.mp hp with h | h
      · subst h
        exact h1.trans (min_le_left _ _)
      · exact h2 p h
    · rcases h3 with h | ⟨p, hp, h⟩
      · rcases min_choice (f q) init with hm | hm
        · exact Or.inr ⟨q, List.mem_cons_self _ _, h.trans hm⟩
        · exact Or.inl (h.trans hm)
      · exact Or.inr ⟨p, List.mem_cons_of_mem _ hp, h⟩

theorem foldl_max_spec (f : Nat → Int) :
    ∀ (l : List Nat) (init : Int),
      init ≤ l.foldl (fun m p => max (f p) m) init ∧
      (∀ p ∈ l, f p ≤ l.foldl (fun m p => max (f p) m) init) ∧
      (l.foldl (fun m p => max (f p) m) init = init ∨
        ∃ p ∈ l, l.foldl (fun m p => max (f p) m) init = f p)
  | [], init => by
    refine ⟨le_rfl, ?_, Or.inl rfl⟩
    intro p hp
    cases hp
  | q :: l, init => by
    obtain ⟨h1, h2, h3⟩ := foldl_max_spec f l (max (f q) init)
    rw [List.foldl_cons]
    refine ⟨(le_max_right _ _).trans h1, ?_, ?_⟩
    · intro p hp
      rcases List.mem_cons.mp hp with h | h
      · subst h
        exact (le_max_left _ _).trans h1
      · exact h2 p h
    · rcases h3 with h | ⟨p, hp, h⟩
      · rcases max_choice (f q) init with hm | hm
        · exact Or.inr ⟨q, List.mem_cons_self _ _, h.trans hm⟩
        · exact Or.inl (h.trans hm)
      · exact Or.inr ⟨p, List.mem_cons_of_mem _ hp, h⟩

theorem boxFold_components (loc : Nat → Int × Int) :
    ∀ (l : List Nat) (b0 : Int × Int × Int × Int),
      l.foldl
        (fun b p => (min (loc p).1 b.1, min (loc p).2 b.2.1, max (loc p).1 b.2.2.1,
          max (loc p).2 b.2.2.2)) b0 =
      (l.foldl (fun m p => min (loc p).1 m) b0.1,
        l.foldl (fun m p => min (loc p).2 m) b0.2.1,
        l.foldl (fun m p => max (loc p).1 m) b0.2.2.1,
        l.foldl (fun m p => max (loc p).2 m) b0.2.2.2)
  | [], _ => rfl
  | q :: l, b0 => by
    simp only [List.foldl_cons]
    rw [boxFold_components loc l]

/-- The box folded from `INT_MAX` and `INT_MIN` bounds every pin of the list, and for
a non-empty list of pins in `int` range each side is attained by a pin. -/
theorem boxOf_spec (loc : Nat → Int × Int) (l : List Nat) :
    (∀ p ∈ l, (boxOf loc l).1 ≤ (loc p).1 ∧ (loc p).1 ≤ (boxOf loc l).2.2.1 ∧
      (boxOf loc l).2.1 ≤ (loc p).2 ∧ (loc p).2 ≤ (boxOf loc l).2.2.2) ∧
    (l ≠ [] →
      (∀ p ∈ l, INT_MIN ≤ (loc p).1 ∧ (loc p).1 ≤ INT_MAX ∧
        INT_MIN ≤ (loc p).2 ∧ (loc p).2 ≤ INT_MAX) →
      (∃ p ∈ l, (boxOf loc l).1 = (loc p).1) ∧ (∃ p ∈ l, (boxOf loc l).2.2.1 = (loc p).1) ∧
      (∃ p ∈ l, (boxOf loc l).2.1 = (loc p).2) ∧ (∃ p ∈ l, (boxOf loc l).2.2.2 = (loc p).2)) := by
  unfold boxOf
  rw [boxFold_components loc l]
  obtain ⟨a1, a2, a3⟩ := foldl_min_spec (fun p => (loc p).1) l INT_MAX
  obtain ⟨b1, b2, b3⟩ := foldl_min_spec (fun p => (loc p).2) l INT_MAX
  obtain ⟨c1, c2, c3⟩ := foldl_max_spec (fun p => (loc p).1) l INT_MIN
  obtain ⟨d1, d2, d3⟩ := foldl_max_spec (fun p => (loc p).2) l INT_MIN
  refine ⟨fun p hp => ⟨a2 p hp, c2 p hp, b2 p hp, d2 p hp⟩, ?_⟩
  intro hne hr
  obtain ⟨q, hq⟩ := List.exists_mem_of_ne_nil l hne
  obtain ⟨r1, r2, r3, r4⟩ := hr q hq
  refine ⟨?_, ?_, ?_, ?_⟩
  · rcases a3 with h | h
    · exact ⟨q, hq, le_antisymm (a2 q hq) (by rw [h]; exact r2)⟩
    · exact h
  · rcases c3 with h | h
    · exact ⟨q, hq, le_antisymm (by rw [h]; exact r1) (c2 q hq)⟩
    · exact h
  · rcases b3 with h | h
    · exact ⟨q, hq, le_antisymm (b2 q hq) (by rw [h]; exact r4)⟩
    · exact h
  · rcases d3 with h | h
    · exact ⟨q, hq, le_antisymm (by rw [h]; exact r3) (d2 q hq)⟩
    · exact h

theorem sum_filter_map (c : Nat → Bool) (f : Nat → ℚ) :
    ∀ l : List Nat,
      ((l.filter c).map f).sum = (l.map (fun p => if c p = true then f p else 0)).sum
  | [] => rfl
  | q :: l => by
    by_cases h : c q = true
    · simp [List.filter_cons, h, sum_filter_map c f l]
    · simp [List.filter_cons, h, sum_filter_map c f l]

/-- An accumulator that starts at zero and to which the pin loop body adds the term of
the pin holds, after the net step, the sum the specification gives. -/
theorem netStep_acc_spec (gx gy bar coeff : ℚ) (g : GNet → ℚ)
    (dbox : Int × Int × Int × Int → Int × Int → Int) (wloc : Int × Int → ℚ)
    (hstep : ∀ (N : GNet) (a : GPin),
      g (netUpdate gx gy bar N a) =
        g N + waTerm coeff bar (dbox (netBox N) (a.cx, a.cy)) (wloc (a.cx, a.cy)))
    (hg : ∀ (n : GNet) (lx ly ux uy : Int),
      g { n with lx := lx, ly := ly, ux := ux, uy := uy } = g n)
    (P PI : List GPin) (net : GNet) (hv : ∀ p ∈ net.gPins, p < PI.length)
    (hloc : pinLoc PI = pinLoc P) (h0 : g net = 0) :
    g (netStep gx gy bar PI net).2 =
      waSumSpec P (netStep gx gy bar PI net).2
        (fun n pin => ((dbox (netBox n) (pin.cx, pin.cy) : Int) : ℚ) * coeff) bar
        (fun pin => wloc (pin.cx, pin.cy)) := by
  have h := netStep_acc gx gy bar g
    (fun box loc => waTerm coeff bar (dbox box loc) (wloc loc)) hstep hg PI net hv
  obtain ⟨_, _, _, hbox, hgp, _⟩ := netStep_frame gx gy bar PI net hv
  rw [h0, zero_add, ← hbox, hloc] at h
  rw [h]
  unfold waSumSpec
  rw [sum_filter_map, hgp]
  congr 1
  apply List.map_congr_left
  intro p _
  simp only [decide_eq_true_eq]
  rfl

theorem pinAt_mem (P : List GPin) (p : Nat) (hp : p < P.length) : pinAt P p ∈ P := by
  have h : pinAt P p = P[p] := by
    simp [pinAt, List.getD_eq_getElem?_getD, hp]
  rw [h]
  exact List.getElem_mem hp

/-- C13: on a state whose net accumulators are all zero, whose nets point at pins of
the pin storage, with no pin on two nets and all pin positions in `int` range, one call
of `updateWireLengthForceWA` leaves at every net position `i` a net `net'` with the pins
of the net before the call, whose box bounds every pin of the net (each side attained
by a pin when the net has a pin), and whose eight accumulators are the sums of the
specification: over the pins whose argument exceeds `minWireLengthForceBar`, of
`fastExp` of the argument, and of the coordinate times it, the four arguments being
`(lx - cx)·wlCoeffX`, `(cx - ux)·wlCoeffX`, `(ly - cy)·wlCoeffY` and
`(cy - ly)·wlCoeffY`. Every pin of the net keeps its position, and on each side
whose argument exceeds the bar its flag is set and its stored value is `fastExp` of
the argument. -/
theorem updateWireLengthForceWA_sums (nb : NesterovBase) (wlCoeffX wlCoeffY : ℚ)
    (hzero : ∀ net ∈ nb.gNetStor,
      net.waExpMinSumStorX = 0 ∧ net.waXExpMinSumStorX = 0 ∧
      net.waExpMaxSumStorX = 0 ∧ net.waXExpMaxSumStorX = 0 ∧
      net.waExpMinSumStorY = 0 ∧ net.waYExpMinSumStorY = 0 ∧
      net.waExpMaxSumStorY = 0 ∧ net.waYExpMaxSumStorY = 0)
    (hvalid : ∀ net ∈ nb.gNetStor, ∀ p ∈ net.gPins, p < nb.gPinStor.length)
    (hdisj : nb.gNetStor.Pairwise (fun a b => ∀ p ∈ a.gPins, p ∉ b.gPins))
    (hrange : ∀ pin ∈ nb.gPinStor,
      INT_MIN ≤ pin.cx ∧ pin.cx ≤ INT_MAX ∧ INT_MIN ≤ pin.cy ∧ pin.cy ≤ INT_MAX)
    (i : Nat) (net : GNet) (hget : nb.gNetStor.get? i = some net) :
    ∃ net', (nb.updateWireLengthForceWA wlCoeffX wlCoeffY).gNetStor.get? i = some net' ∧
      net'.gPins = net.gPins ∧
      (∀ p ∈ net.gPins,
        net'.lx ≤ (pinAt nb.gPinStor p).cx ∧ (pinAt nb.gPinStor p).cx ≤ net'.ux ∧
        net'.ly ≤ (pinAt nb.gPinStor p).cy ∧ (pinAt nb.gPinStor p).cy ≤ net'.uy) ∧
      (net.gPins ≠ [] →
        (∃ p ∈ net.gPins, net'.lx = (pinAt nb.gPinStor p).cx) ∧
        (∃ p ∈ net.gPins, net'.ux = (pinAt nb.gPinStor p).cx) ∧
        (∃ p ∈ net.gPins, net'.ly = (pinAt nb.gPinStor p).cy) ∧
        (∃ p ∈ net.gPins, net'.uy = (pinAt nb.gPinStor p).cy)) ∧
      net'.waExpMinSumStorX =
        waSumSpec nb.gPinStor net' (fun n pin => expMinX n pin wlCoeffX)
          nb.nbVars.minWireLengthForceBar (fun _ => 1) ∧
      net'.waXExpMinSumStorX =
        waSumSpec nb.gPinStor net' (fun n pin => expMinX n pin wlCoeffX)
          nb.nbVars.minWireLengthForceBar (fun pin => (pin.cx : ℚ)) ∧
      net'.waExpMaxSumStorX =
        waSumSpec nb.gPinStor net' (fun n pin => expMaxX n pin wlCoeffX)
          nb.nbVars.minWireLengthForceBar (fun _ => 1) ∧
      net'.waXExpMaxSumStorX =
        waSumSpec nb.gPinStor net' (fun n pin => expMaxX n pin wlCoeffX)
          nb.nbVars.minWireLengthForceBar (fun pin => (pin.cx : ℚ)) ∧
      net'.waExpMinSumStorY =
        waSumSpec nb.gPinStor net' (fun n pin => expMinY n pin wlCoeffY)
          nb.nbVars.minWireLengthForceBar (fun _ => 1) ∧
      net'.waYExpMinSumStorY =
        waSumSpec nb.gPinStor net' (fun n pin => expMinY n pin wlCoeffY)
          nb.nbVars.minWireLengthForceBar (fun pin => (pin.cy : ℚ)) ∧
      net'.waExpMaxSumStorY =
        waSumSpec nb.gPinStor net' (fun n pin => expMaxY n pin wlCoeffY)
          nb.nbVars.minWireLengthForceBar (fun _ => 1) ∧
      net'.waYExpMaxSumStorY =
        waSumSpec nb.gPinStor net' (fun n pin => expMaxY n pin wlCoeffY)
          nb.nbVars.minWireLengthForceBar (fun pin => (pin.cy : ℚ)) ∧
      ∀ p ∈ net.gPins,
        (pinAt (nb.updateWireLengthForceWA wlCoeffX wlCoeffY).gPinStor p).cx =
          (pinAt nb.gPinStor p).cx ∧
        (pinAt (nb.updateWireLengthForceWA wlCoeffX wlCoeffY).gPinStor p).cy =
          (pinAt nb.gPinStor p).cy ∧
        (expMinX net' (pinAt nb.gPinStor p) wlCoeffX > nb.nbVars.minWireLengthForceBar →
          (pinAt (nb.updateWireLengthForceWA wlCoeffX wlCoeffY).gPinStor p).hasMinExpSumX
            = true ∧
          (pinAt (nb.updateWireLengthForceWA wlCoeffX wlCoeffY).gPinStor p).minExpSumX =
            fastExp (expMinX net' (pinAt nb.gPinStor p) wlCoeffX)) ∧
        (expMaxX net' (pinAt nb.gPinStor p) wlCoeffX > nb.nbVars.minWireLengthForceBar →
          (pinAt (nb.updateWireLengthForceWA wlCoeffX wlCoeffY).gPinStor p).hasMaxExpSumX
            = true ∧
          (pinAt (nb.updateWireLengthForceWA wlCoeffX wlCoeffY).gPinStor p).maxExpSumX =
            fastExp (expMaxX net' (pinAt nb.gPinStor p) wlCoeffX)) ∧
        (expMinY net' (pinAt nb.gPinStor p) wlCoeffY > nb.nbVars.minWireLengthForceBar →
          (pinAt (nb.updateWireLengthForceWA wlCoeffX wlCoeffY).gPinStor p).hasMinExpSumY
            = true ∧
          (pinAt (nb.updateWireLengthForceWA wlCoeffX wlCoeffY).gPinStor p).minExpSumY =
            fastExp (expMinY net' (pinAt nb.gPinStor p) wlCoeffY)) ∧
        (expMaxY net' (pinAt nb.gPinStor p) wlCoeffY > nb.nbVars.minWireLengthForceBar →
          (pinAt (nb.updateWireLengthForceWA wlCoeffX wlCoeffY).gPinStor p).hasMaxExpSumY
            = true ∧
          (pinAt (nb.updateWireLengthForceWA wlCoeffX wlCoeffY).gPinStor p).maxExpSumY =
            fastExp (expMaxY net' (pinAt nb.gPinStor p) wlCoeffY)) := by
  obtain ⟨_, hlocF, _, hnet⟩ :=
    netLoop_spec wlCoeffX wlCoeffY nb.nbVars.minWireLengthForceBar nb.gNetStor nb.gPinStor
      hvalid
  obtain ⟨PI, hlen, hloc, hgetI, hpins⟩ := hnet i net hget
  have hmem : net ∈ nb.gNetStor := List.get?_mem hget
  have hv : ∀ p ∈ net.gPins, p < PI.length := by
    intro p hp
    rw [hlen]
    exact hvalid net hmem p hp
  obtain ⟨z1, z2, z3, z4, z5, z6, z7, z8⟩ := hzero net hmem
  obtain ⟨_, _, _, hbox, hgp, _⟩ :=
    netStep_frame wlCoeffX wlCoeffY nb.nbVars.minWireLengthForceBar PI net hv
  rw [hloc] at hbox
  obtain ⟨hb1, hb2⟩ := boxOf_spec (pinLoc nb.gPinStor) net.gPins
  rw [← hbox] at hb1 hb2
  refine ⟨(netStep wlCoeffX wlCoeffY nb.nbVars.minWireLengthForceBar PI net).2, hgetI, hgp,
    hb1,
    fun hne => hb2 hne (fun p hp =>
      hrange (pinAt nb.gPinStor p) (pinAt_mem nb.gPinStor p (hvalid net hmem p hp))), ?_, ?_, ?_, ?_, ?_, ?_, ?_, ?_, ?_⟩
  · exact netStep_acc_spec wlCoeffX wlCoeffY nb.nbVars.minWireLengthForceBar wlCoeffX
      (fun n => n.waExpMinSumStorX) (fun box loc => box.1 - loc.1) (fun _ => 1)
      (fun N a => (netUpdate_acc wlCoeffX wlCoeffY _ N a).1) (fun _ _ _ _ _ => rfl)
      nb.gPinStor PI net hv hloc z1
  · exact netStep_acc_spec wlCoeffX wlCoeffY nb.nbVars.minWireLengthForceBar wlCoeffX
      (fun n => n.waXExpMinSumStorX) (fun box loc => box.1 - loc.1) (fun loc => (loc.1 : ℚ))
      (fun N a => (netUpdate_acc wlCoeffX wlCoeffY _ N a).2.1) (fun _ _ _ _ _ => rfl)
      nb.gPinStor PI net hv hloc z2
  · exact netStep_acc_spec wlCoeffX wlCoeffY nb.nbVars.minWireLengthForceBar wlCoeffX
      (fun n => n.waExpMaxSumStorX) (fun box loc => loc.1 - box.2.2.1) (fun _ => 1)
      (fun N a => (netUpdate_acc wlCoeffX wlCoeffY _ N a).2.2.1) (fun _ _ _ _ _ => rfl)
      nb.gPinStor PI net hv hloc z3
  · exact netStep_acc_spec wlCoeffX wlCoeffY nb.nbVars.minWireLengthForceBar wlCoeffX
      (fun n => n.waXExpMaxSumStorX) (fun box loc => loc.1 - box.2.2.1)
      (fun loc => (loc.1 : ℚ))
      (fun N a => (netUpdate_acc wlCoeffX wlCoeffY _ N a).2.2.2.1) (fun _ _ _ _ _ => rfl)
      nb.gPinStor PI net hv hloc z4
  · exact netStep_acc_spec wlCoeffX wlCoeffY nb.nbVars.minWireLengthForceBar wlCoeffY
      (fun n => n.waExpMinSumStorY) (fun box loc => box.2.1 - loc.2) (fun _ => 1)
      (fun N a => (netUpdate_acc wlCoeffX wlCoeffY _ N a).2.2.2.2.1) (fun _ _ _ _ _ => rfl)
      nb.gPinStor PI net hv hloc z5
  · exact netStep_acc_spec wlCoeffX wlCoeffY nb.nbVars.minWireLengthForceBar wlCoeffY
      (fun n => n.waYExpMinSumStorY) (fun box loc => box.2.1 - loc.2)
      (fun loc => (loc.2 : ℚ))
      (fun N a => (netUpdate_acc wlCoeffX wlCoeffY _ N a).2.2.2.2.2.1)
      (fun _ _ _ _ _ => rfl) nb.gPinStor PI net hv hloc z6
  · exact netStep_acc_spec wlCoeffX wlCoeffY nb.nbVars.minWireLengthForceBar wlCoeffY
      (fun n => n.waExpMaxSumStorY) (fun box loc => loc.2 - box.2.1) (fun _ => 1)
      (fun N a => (netUpdate_acc wlCoeffX wlCoeffY _ N a).2.2.2.2.2.2.1)
      (fun _ _ _ _ _ => rfl) nb.gPinStor PI net hv hloc z7
  · exact netStep_acc_spec wlCoeffX wlCoeffY nb.nbVars.minWireLengthForceBar wlCoeffY
      (fun n => n.waYExpMaxSumStorY) (fun box loc => loc.2 - box.2.1)
      (fun loc => (loc.2 : ℚ))
      (fun N a => (netUpdate_acc wlCoeffX wlCoeffY _ N a).2.2.2.2.2.2.2)
      (fun _ _ _ _ _ => rfl) nb.gPinStor PI net hv hloc z8
  · intro p hp
    have hfl := netStep_flag wlCoeffX wlCoeffY nb.nbVars.minWireLengthForceBar
      (PinFlagsOK wlCoeffX wlCoeffY nb.nbVars.minWireLengthForceBar)
      (pinUpdate_flags wlCoeffX wlCoeffY nb.nbVars.minWireLengthForceBar) PI net hv p hp
    rw [hloc, ← hbox] at hfl
    have hpin : pinAt (nb.updateWireLengthForceWA wlCoeffX wlCoeffY).gPinStor p =
        pinAt (netStep wlCoeffX wlCoeffY nb.nbVars.minWireLengthForceBar PI net).1 p :=
      hpins hdisj p hp
    rw [← hpin] at hfl
    have hl := congrFun hlocF p
    have hcx : (pinAt (nb.updateWireLengthForceWA wlCoeffX wlCoeffY).gPinStor p).cx =
        (pinAt nb.gPinStor p).cx := congrArg Prod.fst hl
    have hcy : (pinAt (nb.updateWireLengthForceWA wlCoeffX wlCoeffY).gPinStor p).cy =
        (pinAt nb.gPinStor p).cy := congrArg Prod.snd hl
    exact ⟨hcx, hcy, hfl.1, hfl.2.1, hfl.2.2.1, hfl.2.2.2⟩

/-- Witness of `updateWireLengthForceWA_sums`: the first net of `twoNets`, with both
coefficients `1`. -/
theorem updateWireLengthForceWA_sums_witness :
    ∃ net', (twoNets.updateWireLengthForceWA 1 1).gNetStor.get? 0 = some net' ∧
      net'.gPins = ([0, 1] : List Nat) ∧
      (∀ p ∈ ([0, 1] : List Nat),
        net'.lx ≤ (pinAt twoNets.gPinStor p).cx ∧ (pinAt twoNets.gPinStor p).cx ≤ net'.ux ∧
        net'.ly ≤ (pinAt twoNets.gPinStor p).cy ∧ (pinAt twoNets.gPinStor p).cy ≤ net'.uy) ∧
      (([0, 1] : List Nat) ≠ [] →
        (∃ p ∈ ([0, 1] : List Nat), net'.lx = (pinAt twoNets.gPinStor p).cx) ∧
        (∃ p ∈ ([0, 1] : List Nat), net'.ux = (pinAt twoNets.gPinStor p).cx) ∧
        (∃ p ∈ ([0, 1] : List Nat), net'.ly = (pinAt twoNets.gPinStor p).cy) ∧
        (∃ p ∈ ([0, 1] : List Nat), net'.uy = (pinAt twoNets.gPinStor p).cy)) ∧
      net'.waExpMinSumStorX =
        waSumSpec twoNets.gPinStor net' (fun n pin => expMinX n pin 1)
          twoNets.nbVars.minWireLengthForceBar (fun _ => 1) ∧
      net'.waXExpMinSumStorX =
        waSumSpec twoNets.gPinStor net' (fun n pin => expMinX n pin 1)
          twoNets.nbVars.minWireLengthForceBar (fun pin => (pin.cx : ℚ)) ∧
      net'.waExpMaxSumStorX =
        waSumSpec twoNets.gPinStor net' (fun n pin => expMaxX n pin 1)
          twoNets.nbVars.minWireLengthForceBar (fun _ => 1) ∧
      net'.waXExpMaxSumStorX =
        waSumSpec twoNets.gPinStor net' (fun n pin => expMaxX n pin 1)
          twoNets.nbVars.minWireLengthForceBar (fun pin => (pin.cx : ℚ)) ∧
      net'.waExpMinSumStorY =
        waSumSpec twoNets.gPinStor net' (fun n pin => expMinY n pin 1)
          twoNets.nbVars.minWireLengthForceBar (fun _ => 1) ∧
      net'.waYExpMinSumStorY =
        waSumSpec twoNets.gPinStor net' (fun n pin => expMinY n pin 1)
          twoNets.nbVars.minWireLengthForceBar (fun pin => (pin.cy : ℚ)) ∧
      net'.waExpMaxSumStorY =
        waSumSpec twoNets.gPinStor net' (fun n pin => expMaxY n pin 1)
          twoNets.nbVars.minWireLengthForceBar (fun _ => 1) ∧
      net'.waYExpMaxSumStorY =
        waSumSpec twoNets.gPinStor net' (fun n pin => expMaxY n pin 1)
          twoNets.nbVars.minWireLengthForceBar (fun pin => (pin.cy : ℚ)) ∧
      ∀ p ∈ ([0, 1] : List Nat),
        (pinAt (twoNets.updateWireLengthForceWA 1 1).gPinStor p).cx =
          (pinAt twoNets.gPinStor p).cx ∧
        (pinAt (twoNets.updateWireLengthForceWA 1 1).gPinStor p).cy =
          (pinAt twoNets.gPinStor p).cy ∧
        (expMinX net' (pinAt twoNets.gPinStor p) 1 > twoNets.nbVars.minWireLengthForceBar →
          (pinAt (twoNets.updateWireLengthForceWA 1 1).gPinStor p).hasMinExpSumX
            = true ∧
          (pinAt (twoNets.updateWireLengthForceWA 1 1).gPinStor p).minExpSumX =
            fastExp (expMinX net' (pinAt twoNets.gPinStor p) 1)) ∧
        (expMaxX net' (pinAt twoNets.gPinStor p) 1 > twoNets.nbVars.minWireLengthForceBar →
          (pinAt (twoNets.updateWireLengthForceWA 1 1).gPinStor p).hasMaxExpSumX
            = true ∧
          (pinAt (twoNets.updateWireLengthForceWA 1 1).gPinStor p).maxExpSumX =
            fastExp (expMaxX net' (pinAt twoNets.gPinStor p) 1)) ∧
        (expMinY net' (pinAt twoNets.gPinStor p) 1 > twoNets.nbVars.minWireLengthForceBar →
          (pinAt (twoNets.updateWireLengthForceWA 1 1).gPinStor p).hasMinExpSumY
            = true ∧
          (pinAt (twoNets.updateWireLengthForceWA 1 1).gPinStor p).minExpSumY =
            fastExp (expMinY net' (pinAt twoNets.gPinStor p) 1)) ∧
        (expMaxY net' (pinAt twoNets.gPinStor p) 1 > twoNets.nbVars.minWireLengthForceBar →
          (pinAt (twoNets.updateWireLengthForceWA 1 1).gPinStor p).hasMaxExpSumY
            = true ∧
          (pinAt (twoNets.updateWireLengthForceWA 1 1).gPinStor p).maxExpSumY =
            fastExp (expMaxY net' (pinAt twoNets.gPinStor p) 1)) :=
  updateWireLengthForceWA_sums twoNets 1 1
    (by
      intro net h
      simp only [twoNets, List.mem_cons, List.mem_singleton, List.not_mem_nil, or_false] at h
      rcases h with rfl | rfl <;> exact ⟨rfl, rfl, rfl, rfl, rfl, rfl, rfl, rfl⟩)
    (by decide) (by decide) (by decide) 0 { gPins := [0, 1] } rfl

/-! ## C28: the bins and the die -/

/-- C28, evaluated at a failing input: on the core `0..6 x 0..6` with user bin counts
`3 x 3` (bin size `2 x 2`, the core width is three bin widths) `initBins` writes nine
bins whose boxes are three full bins and one empty bin at `x = 6` in each of the rows
`y = 0` and `y = 2`, and one bin in the row `y = 4`: the bin areas sum to `28`, not to
the die area `36`, and the part `2..6 x 4..6` of the die is in no bin. -/
theorem initBins_exact_multiple_area :
    (do
      let g ← (BinGrid.configure (userBinCnt 3 3) (smallCore 6 6)).initBins (smallCore 6 6)
      pure (g.binCntX, g.binCntY, g.binSizeX, g.binSizeY, g.bins.map Bin.box,
        (g.bins.map (fun b => (b.ux - b.lx) * (b.uy - b.ly))).sum,
        (g.ux - g.lx) * (g.uy - g.ly))) =
      Except.ok (3, 3, 2, 2,
        [(0, 0, 2, 2), (2, 0, 4, 2), (4, 0, 6, 2), (6, 0, 6, 2),
         (0, 2, 2, 4), (2, 2, 4, 4), (4, 2, 6, 4), (6, 2, 6, 4),
         (0, 4, 2, 6)], 28, 36) := by
  rfl

/-! ## C29: the bin indices that are visited -/

/-- C29, evaluated at a failing input: on `cornerGrid` (`Nx = Ny = 2`, four bins)
the index pairs of the cell on `3..5 x 3..5`, which lies inside the die, are `(1, 2)`
on both axes, so the loops reach `i = 2 = Nx` and `j = 2 = Ny`:
`updateBinsGCellArea` and `updateBinsGCellDensityArea` access `bins_` outside the
array, and so does `updateBinsNonPlaceArea` for a fixed instance on the same box.
For the cell on `0..3 x 0..3`, whose upper edges are flush with a bin edge, the pairs
are `(0, 1)`: the loops visit the next bin column and row. -/
theorem updateBins_index_past_grid :
    (do
      let g ← cornerGrid
      let pairX ← g.getMinMaxIdxX cornerCell
      let pairY ← g.getMinMaxIdxY cornerCell
      pure (g.binCntX, g.binCntY, g.bins.length, pairX, pairY)) =
      Except.ok (2, 2, 4, (1, 2), (1, 2)) ∧
    (do
      let g ← cornerGrid
      g.updateBinsGCellArea [cornerCell]) = Except.error Fault.outOfBounds ∧
    (do
      let g ← cornerGrid
      g.updateBinsGCellDensityArea [cornerCell]) = Except.error Fault.outOfBounds ∧
    (BinGrid.configure (userBinCnt 2 2) cornerFixedCore).initBins cornerFixedCore =
      Except.error Fault.outOfBounds ∧
    (do
      let g ← cornerGrid
      let pairX ← g.getMinMaxIdxX flushCell
      let pairY ← g.getMinMaxIdxY flushCell
      pure (pairX, pairY)) = Except.ok ((0, 1), (0, 1)) := by
  refine ⟨rfl, rfl, rfl, rfl, rfl⟩

/-! ## C30: the divisor of the filler size -/

/-- The index range of the trimmed mean is not empty for two or more values. -/
theorem trimmed_range_nonempty (n : Nat) (h : 2 ≤ n) : n * 9 / 10 - n / 10 ≠ 0 := by
  omega

/-- C30 fails for `N = 1`: with exactly one placeable instance, whatever its size, the
index range of the trimmed mean is `[0, 0)`, both quotients `dxSum / (maxIdx - minIdx)`
and `dySum / (maxIdx - minIdx)` have the divisor `0`, and `initFillerGCells` ends in
that division. -/
theorem initFillerGCells_one_placeInst (nbVars : NesterovBaseVars) (pb : PlacerBase)
    (randVal : Nat → Int) (inst : Instance) (h : pb.placeInsts = [inst]) :
    pb.placeInsts.length * 9 / 10 - pb.placeInsts.length / 10 = 0 ∧
    fillerAvg (pb.placeInsts.map Instance.dx) = none ∧
    fillerAvg (pb.placeInsts.map Instance.dy) = none ∧
    initFillerGCells nbVars pb randVal = .error .divisionByZero := by
  have hlen : ∀ f : Instance → Int,
      ((pb.placeInsts.map f).insertionSort (fun a b => a ≤ b)).length = 1 := by
    intro f
    rw [List.length_insertionSort, List.length_map, h]
    rfl
  refine ⟨by rw [h]; simp, ?_, ?_, ?_⟩
  · unfold fillerAvg
    simp only [hlen]
    rfl
  · unfold fillerAvg
    simp only [hlen]
    rfl
  · unfold initFillerGCells
    simp only [hlen]
    rfl

/-- Witness of `initFillerGCells_one_placeInst`: one placeable instance of the positive
size `7 x 5` on the core `0..100 x 0..100`, with target density one. -/
theorem initFillerGCells_one_placeInst_witness :
    onePlaceInstCore.placeInsts = [⟨10, 10, 17, 15⟩] ∧
    (0 < Instance.dx ⟨10, 10, 17, 15⟩ ∧ 0 < Instance.dy ⟨10, 10, 17, 15⟩) ∧
    (onePlaceInstCore.placeInsts.length * 9 / 10 - onePlaceInstCore.placeInsts.length / 10
      = 0 ∧
    fillerAvg (onePlaceInstCore.placeInsts.map Instance.dx) = none ∧
    fillerAvg (onePlaceInstCore.placeInsts.map Instance.dy) = none ∧
    initFillerGCells {} onePlaceInstCore (fun k => 7 * k + 3) = .error .divisionByZero) :=
  ⟨rfl, by decide,
    initFillerGCells_one_placeInst {} onePlaceInstCore (fun k => 7 * k + 3)
      ⟨10, 10, 17, 15⟩ rfl⟩

/-! ## C21: bounds on the density scale -/

/-- One axis of the density sizing, for a non-negative extent `d`: the scale lies in
`[0, 1]`, for a tiny extent the product of scale and extent is at most `√2` bin sizes,
and otherwise the scale is `1`. -/
theorem densityAxis_scale (d S : Int) (hd : 0 ≤ d) :
    0 ≤ (densityAxis d S).1 ∧ (densityAxis d S).1 ≤ 1 ∧
    0 ≤ (densityAxis d S).1 * (d : ℚ) ∧
    (densityAxis d S).1 * (d : ℚ) ≤ (d : ℚ) ∧
    ((d : ℚ) < REPLACE_SQRT2 * (S : ℚ) →
      (densityAxis d S).1 = (d : ℚ) / (REPLACE_SQRT2 * (S : ℚ)) ∧
      (densityAxis d S).1 * (d : ℚ) ≤ REPLACE_SQRT2 * (S : ℚ)) ∧
    (¬ (d : ℚ) < REPLACE_SQRT2 * (S : ℚ) → (densityAxis d S).1 = 1) := by
  have hd' : (0 : ℚ) ≤ (d : ℚ) := by exact_mod_cast hd
  unfold densityAxis
  by_cases ht : (d : ℚ) < REPLACE_SQRT2 * (S : ℚ)
  · rw [if_pos ht]
    have hT : 0 < REPLACE_SQRT2 * (S : ℚ) := lt_of_le_of_lt hd' ht
    have h0 : 0 ≤ (d : ℚ) / (REPLACE_SQRT2 * (S : ℚ)) := div_nonneg hd' (le_of_lt hT)
    have h1 : (d : ℚ) / (REPLACE_SQRT2 * (S : ℚ)) ≤ 1 := by
      rw [div_le_one hT]
      exact le_of_lt ht
    have h2 : (d : ℚ) / (REPLACE_SQRT2 * (S : ℚ)) * (d : ℚ) ≤ (d : ℚ) := by
      calc (d : ℚ) / (REPLACE_SQRT2 * (S : ℚ)) * (d : ℚ) ≤ 1 * (d : ℚ) :=
            mul_le_mul_of_nonneg_right h1 hd'
        _ = (d : ℚ) := one_mul _
    exact ⟨h0, h1, mul_nonneg h0 hd', h2, fun _ => ⟨rfl, le_trans h2 (le_of_lt ht)⟩,
      fun h => absurd ht h⟩
  · rw [if_neg ht]
    exact ⟨zero_le_one, le_refl _, by simpa using hd', by simp,
      fun h => absurd h ht, fun _ => rfl⟩

theorem initWithDensity_cells (nbVars : NesterovBaseVars) (pb : PlacerBase)
    (randVal : Nat → Int) (nb : NesterovBase)
    (h : NesterovBase.initWithDensity nbVars pb randVal = .ok nb) (c : GCell)
    (hc : c ∈ nb.gCellStor) :
    ∃ nb0 c0, NesterovBase.init nbVars pb randVal = .ok nb0 ∧ nb.bg = nb0.bg ∧
      c0 ∈ nb0.gCellStor ∧ c = densitySizeStep nb.bg c0 := by
  unfold NesterovBase.initWithDensity at h
  cases h0 : NesterovBase.init nbVars pb randVal with
  | error e =>
    rw [h0] at h
    cases h
  | ok nb0 =>
    rw [h0] at h
    simp only [bind, Except.bind, pure, Except.pure] at h
    cases h
    simp only [NesterovBase.initDensitySize, List.mem_map] at hc
    obtain ⟨c0, hc0, rfl⟩ := hc
    exact ⟨nb0, c0, rfl, rfl, hc0, rfl⟩

/-- C21 (amended): for every G-cell `c` of non-negative width and height after
`NesterovBase::init`, with the bin sizes `Sx`, `Sy` of the grid: if the cell is tiny on
both axes (`dx < √2·Sx` and `dy < √2·Sy`) then
`densityScale = dx / (√2·Sx) · (dy / (√2·Sy))` and
`densityScale · dx · dy ≤ (√2·Sx) · (√2·Sy)`; if it is tiny on the X axis only then
`densityScale = dx / (√2·Sx)`, on the Y axis only `densityScale = dy / (√2·Sy)`; if it
is tiny on neither axis then `densityScale = 1` and
`densityScale · dx · dy = dx · dy`.  In every case the scale lies in `[0, 1]` and
`densityScale · dx · dy ≤ dx · dy`. -/
theorem densityScale_bounds (nbVars : NesterovBaseVars) (pb : PlacerBase)
    (randVal : Nat → Int) (nb : NesterovBase)
    (h : NesterovBase.initWithDensity nbVars pb randVal = .ok nb) (c : GCell)
    (hc : c ∈ nb.gCellStor) (hdx : 0 ≤ c.dx) (hdy : 0 ≤ c.dy) :
    ((c.dx : ℚ) < REPLACE_SQRT2 * (nb.bg.binSizeX : ℚ) →
      (c.dy : ℚ) < REPLACE_SQRT2 * (nb.bg.binSizeY : ℚ) →
      c.densityScale =
        (c.dx : ℚ) / (REPLACE_SQRT2 * (nb.bg.binSizeX : ℚ)) *
          ((c.dy : ℚ) / (REPLACE_SQRT2 * (nb.bg.binSizeY : ℚ))) ∧
      c.densityScale * (c.dx : ℚ) * (c.dy : ℚ) ≤
        (REPLACE_SQRT2 * (nb.bg.binSizeX : ℚ)) * (REPLACE_SQRT2 * (nb.bg.binSizeY : ℚ))) ∧
    ((c.dx : ℚ) < REPLACE_SQRT2 * (nb.bg.binSizeX : ℚ) →
      ¬ (c.dy : ℚ) < REPLACE_SQRT2 * (nb.bg.binSizeY : ℚ) →
      c.densityScale = (c.dx : ℚ) / (REPLACE_SQRT2 * (nb.bg.binSizeX : ℚ))) ∧
    (¬ (c.dx : ℚ) < REPLACE_SQRT2 * (nb.bg.binSizeX : ℚ) →
      (c.dy : ℚ) < REPLACE_SQRT2 * (nb.bg.binSizeY : ℚ) →
      c.densityScale = (c.dy : ℚ) / (REPLACE_SQRT2 * (nb.bg.binSizeY : ℚ))) ∧
    (¬ (c.dx : ℚ) < REPLACE_SQRT2 * (nb.bg.binSizeX : ℚ) →
      ¬ (c.dy : ℚ) < REPLACE_SQRT2 * (nb.bg.binSizeY : ℚ) →
      c.densityScale = 1 ∧
      c.densityScale * (c.dx : ℚ) * (c.dy : ℚ) = (c.dx : ℚ) * (c.dy : ℚ)) ∧
    0 ≤ c.densityScale ∧ c.densityScale ≤ 1 ∧
    c.densityScale * (c.dx : ℚ) * (c.dy : ℚ) ≤ (c.dx : ℚ) * (c.dy : ℚ) := by
  obtain ⟨nb0, c0, _, _, _, hc0⟩ := initWithDensity_cells nbVars pb randVal nb h c hc
  have hx : c.dx = c0.dx := by rw [hc0]; rfl
  have hy : c.dy = c0.dy := by rw [hc0]; rfl
  have hs : c.densityScale =
      (densityAxis c.dx nb.bg.binSizeX).1 * (densityAxis c.dy nb.bg.binSizeY).1 := by
    rw [hx, hy, hc0]
    rfl
  obtain ⟨a1, a2, a3, a4, a5, a6⟩ := densityAxis_scale c.dx nb.bg.binSizeX hdx
  obtain ⟨b1, b2, b3, b4, b5, b6⟩ := densityAxis_scale c.dy nb.bg.binSizeY hdy
  have hprod : c.densityScale * (c.dx : ℚ) * (c.dy : ℚ) =
      ((densityAxis c.dx nb.bg.binSizeX).1 * (c.dx : ℚ)) *
        ((densityAxis c.dy nb.bg.binSizeY).1 * (c.dy : ℚ)) := by
    rw [hs]
    ring
  have hdx' : (0 : ℚ) ≤ (c.dx : ℚ) := by exact_mod_cast hdx
  refine ⟨?_, ?_, ?_, ?_, ?_, ?_, ?_⟩
  · intro h1 h2
    refine ⟨?_, ?_⟩
    · rw [hs, (a5 h1).1, (b5 h2).1]
    · rw [hprod]
      exact mul_le_mul (a5 h1).2 (b5 h2).2 b3
        (le_trans a3 (a5 h1).2)
  · intro h1 h2
    rw [hs, (a5 h1).1, b6 h2, mul_one]
  · intro h1 h2
    rw [hs, a6 h1, (b5 h2).1, one_mul]
  · intro h1 h2
    have e1 := a6 h1
    have e2 := b6 h2
    have e : c.densityScale = 1 := by rw [hs, e1, e2, one_mul]
    exact ⟨e, by rw [e, one_mul]⟩
  · rw [hs]
    exact mul_nonneg a1 b1
  · rw [hs]
    calc (densityAxis c.dx nb.bg.binSizeX).1 * (densityAxis c.dy nb.bg.binSizeY).1
        ≤ 1 * 1 := mul_le_mul a2 b2 b1 zero_le_one
      _ = 1 := one_mul 1
  · rw [hprod]
    exact mul_le_mul a4 b4 b3 hdx'

set_option maxRecDepth 100000 in
/-- Witness of `densityScale_bounds`: the filler of `2 x 2` that `NesterovBase::init`
makes last on `tinyCellCore`. -/
theorem densityScale_bounds_witness :
    ∃ nb c, NesterovBase.initWithDensity tinyCellVars tinyCellCore (fun k => 7 * k + 3) =
        .ok nb ∧ c ∈ nb.gCellStor ∧ c.dx = 2 ∧ c.dy = 2 ∧
      (((c.dx : ℚ) < REPLACE_SQRT2 * (nb.bg.binSizeX : ℚ) →
        (c.dy : ℚ) < REPLACE_SQRT2 * (nb.bg.binSizeY : ℚ) →
        c.densityScale =
          (c.dx : ℚ) / (REPLACE_SQRT2 * (nb.bg.binSizeX : ℚ)) *
            ((c.dy : ℚ) / (REPLACE_SQRT2 * (nb.bg.binSizeY : ℚ))) ∧
        c.densityScale * (c.dx : ℚ) * (c.dy : ℚ) ≤
          (REPLACE_SQRT2 * (nb.bg.binSizeX : ℚ)) * (REPLACE_SQRT2 * (nb.bg.binSizeY : ℚ))) ∧
      ((c.dx : ℚ) < REPLACE_SQRT2 * (nb.bg.binSizeX : ℚ) →
        ¬ (c.dy : ℚ) < REPLACE_SQRT2 * (nb.bg.binSizeY : ℚ) →
        c.densityScale = (c.dx : ℚ) / (REPLACE_SQRT2 * (nb.bg.binSizeX : ℚ))) ∧
      (¬ (c.dx : ℚ) < REPLACE_SQRT2 * (nb.bg.binSizeX : ℚ) →
        (c.dy : ℚ) < REPLACE_SQRT2 * (nb.bg.binSizeY : ℚ) →
        c.densityScale = (c.dy : ℚ) / (REPLACE_SQRT2 * (nb.bg.binSizeY : ℚ))) ∧
      (¬ (c.dx : ℚ) < REPLACE_SQRT2 * (nb.bg.binSizeX : ℚ) →
        ¬ (c.dy : ℚ) < REPLACE_SQRT2 * (nb.bg.binSizeY : ℚ) →
        c.densityScale = 1 ∧
        c.densityScale * (c.dx : ℚ) * (c.dy : ℚ) = (c.dx : ℚ) * (c.dy : ℚ)) ∧
      0 ≤ c.densityScale ∧ c.densityScale ≤ 1 ∧
      c.densityScale * (c.dx : ℚ) * (c.dy : ℚ) ≤ (c.dx : ℚ) * (c.dy : ℚ)) := by
  cases hnb : NesterovBase.initWithDensity tinyCellVars tinyCellCore (fun k => 7 * k + 3) with
  | error e =>
    exfalso
    have h2 : (do
        let nb ← NesterovBase.initWithDensity tinyCellVars tinyCellCore (fun k => 7 * k + 3)
        pure nb.gCellStor.length) = Except.ok 16 := by
      with_unfolding_all rfl
    rw [hnb] at h2
    cases h2
  | ok nb =>
    have h2 : (do
        let nb ← NesterovBase.initWithDensity tinyCellVars tinyCellCore (fun k => 7 * k + 3)
        pure ((nb.gCellStor.get? 15).map (fun c => (c.dx, c.dy)))) =
          Except.ok (some (2, 2)) := by
      with_unfolding_all rfl
    rw [hnb] at h2
    simp only [bind, Except.bind, pure, Except.pure, Except.ok.injEq] at h2
    cases hl : nb.gCellStor.get? 15 with
    | none =>
      rw [hl] at h2
      cases h2
    | some c =>
      rw [hl] at h2
      simp only [Option.map_some', Option.some.injEq, Prod.mk.injEq] at h2
      have hmem : c ∈ nb.gCellStor := List.get?_mem hl
      exact ⟨nb, c, rfl, hmem, h2.1, h2.2,
        densityScale_bounds tinyCellVars tinyCellCore (fun k => 7 * k + 3) nb hnb c hmem
          (by rw [h2.1]; decide) (by rw [h2.2]; decide)⟩

set_option maxRecDepth 100000 in
/-- C21 as stated fails: on `slimCellCore` (bins of `32 x 32`) `NesterovBase::init`
makes one filler of `44 x 100`; it is tiny on the X axis (`44 < √2·32`), and
`densityScale · dx · dy` (about `4278`) exceeds `(√2·Sx/2) · (√2·Sy/2)` (about `512`),
and even four times that bound. -/
theorem densityScale_bound_fails :
    (do
      let nb ← NesterovBase.initWithDensity slimCellVars slimCellCore (fun k => 7 * k + 3)
      pure (nb.bg.binSizeX, nb.bg.binSizeY,
        (nb.gCellStor.filter (fun c => c.isFiller)).map (fun c =>
          (c.dx, c.dy, decide ((c.dx : ℚ) < REPLACE_SQRT2 * (nb.bg.binSizeX : ℚ)),
            decide (c.densityScale * (c.dx : ℚ) * (c.dy : ℚ) ≤
              (REPLACE_SQRT2 * (nb.bg.binSizeX : ℚ) / 2) *
                (REPLACE_SQRT2 * (nb.bg.binSizeY : ℚ) / 2)),
            decide (c.densityScale * (c.dx : ℚ) * (c.dy : ℚ) ≤
              (REPLACE_SQRT2 * (nb.bg.binSizeX : ℚ)) *
                (REPLACE_SQRT2 * (nb.bg.binSizeY : ℚ))))))) =
      Except.ok (32, 32, [(44, 100, true, false, false)]) := by
  with_unfolding_all rfl

/-! ## C27: pins follow their cell -/

theorem movePins_fold (c : GCell) :
    ∀ (l : List Nat) (pins : List GPin), (∀ p ∈ l, p < pins.length) →
      (l.foldl (fun ps p => updatePin (fun pin => pin.updateLocation c) ps p) pins).length
        = pins.length ∧
      (∀ q, q ∉ l →
        pinAt (l.foldl (fun ps p => updatePin (fun pin => pin.updateLocation c) ps p) pins) q
          = pinAt pins q) ∧
      (∀ q,
        (pinAt (l.foldl (fun ps p => updatePin (fun pin => pin.updateLocation c) ps p)
          pins) q).offsetCx = (pinAt pins q).offsetCx ∧
        (pinAt (l.foldl (fun ps p => updatePin (fun pin => pin.updateLocation c) ps p)
          pins) q).offsetCy = (pinAt pins q).offsetCy) ∧
      (∀ p ∈ l,
        (pinAt (l.foldl (fun ps p => updatePin (fun pin => pin.updateLocation c) ps p)
          pins) p).cx = c.cx + (pinAt pins p).offsetCx ∧
        (pinAt (l.foldl (fun ps p => updatePin (fun pin => pin.updateLocation c) ps p)
          pins) p).cy = c.cy + (pinAt pins p).offsetCy)
  | [], pins => by
    intro _
    refine ⟨rfl, fun _ _ => rfl, fun _ => ⟨rfl, rfl⟩, ?_⟩
    intro p hp
    cases hp
  | p0 :: l, pins => by
    intro hv
    have hp0 : p0 < pins.length := hv p0 (List.mem_cons_self _ _)
    have hlen1 : (updatePin (fun pin => pin.updateLocation c) pins p0).length = pins.length := by
      simp [updatePin]
    have hv1 : ∀ p ∈ l, p < (updatePin (fun pin => pin.updateLocation c) pins p0).length := by
      intro p hp
      rw [hlen1]
      exact hv p (List.mem_cons_of_mem _ hp)
    have hself : pinAt (updatePin (fun pin => pin.updateLocation c) pins p0) p0 =
        (pinAt pins p0).updateLocation c := by
      unfold updatePin
      exact pinAt_set_self _ _ _ hp0
    have hne : ∀ q, q ≠ p0 →
        pinAt (updatePin (fun pin => pin.updateLocation c) pins p0) q = pinAt pins q := by
      intro q hq
      unfold updatePin
      exact pinAt_set_ne _ _ _ _ hq
    have hoff : ∀ q,
        (pinAt (updatePin (fun pin => pin.updateLocation c) pins p0) q).offsetCx =
          (pinAt pins q).offsetCx ∧
        (pinAt (updatePin (fun pin => pin.updateLocation c) pins p0) q).offsetCy =
          (pinAt pins q).offsetCy := by
      intro q
      by_cases hq : q = p0
      · subst hq
        rw [hself]
        exact ⟨rfl, rfl⟩
      · rw [hne q hq]
        exact ⟨rfl, rfl⟩
    obtain ⟨k1, k2, k3, k4⟩ :=
      movePins_fold c l (updatePin (fun pin => pin.updateLocation c) pins p0) hv1
    rw [List.foldl_cons]
    refine ⟨k1.trans hlen1, ?_, ?_, ?_⟩
    · intro q hq
      rw [k2 q (fun h => hq (List.mem_cons_of_mem _ h)),
        hne q (fun h => hq (h ▸ List.mem_cons_self _ _))]
    · intro q
      exact ⟨(k3 q).1.trans (hoff q).1, (k3 q).2.trans (hoff q).2⟩
    · intro p hp
      by_cases hin : p ∈ l
      · obtain ⟨e1, e2⟩ := k4 p hin
        rw [e1, e2, (hoff p).1, (hoff p).2]
        exact ⟨rfl, rfl⟩
      · have hpe : p = p0 := by
          rcases List.mem_cons.mp hp with h | h
          · exact h
          · exact absurd h hin
        subst hpe
        rw [k2 p hin, hself]
        exact ⟨rfl, rfl⟩

/-- After the pin loop of a cell the pin storage has its length, the pins of other
cells are as before, offsets are as before, and every pin of the cell is at the cell
centre plus its offset. -/
theorem movePins_spec (c : GCell) (pins : List GPin) (hv : ∀ p ∈ c.gPins, p < pins.length) :
    (c.movePins pins).length = pins.length ∧
    (∀ q, q ∉ c.gPins → pinAt (c.movePins pins) q = pinAt pins q) ∧
    (∀ q, (pinAt (c.movePins pins) q).offsetCx = (pinAt pins q).offsetCx ∧
      (pinAt (c.movePins pins) q).offsetCy = (pinAt pins q).offsetCy) ∧
    (∀ p ∈ c.gPins,
      (pinAt (c.movePins pins) p).cx = c.cx + (pinAt pins p).offsetCx ∧
      (pinAt (c.movePins pins) p).cy = c.cy + (pinAt pins p).offsetCy) :=
  movePins_fold c c.gPins pins hv

/-- The loop over the coordinates, for a member function that writes the box of the
cell, keeps its pin list and then runs the pin loop: with as many coordinates as
cells, all finite, valid pin pointers and no pin owned by two cells, the loop
returns, and afterwards every pin of every cell is at the centre of its cell plus
its offset, with the offset it had. -/
theorem updateLocationLoop_spec (set : GCell → Int → Int → List GPin → GCell × List GPin)
    (setBox : GCell → Int → Int → GCell)
    (hset : ∀ c x y pins, set c x y pins = (setBox c x y, (setBox c x y).movePins pins))
    (hgp : ∀ c x y, (setBox c x y).gPins = c.gPins) :
    ∀ (cells : List GCell) (coordis : List FloatCoordi) (pins : List GPin),
      coordis.length = cells.length →
      (∀ xy ∈ coordis, xy.x ≠ none ∧ xy.y ≠ none) →
      (∀ c ∈ cells, ∀ p ∈ c.gPins, p < pins.length) →
      cells.Pairwise (fun a b => ∀ p ∈ a.gPins, p ∉ b.gPins) →
      ∃ r, updateLocationLoop set cells coordis pins = .ok r ∧
        r.1.length = cells.length ∧ r.2.length = pins.length ∧
        (∀ q, (∀ c ∈ cells, q ∉ c.gPins) → pinAt r.2 q = pinAt pins q) ∧
        (∀ q, (pinAt r.2 q).offsetCx = (pinAt pins q).offsetCx ∧
          (pinAt r.2 q).offsetCy = (pinAt pins q).offsetCy) ∧
        ∀ (i : Nat) (c c' : GCell), cells.get? i = some c → r.1.get? i = some c' →
          c'.gPins = c.gPins ∧
          ∀ p ∈ c'.gPins,
            (pinAt r.2 p).cx = c'.cx + (pinAt r.2 p).offsetCx ∧
            (pinAt r.2 p).cy = c'.cy + (pinAt r.2 p).offsetCy
  | [], [], pins => by
    intro _ _ _ _
    refine ⟨([], pins), rfl, rfl, rfl, fun _ _ => rfl, fun _ => ⟨rfl, rfl⟩, ?_⟩
    intro i c c' h
    simp at h
  | [], _ :: _, _ => by
    intro h
    simp at h
  | _ :: _, [], _ => by
    intro h
    simp at h
  | c :: cs, coordi :: rest, pins => by
    intro hlen hfin hv hpw
    obtain ⟨hx, hy⟩ := hfin coordi (List.mem_cons_self _ _)
    obtain ⟨x, hx'⟩ := Option.ne_none_iff_exists'.mp hx
    obtain ⟨y, hy'⟩ := Option.ne_none_iff_exists'.mp hy
    have hvc : ∀ p ∈ (setBox c (floatToInt x) (floatToInt y)).gPins, p < pins.length := by
      intro p hp
      rw [hgp] at hp
      exact hv c (List.mem_cons_self _ _) p hp
    obtain ⟨m1, m2, m3, m4⟩ := movePins_spec (setBox c (floatToInt x) (floatToInt y)) pins hvc
    have hlen1 : rest.length = cs.length := by
      simpa using hlen
    have hfin1 : ∀ xy ∈ rest, xy.x ≠ none ∧ xy.y ≠ none :=
      fun xy h => hfin xy (List.mem_cons_of_mem _ h)
    have hv1 : ∀ d ∈ cs, ∀ p ∈ d.gPins,
        p < ((setBox c (floatToInt x) (floatToInt y)).movePins pins).length := by
      intro d hd p hp
      rw [m1]
      exact hv d (List.mem_cons_of_mem _ hd) p hp
    obtain ⟨hpw0, hpw1⟩ := List.pairwise_cons.mp hpw
    obtain ⟨r, hr, r1, r2, r3, r4, r5⟩ :=
      updateLocationLoop_spec set setBox hset hgp cs rest
        ((setBox c (floatToInt x) (floatToInt y)).movePins pins) hlen1 hfin1 hv1 hpw1
    refine ⟨(setBox c (floatToInt x) (floatToInt y) :: r.1, r.2), ?_, ?_, r2.trans m1, ?_, ?_,
      ?_⟩
    · simp only [updateLocationLoop, hx', hy', hset, hr]
    · simp [r1]
    · intro q hq
      rw [r3 q (fun d hd => hq d (List.mem_cons_of_mem _ hd)),
        m2 q (by rw [hgp]; exact hq c (List.mem_cons_self _ _))]
    · intro q
      exact ⟨(r4 q).1.trans (m3 q).1, (r4 q).2.trans (m3 q).2⟩
    · intro i d d' hget hget'
      cases i with
      | zero =>
        simp only [List.get?_cons_zero, Option.some.injEq] at hget hget'
        subst hget
        subst hget'
        refine ⟨hgp _ _ _, ?_⟩
        intro p hp
        have hq : ∀ e ∈ cs, p ∉ e.gPins := by
          intro e he
          rw [hgp] at hp
          exact hpw0 e he p hp
        rw [r3 p hq]
        obtain ⟨e1, e2⟩ := m4 p hp
        rw [e1, e2, (m3 p).1, (m3 p).2]
        exact ⟨rfl, rfl⟩
      | succ i =>
        simp only [List.get?_cons_succ] at hget hget'
        exact r5 i d d' hget hget'

/-- C27: when the coordinates are aligned one to one with the G-cell vector and are
finite, every pin pointer of a cell is valid and no pin is owned by two cells, both
`updateGCellLocation` and `updateGCellCenterLocation` return, every cell keeps its pin
list, and afterwards every G-pin `p` owned by a G-cell `c` satisfies
`p.cx = c.cx() + p.offsetCx` and `p.cy = c.cy() + p.offsetCy`, with the offsets the pin
had before the call. -/
theorem updateGCellLocation_pins (nb : NesterovBase) (coordis : List FloatCoordi)
    (hlen : coordis.length = nb.gCellStor.length)
    (hfin : ∀ xy ∈ coordis, xy.x ≠ none ∧ xy.y ≠ none)
    (hv : ∀ c ∈ nb.gCellStor, ∀ p ∈ c.gPins, p < nb.gPinStor.length)
    (hpw : nb.gCellStor.Pairwise (fun a b => ∀ p ∈ a.gPins, p ∉ b.gPins)) :
    (∃ nb', nb.updateGCellLocation coordis = .ok nb' ∧
      nb'.gCellStor.length = nb.gCellStor.length ∧
      ∀ (i : Nat) (c c' : GCell), nb.gCellStor.get? i = some c →
        nb'.gCellStor.get? i = some c' →
        c'.gPins = c.gPins ∧
        ∀ p ∈ c'.gPins,
          (pinAt nb'.gPinStor p).cx = c'.cx + (pinAt nb'.gPinStor p).offsetCx ∧
          (pinAt nb'.gPinStor p).cy = c'.cy + (pinAt nb'.gPinStor p).offsetCy ∧
          (pinAt nb'.gPinStor p).offsetCx = (pinAt nb.gPinStor p).offsetCx ∧
          (pinAt nb'.gPinStor p).offsetCy = (pinAt nb.gPinStor p).offsetCy) ∧
    (∃ nb', nb.updateGCellCenterLocation coordis = .ok nb' ∧
      nb'.gCellStor.length = nb.gCellStor.length ∧
      ∀ (i : Nat) (c c' : GCell), nb.gCellStor.get? i = some c →
        nb'.gCellStor.get? i = some c' →
        c'.gPins = c.gPins ∧
        ∀ p ∈ c'.gPins,
          (pinAt nb'.gPinStor p).cx = c'.cx + (pinAt nb'.gPinStor p).offsetCx ∧
          (pinAt nb'.gPinStor p).cy = c'.cy + (pinAt nb'.gPinStor p).offsetCy ∧
          (pinAt nb'.gPinStor p).offsetCx = (pinAt nb.gPinStor p).offsetCx ∧
          (pinAt nb'.gPinStor p).offsetCy = (pinAt nb.gPinStor p).offsetCy) := by
  constructor
  · obtain ⟨r, hr, r1, _, _, r4, r5⟩ :=
      updateLocationLoop_spec GCell.setLocation GCell.setLocationBox
        (fun _ _ _ _ => rfl) (fun _ _ _ => rfl) nb.gCellStor coordis nb.gPinStor hlen hfin hv hpw
    refine ⟨{ nb with gCellStor := r.1, gPinStor := r.2 }, ?_, r1, ?_⟩
    · simp only [NesterovBase.updateGCellLocation, hr]
    · intro i c c' hc hc'
      obtain ⟨e1, e2⟩ := r5 i c c' hc hc'
      exact ⟨e1, fun p hp => ⟨(e2 p hp).1, (e2 p hp).2, (r4 p).1, (r4 p).2⟩⟩
  · obtain ⟨r, hr, r1, _, _, r4, r5⟩ :=
      updateLocationLoop_spec GCell.setCenterLocation GCell.setCenterLocationBox
        (fun _ _ _ _ => rfl) (fun _ _ _ => rfl) nb.gCellStor coordis nb.gPinStor hlen hfin hv hpw
    refine ⟨{ nb with gCellStor := r.1, gPinStor := r.2 }, ?_, r1, ?_⟩
    · simp only [NesterovBase.updateGCellCenterLocation, hr]
    · intro i c c' hc hc'
      obtain ⟨e1, e2⟩ := r5 i c c' hc hc'
      exact ⟨e1, fun p hp => ⟨(e2 p hp).1, (e2 p hp).2, (r4 p).1, (r4 p).2⟩⟩

/-- Witness of `updateGCellLocation_pins`: the two cells of `twoCellsWithPins` moved to
the coordinates `twoCoordis`. -/
theorem updateGCellLocation_pins_witness :
    (∃ nb', twoCellsWithPins.updateGCellLocation twoCoordis = .ok nb' ∧
      nb'.gCellStor.length = twoCellsWithPins.gCellStor.length ∧
      ∀ (i : Nat) (c c' : GCell), twoCellsWithPins.gCellStor.get? i = some c →
        nb'.gCellStor.get? i = some c' →
        c'.gPins = c.gPins ∧
        ∀ p ∈ c'.gPins,
          (pinAt nb'.gPinStor p).cx = c'.cx + (pinAt nb'.gPinStor p).offsetCx ∧
          (pinAt nb'.gPinStor p).cy = c'.cy + (pinAt nb'.gPinStor p).offsetCy ∧
          (pinAt nb'.gPinStor p).offsetCx = (pinAt twoCellsWithPins.gPinStor p).offsetCx ∧
          (pinAt nb'.gPinStor p).offsetCy = (pinAt twoCellsWithPins.gPinStor p).offsetCy) ∧
    (∃ nb', twoCellsWithPins.updateGCellCenterLocation twoCoordis = .ok nb' ∧
      nb'.gCellStor.length = twoCellsWithPins.gCellStor.length ∧
      ∀ (i : Nat) (c c' : GCell), twoCellsWithPins.gCellStor.get? i = some c →
        nb'.gCellStor.get? i = some c' →
        c'.gPins = c.gPins ∧
        ∀ p ∈ c'.gPins,
          (pinAt nb'.gPinStor p).cx = c'.cx + (pinAt nb'.gPinStor p).offsetCx ∧
          (pinAt nb'.gPinStor p).cy = c'.cy + (pinAt nb'.gPinStor p).offsetCy ∧
          (pinAt nb'.gPinStor p).offsetCx = (pinAt twoCellsWithPins.gPinStor p).offsetCx ∧
          (pinAt nb'.gPinStor p).offsetCy = (pinAt twoCellsWithPins.gPinStor p).offsetCy) :=
  updateGCellLocation_pins twoCellsWithPins twoCoordis rfl
    (by
      intro xy h
      simp only [twoCoordis, List.mem_cons, List.mem_singleton, List.not_mem_nil, or_false] at h
      rcases h with rfl | rfl <;> simp)
    (by decide) (by decide)

/-! ## C26: the maps from placer entities to G-entities -/

/-- Every entry found in the map written by `mapLoop` was found in the map before the
loop or is the position of an element with that key. -/
theorem mapLoop_sound {α : Type} (key : α → Option Nat) (a k : Nat) :
    ∀ (l : List α) (k0 : Nat) (m0 : List (Nat × Nat)),
      mapFind (mapLoop key l k0 m0) a = some k →
      mapFind m0 a = some k ∨ ∃ x, k0 ≤ k ∧ l.get? (k - k0) = some x ∧ key x = some a
  | [], _, _ => fun h => Or.inl h
  | x :: l, k0, m0 => by
    intro h
    unfold mapLoop at h
    cases hk : key x with
    | none =>
      rw [hk] at h
      rcases mapLoop_sound key a k l (k0 + 1) m0 h with h1 | ⟨y, h1, h2, h3⟩
      · exact Or.inl h1
      · refine Or.inr ⟨y, by omega, ?_, h3⟩
        have : k - k0 = (k - (k0 + 1)) + 1 := by omega
        rw [this, List.get?_cons_succ]
        exact h2
    | some i =>
      rw [hk] at h
      rcases mapLoop_sound key a k l (k0 + 1) ((i, k0) :: m0) h with h1 | ⟨y, h1, h2, h3⟩
      · unfold mapFind at h1
        by_cases hi : i = a
        · rw [if_pos hi] at h1
          cases h1
          refine Or.inr ⟨x, le_refl _, ?_, by rw [hk, hi]⟩
          simp
        · rw [if_neg hi] at h1
          exact Or.inl h1
      · refine Or.inr ⟨y, by omega, ?_, h3⟩
        have : k - k0 = (k - (k0 + 1)) + 1 := by omega
        rw [this, List.get?_cons_succ]
        exact h2

/-- The map written by `mapLoop` has an entry for every key that had one before the
loop and for the key of every element. -/
theorem mapLoop_complete {α : Type} (key : α → Option Nat) (a : Nat) :
    ∀ (l : List α) (k0 : Nat) (m0 : List (Nat × Nat)),
      ((∃ k, mapFind m0 a = some k) ∨ ∃ x ∈ l, key x = some a) →
      ∃ k, mapFind (mapLoop key l k0 m0) a = some k
  | [], _, _ => by
    intro h
    rcases h with h | ⟨x, hx, _⟩
    · exact h
    · cases hx
  | x :: l, k0, m0 => by
    intro h
    unfold mapLoop
    cases hk : key x with
    | none =>
      simp only
      apply mapLoop_complete key a l (k0 + 1) m0
      rcases h with h | ⟨y, hy, hya⟩
      · exact Or.inl h
      · rcases List.mem_cons.mp hy with e | e
        · subst e
          rw [hk] at hya
          cases hya
        · exact Or.inr ⟨y, e, hya⟩
    | some i =>
      simp only
      apply mapLoop_complete key a l (k0 + 1) ((i, k0) :: m0)
      by_cases hi : i = a
      · exact Or.inl ⟨k0, by simp [mapFind, hi]⟩
      · rcases h with ⟨k, h⟩ | ⟨y, hy, hya⟩
        · exact Or.inl ⟨k, by simp [mapFind, hi, h]⟩
        · rcases List.mem_cons.mp hy with e | e
          · subst e
            rw [hk] at hya
            cases hya
            exact absurd rfl hi
          · exact Or.inr ⟨y, e, hya⟩

/-- The map written from the empty map over a storage vector: a lookup that succeeds
gives the position of an element with that key, every key of an element is found, and
when no two positions hold the same key the lookup of the key of the element at
position `k` gives `k`. -/
theorem mapLoop_spec {α : Type} (key : α → Option Nat) (l : List α) :
    (∀ a k, mapFind (mapLoop key l 0 []) a = some k →
      ∃ x, l.get? k = some x ∧ key x = some a) ∧
    (∀ x ∈ l, ∀ a, key x = some a → ∃ k y, mapFind (mapLoop key l 0 []) a = some k ∧
      l.get? k = some y ∧ key y = some a) ∧
    ((∀ k1 k2 x1 x2 a, l.get? k1 = some x1 → l.get? k2 = some x2 → key x1 = some a →
        key x2 = some a → k1 = k2) →
      ∀ k x a, l.get? k = some x → key x = some a →
        mapFind (mapLoop key l 0 []) a = some k) := by
  have hs : ∀ a k, mapFind (mapLoop key l 0 []) a = some k →
      ∃ x, l.get? k = some x ∧ key x = some a := by
    intro a k h
    rcases mapLoop_sound key a k l 0 [] h with h1 | ⟨x, _, h2, h3⟩
    · simp [mapFind] at h1
    · exact ⟨x, by simpa using h2, h3⟩
  have hc : ∀ x ∈ l, ∀ a, key x = some a → ∃ k y, mapFind (mapLoop key l 0 []) a = some k ∧
      l.get? k = some y ∧ key y = some a := by
    intro x hx a ha
    obtain ⟨k, hk⟩ := mapLoop_complete key a l 0 [] (Or.inr ⟨x, hx, ha⟩)
    obtain ⟨y, hy1, hy2⟩ := hs a k hk
    exact ⟨k, y, hk, hy1, hy2⟩
  refine ⟨hs, hc, ?_⟩
  intro huniq k x a hget ha
  obtain ⟨k', y, hk', hy1, hy2⟩ := hc x (List.get?_mem hget) a ha
  rw [huniq k k' x y a hget hy1 ha hy2]
  exact hk'

theorem get?_map_key_unique {α : Type} (f : Nat → α) (key : α → Option Nat)
    (hkey : ∀ a, key (f a) = some a) (l : List Nat) (hnd : l.Nodup)
    (k1 k2 : Nat) (x1 x2 : α) (a : Nat)
    (h1 : (l.map f).get? k1 = some x1) (h2 : (l.map f).get? k2 = some x2)
    (e1 : key x1 = some a) (e2 : key x2 = some a) : k1 = k2 := by
  rw [List.get?_map] at h1 h2
  cases g1 : l.get? k1 with
  | none =>
    rw [g1] at h1
    cases h1
  | some a1 =>
    cases g2 : l.get? k2 with
    | none =>
      rw [g2] at h2
      cases h2
    | some a2 =>
      rw [g1] at h1
      rw [g2] at h2
      simp only [Option.map_some', Option.some.injEq] at h1 h2
      subst h1
      subst h2
      rw [hkey] at e1 e2
      have hk1 : k1 < l.length := by
        rcases Nat.lt_or_ge k1 l.length with h | h
        · exact h
        · rw [List.get?_eq_none.mpr h] at g1
          cases g1
      apply List.getElem?_inj hk1 hnd
      rw [← List.get?_eq_getElem?, ← List.get?_eq_getElem?, g1, g2]
      rw [Option.some.inj e1, Option.some.inj e2]

theorem gCellKey_spec (c : GCell) (a : Nat) (h : gCellKey c = some a) :
    c.isInstance = true ∧ c.instance = some a ∧ c.isFiller = false := by
  unfold gCellKey at h
  by_cases hi : c.isInstance = true
  · rw [if_pos hi] at h
    refine ⟨hi, h, ?_⟩
    unfold GCell.isInstance at hi
    unfold GCell.isFiller
    simp only [beq_iff_eq] at hi
    simp [hi]
  · rw [if_neg hi] at h
    cases h

theorem gCellKey_filler (c : GCell) (h : c.isFiller = true) : gCellKey c = none := by
  unfold gCellKey GCell.isInstance
  unfold GCell.isFiller at h
  simp only [beq_iff_eq] at h
  simp [h]

theorem gCellStor_key_unique (insts : List Nat) (fillers : List GCell)
    (hf : ∀ c ∈ fillers, c.isFiller = true) (hnd : insts.Nodup)
    (k1 k2 : Nat) (x1 x2 : GCell) (a : Nat)
    (h1 : (insts.map GCell.mkInstance ++ fillers).get? k1 = some x1)
    (h2 : (insts.map GCell.mkInstance ++ fillers).get? k2 = some x2)
    (e1 : gCellKey x1 = some a) (e2 : gCellKey x2 = some a) : k1 = k2 := by
  have hpos : ∀ k x, (insts.map GCell.mkInstance ++ fillers).get? k = some x →
      gCellKey x = some a → (insts.map GCell.mkInstance).get? k = some x := by
    intro k x hx hk
    rcases Nat.lt_or_ge k (insts.map GCell.mkInstance).length with h | h
    · rw [List.get?_append h] at hx
      exact hx
    · rw [List.get?_append_right h] at hx
      rw [gCellKey_filler x (hf x (List.get?_mem hx))] at hk
      cases hk
  exact get?_map_key_unique GCell.mkInstance gCellKey (fun _ => rfl) insts hnd k1 k2 x1 x2 a
    (hpos k1 x1 h1 e1) (hpos k2 x2 h2 e2) e1 e2

/-- C26: after the part of `NesterovBase::init` that fills the storage vectors and the
maps, for a netlist whose instance, pin and net addresses are pairwise distinct and
fillers that are filler cells: `placerToNesterov` sends every instance `i` to a G-cell
with `isInstance()` and `instance() = i`, every pin `p` to a G-pin with `pin() = p`,
`gCell() = placerToNesterov(p.instance())` and `gNet() = placerToNesterov(p.net())`,
every net `n` to a G-net with `net() = n`; whatever it returns for an address is a
G-cell that mirrors that address and is no filler; and it sends the instance, pin and
net of every G-entity back to the position of that G-entity (so it is injective on
the netlist). -/
theorem initLinks_placerToNesterov (nl : Netlist) (fillers : List GCell)
    (hf : ∀ c ∈ fillers, c.isFiller = true)
    (hI : nl.insts.Nodup) (hP : nl.pins.Nodup) (hN : nl.nets.Nodup) :
    (∀ i ∈ nl.insts, ∃ k c,
      (NesterovBase.initLinks nl fillers).placerToNesterovInst i = some k ∧
      (NesterovBase.initLinks nl fillers).gCellStor.get? k = some c ∧
      c.isInstance = true ∧ c.instance = some i) ∧
    (∀ p ∈ nl.pins, ∃ k g,
      (NesterovBase.initLinks nl fillers).placerToNesterovPin p = some k ∧
      (NesterovBase.initLinks nl fillers).gPinStor.get? k = some g ∧
      g.pin = some p ∧
      g.gCell = (NesterovBase.initLinks nl fillers).placerToNesterovInst (nl.pin p).inst ∧
      g.gNet = (NesterovBase.initLinks nl fillers).placerToNesterovNet (nl.pin p).net) ∧
    (∀ n ∈ nl.nets, ∃ k g,
      (NesterovBase.initLinks nl fillers).placerToNesterovNet n = some k ∧
      (NesterovBase.initLinks nl fillers).gNetStor.get? k = some g ∧ g.net = some n) ∧
    (∀ i k, (NesterovBase.initLinks nl fillers).placerToNesterovInst i = some k →
      ∃ c, (NesterovBase.initLinks nl fillers).gCellStor.get? k = some c ∧
        c.isInstance = true ∧ c.instance = some i ∧ c.isFiller = false) ∧
    (∀ k c i, (NesterovBase.initLinks nl fillers).gCellStor.get? k = some c →
      c.isInstance = true → c.instance = some i →
      (NesterovBase.initLinks nl fillers).placerToNesterovInst i = some k) ∧
    (∀ k g p, (NesterovBase.initLinks nl fillers).gPinStor.get? k = some g →
      g.pin = some p →
      (NesterovBase.initLinks nl fillers).placerToNesterovPin p = some k) ∧
    (∀ k g n, (NesterovBase.initLinks nl fillers).gNetStor.get? k = some g →
      g.net = some n →
      (NesterovBase.initLinks nl fillers).placerToNesterovNet n = some k) := by
  obtain ⟨cs, cc, cu⟩ := mapLoop_spec gCellKey (nl.insts.map GCell.mkInstance ++ fillers)
  obtain ⟨ps, pc, pu⟩ := mapLoop_spec GPin.pin (nl.pins.map (fun p => GPin.ofPin p (nl.pin p)))
  obtain ⟨ns, nc, nu⟩ := mapLoop_spec GNet.net (nl.nets.map GNet.ofNet)
  have hlink : ∀ g p, g.pin = some p →
      (linkGPin nl (mapLoop gCellKey (nl.insts.map GCell.mkInstance ++ fillers) 0 [])
        (mapLoop GNet.net (nl.nets.map GNet.ofNet) 0 []) g).pin = some p ∧
      (linkGPin nl (mapLoop gCellKey (nl.insts.map GCell.mkInstance ++ fillers) 0 [])
        (mapLoop GNet.net (nl.nets.map GNet.ofNet) 0 []) g).gCell =
        mapFind (mapLoop gCellKey (nl.insts.map GCell.mkInstance ++ fillers) 0 [])
          (nl.pin p).inst ∧
      (linkGPin nl (mapLoop gCellKey (nl.insts.map GCell.mkInstance ++ fillers) 0 [])
        (mapLoop GNet.net (nl.nets.map GNet.ofNet) 0 []) g).gNet =
        mapFind (mapLoop GNet.net (nl.nets.map GNet.ofNet) 0 []) (nl.pin p).net := by
    intro g p hg
    unfold linkGPin
    rw [hg]
    exact ⟨hg, rfl, rfl⟩
  have hlinkpin : ∀ g,
      (linkGPin nl (mapLoop gCellKey (nl.insts.map GCell.mkInstance ++ fillers) 0 [])
        (mapLoop GNet.net (nl.nets.map GNet.ofNet) 0 []) g).pin = g.pin := by
    intro g
    unfold linkGPin
    cases hg : g.pin with
    | none => simp only [hg]
    | some p =>
      simp only
      exact hg
  refine ⟨?_, ?_, ?_, ?_, ?_, ?_, ?_⟩
  · intro i hi
    obtain ⟨k, c, h1, h2, h3⟩ := cc (GCell.mkInstance i)
      (List.mem_append_left _ (List.mem_map_of_mem _ hi)) i rfl
    obtain ⟨e1, e2, _⟩ := gCellKey_spec c i h3
    exact ⟨k, c, h1, h2, e1, e2⟩
  · intro p hp
    obtain ⟨k, g, h1, h2, h3⟩ := pc (GPin.ofPin p (nl.pin p))
      (List.mem_map_of_mem _ hp) p rfl
    obtain ⟨e1, e2, e3⟩ := hlink g p h3
    refine ⟨k, _, h1, ?_, e1, e2, e3⟩
    simp only [NesterovBase.initLinks, List.get?_map, h2, Option.map_some']
  · intro n hn
    obtain ⟨k, g, h1, h2, h3⟩ := nc (GNet.ofNet n) (List.mem_map_of_mem _ hn) n rfl
    exact ⟨k, g, h1, h2, h3⟩
  · intro i k h
    obtain ⟨c, h1, h2⟩ := cs i k h
    obtain ⟨e1, e2, e3⟩ := gCellKey_spec c i h2
    exact ⟨c, h1, e1, e2, e3⟩
  · intro k c i hget hinst hi
    have hkey : gCellKey c = some i := by
      unfold gCellKey
      rw [if_pos hinst]
      exact hi
    exact cu (gCellStor_key_unique nl.insts fillers hf hI) k c i hget hkey
  · intro k g p hget hg
    simp only [NesterovBase.initLinks, List.get?_map] at hget
    cases h0 : (nl.pins.map (fun p => GPin.ofPin p (nl.pin p))).get? k with
    | none =>
      rw [List.get?_map] at h0
      rw [h0] at hget
      cases hget
    | some g0 =>
      have h0' := h0
      rw [List.get?_map] at h0'
      rw [h0'] at hget
      simp only [Option.map_some', Option.some.injEq] at hget
      subst hget
      rw [hlinkpin] at hg
      exact pu (get?_map_key_unique (fun p => GPin.ofPin p (nl.pin p)) GPin.pin
        (fun _ => rfl) nl.pins hP) k g0 p h0 hg
  · intro k g n hget hg
    exact nu (get?_map_key_unique GNet.ofNet GNet.net (fun _ => rfl) nl.nets hN) k g n hget hg

/-- Witness of `initLinks_placerToNesterov`: `smallNetlist` with one filler cell. -/
theorem initLinks_placerToNesterov_witness :
    (NesterovBase.initLinks smallNetlist [GCell.mkFiller 5 5 2 2]).gCellMap =
      [(200, 1), (100, 0)] ∧
    (NesterovBase.initLinks smallNetlist [GCell.mkFiller 5 5 2 2]).gPinStor.map
      (fun g => (g.pin, g.gCell, g.gNet)) =
      [(some 10, some 0, some 0), (some 11, some 1, some 0), (some 12, some 1, some 1)] ∧
    ((∀ i ∈ smallNetlist.insts, ∃ k c,
      (NesterovBase.initLinks smallNetlist [GCell.mkFiller 5 5 2 2]).placerToNesterovInst i
        = some k ∧
      (NesterovBase.initLinks smallNetlist [GCell.mkFiller 5 5 2 2]).gCellStor.get? k
        = some c ∧
      c.isInstance = true ∧ c.instance = some i) ∧
    (∀ p ∈ smallNetlist.pins, ∃ k g,
      (NesterovBase.initLinks smallNetlist [GCell.mkFiller 5 5 2 2]).placerToNesterovPin p
        = some k ∧
      (NesterovBase.initLinks smallNetlist [GCell.mkFiller 5 5 2 2]).gPinStor.get? k
        = some g ∧
      g.pin = some p ∧
      g.gCell = (NesterovBase.initLinks smallNetlist
        [GCell.mkFiller 5 5 2 2]).placerToNesterovInst (smallNetlist.pin p).inst ∧
      g.gNet = (NesterovBase.initLinks smallNetlist
        [GCell.mkFiller 5 5 2 2]).placerToNesterovNet (smallNetlist.pin p).net) ∧
    (∀ n ∈ smallNetlist.nets, ∃ k g,
      (NesterovBase.initLinks smallNetlist [GCell.mkFiller 5 5 2 2]).placerToNesterovNet n
        = some k ∧
      (NesterovBase.initLinks smallNetlist [GCell.mkFiller 5 5 2 2]).gNetStor.get? k
        = some g ∧ g.net = some n) ∧
    (∀ i k,
      (NesterovBase.initLinks smallNetlist [GCell.mkFiller 5 5 2 2]).placerToNesterovInst i
        = some k →
      ∃ c, (NesterovBase.initLinks smallNetlist [GCell.mkFiller 5 5 2 2]).gCellStor.get? k
          = some c ∧
        c.isInstance = true ∧ c.instance = some i ∧ c.isFiller = false) ∧
    (∀ k c i,
      (NesterovBase.initLinks smallNetlist [GCell.mkFiller 5 5 2 2]).gCellStor.get? k
        = some c →
      c.isInstance = true → c.instance = some i →
      (NesterovBase.initLinks smallNetlist [GCell.mkFiller 5 5 2 2]).placerToNesterovInst i
        = some k) ∧
    (∀ k g p,
      (NesterovBase.initLinks smallNetlist [GCell.mkFiller 5 5 2 2]).gPinStor.get? k
        = some g →
      g.pin = some p →
      (NesterovBase.initLinks smallNetlist [GCell.mkFiller 5 5 2 2]).placerToNesterovPin p
        = some k) ∧
    (∀ k g n,
      (NesterovBase.initLinks smallNetlist [GCell.mkFiller 5 5 2 2]).gNetStor.get? k
        = some g →
      g.net = some n →
      (NesterovBase.initLinks smallNetlist [GCell.mkFiller 5 5 2 2]).placerToNesterovNet n
        = some k)) :=
  ⟨by rfl, by rfl,
    initLinks_placerToNesterov smallNetlist [GCell.mkFiller 5 5 2 2] (by decide) (by decide)
      (by decide) (by decide)⟩

/-! ## C22: the tiles of an edge adjustment -/

set_option maxRecDepth 100000 in
/-- C22, evaluated on scenario S6 (`Grid : 4 4 6`, capacities `5`, width and spacing
`1`, tiles of `10 x 10`, adjustment `0 0 1 1 0 1 0`): `initFromRoute` makes `16` tiles
and stores the adjustment; compared with the tiles before the loop over the
adjustments, `supplyHR` is lower by `5 / 2 / 10 = 1/4` on the tile `(0, 0)`, and
`supplyHL` is lower by `1/4` on the tile with grid coordinates `(0, 1)`, not on
`(1, 0)`: the upper tile is looked up at `ux * tileCntY() + uy = 4`, and the tile
stored at position `4` is the first tile of the second row.  The tile `(1, 0)` keeps
both supplies. -/
theorem scenarioS6_edge_tiles :
    (do
      let st ← parseRoute {} scenarioS6
      let before ← st.tg.layoutTiles
      let tg ← TileGrid.initFromRoute {} (some scenarioS6)
      pure (tg.tileCntX, tg.tileCntY, tg.tiles.length, tg.edgeCapacityStor,
        (tg.tiles.get? 4).map (fun t => (t.x, t.y)),
        ((List.zipWith (fun (b a : Tile) =>
            (a.x, a.y, b.supplyHL - a.supplyHL, b.supplyHR - a.supplyHR)) before
          tg.tiles).filter (fun d => decide (d.2.2.1 ≠ 0 ∨ d.2.2.2 ≠ 0))),
        (tg.tiles.filter (fun t => decide (t.x = 1 ∧ t.y = 0))).map
          (fun t => (t.supplyHL, t.supplyHR)))) =
      Except.ok (4, 4, 16, [⟨0, 0, 1, 1, 0, 1, 0⟩], some (0, 1),
        [(0, 0, 0, 1 / 4), (0, 1, 1 / 4, 0)], [(100, 100)]) := by
  with_unfolding_all rfl

/-! ## C23: the track counts -/

set_option maxRecDepth 100000 in
/-- C24, evaluated at failing inputs: for a file with `Grid : 4 4 6` and no capacity,
width or spacing line the parsing loop ends without an error, with a layer count of
`6` and four empty per-layer vectors, and `initFromRoute` goes on to `initTiles`,
which reads `verticalCapacity_[0]` of the empty vector; for a file whose
`VerticalCapacity` line has two values `atoi` is called on a null pointer.  The only
error that `initFromRoute` reports is that the file cannot be opened. -/
theorem initFromRoute_malformed :
    (do
      let st ← parseRoute {} missingCapacityFile
      pure (st.tg.tileNumLayers, st.tg.verticalCapacity.length,
        st.tg.horizontalCapacity.length, st.tg.minWireWidth.length,
        st.tg.minWireSpacing.length)) = Except.ok (6, 0, 0, 0, 0) ∧
    TileGrid.initFromRoute {} (some missingCapacityFile) = .error .outOfBounds ∧
    TileGrid.initFromRoute {} (some shortCapacityFile) = .error .nullToken ∧
    TileGrid.initFromRoute {} none = .error .cannotOpen := by
  refine ⟨?_, ?_, ?_, rfl⟩
  · with_unfolding_all rfl
  · with_unfolding_all rfl
  · with_unfolding_all rfl

/-! ## C25: the entries of `edgeCapacityStor` -/

set_option maxRecDepth 100000 in
/-- C25, evaluated at a failing input: after the `NumEdgeCapacityAdjustments` line and
one adjustment line the store holds the entry of that line; a `Grid` line that
follows is a directive line, yet the loop runs the block `if(edgeFlag)` on it as well:
none of the seven conversions succeeds and the entry is built from the unassigned
variables `e1 ... e7`. -/
theorem parseRoute_grid_after_edge :
    (do
      let st ← parseRoute {} (gridAfterEdgeFile.take 2)
      pure (st.edgeFlag, st.tg.edgeCapacityStor)) =
      Except.ok (true, [⟨0, 0, 1, 1, 0, 1, 0⟩]) ∧
    parseRoute {} gridAfterEdgeFile = .error .uninitialised := by
  constructor
  · with_unfolding_all rfl
  · with_unfolding_all rfl

/-- C33 fails: `GCell::setLocation(x, y)` leaves `lx()` and `ly()` as they were and
moves only the upper corner, to `x + dx()` and `y + dy()`, so the width becomes
`x + dx() - lx()` and the height `y + dy() - ly()`, for every cell, position and pin
storage.  The cell on `0..4 x 0..2` set to `(5, 7)` has the box `0..9 x 0..9`, not
`5..9 x 7..9`; `updateGCellLocation` with `twoCoordis` leaves the two cells of
`twoCellsWithPins` on `0..9 x 0..9` and `10..22 x 10..32`.  `setDensityLocation`, in
contrast, moves the lower corner of the density box to its arguments and keeps the
size of the density box. -/
theorem setLocation_keeps_lower_corner :
    (∀ (c : GCell) (x y : Int) (pins : List GPin),
      (c.setLocation x y pins).1.lx = c.lx ∧ (c.setLocation x y pins).1.ly = c.ly ∧
      (c.setLocation x y pins).1.ux = x + c.dx ∧ (c.setLocation x y pins).1.uy = y + c.dy ∧
      (c.setLocation x y pins).1.dx = x + c.dx - c.lx ∧
      (c.setLocation x y pins).1.dy = y + c.dy - c.ly) ∧
    ((originCell.setLocation 5 7 []).1.box = (0, 0, 9, 9) ∧
      originCell.dx = 4 ∧ originCell.dy = 2 ∧
      (originCell.setLocation 5 7 []).1.dx = 9 ∧
      (originCell.setLocation 5 7 []).1.dy = 9) ∧
    (do
      let nb ← twoCellsWithPins.updateGCellLocation twoCoordis
      pure (nb.gCellStor.map GCell.box)) =
      Except.ok [(0, 0, 9, 9), (10, 10, 22, 32)] ∧
    (∀ (c : GCell) (x y : Int),
      (c.setDensityLocation x y).dLx = x ∧ (c.setDensityLocation x y).dLy = y ∧
      (c.setDensityLocation x y).dDx = c.dDx ∧ (c.setDensityLocation x y).dDy = c.dDy) := by
  refine ⟨?_, ⟨rfl, rfl, rfl, rfl, rfl⟩, ?_, ?_⟩
  · intro c x y pins
    exact ⟨rfl, rfl, rfl, rfl, rfl, rfl⟩
  · with_unfolding_all rfl
  · intro c x y
    refine ⟨rfl, rfl, ?_, ?_⟩
    · show x + (c.dUx - c.dLx) - x = c.dUx - c.dLx
      ring
    · show y + (c.dUy - c.dLy) - y = c.dUy - c.dLy
      ring

/-! ## C32: the centre of the density box after `setDensitySize` -/

set_option maxRecDepth 100000 in
/-- C32 fails: after `GCell::setDensitySize(w, h)` the density box is
`dCx() ± w/2`, `dCy() ± h/2`, where `dCx()`, `dCy()` are half the width and half the
height of the density box before the call, so the centre after the call is that half
size, not the centre before the call, for every cell and size.  The cell with the
density box `10..20 x 10..20` (centre `(15, 15)`) resized to `4 x 4` has the density
box `3..7 x 3..7`, centre `(5, 5)`; the same happens to a cell of density size
`8 x 8` that `setDensityCenterLocation` has put at `(50, 50)`.  A density box that is
zero, as it is when `NesterovBase::init` sizes it, is centred at `(0, 0)` before and
after the call: on `tinyCellCore` all sixteen cells end with the density box
`-11..11 x -11..11`, wherever the cell is. -/
theorem setDensitySize_centre_is_half_size :
    (∀ (c : GCell) (w h : Int),
      (c.setDensitySize w h).densityBox =
        (c.dCx - Int.tdiv w 2, c.dCy - Int.tdiv h 2,
         c.dCx + Int.tdiv w 2, c.dCy + Int.tdiv h 2) ∧
      (c.setDensitySize w h).densityCentreSpec =
        (Int.tdiv (c.dUx - c.dLx) 2, Int.tdiv (c.dUy - c.dLy) 2)) ∧
    (shiftedDensityCell.densityCentreSpec = (15, 15) ∧
      (shiftedDensityCell.setDensitySize 4 4).densityBox = (3, 3, 7, 7) ∧
      (shiftedDensityCell.setDensitySize 4 4).densityCentreSpec = (5, 5)) ∧
    ((((GCell.mkInstance 0).setDensitySize 8 8).setDensityCenterLocation 50 50).densityBox
        = (46, 46, 54, 54) ∧
      ((((GCell.mkInstance 0).setDensitySize 8 8).setDensityCenterLocation 50
        50).setDensitySize 8 8).densityBox = (0, 0, 8, 8)) ∧
    (∀ (c : GCell) (w h : Int),
      ({ c with dLx := 0, dLy := 0, dUx := 0, dUy := 0 } : GCell).densityCentreSpec = (0, 0) ∧
      (({ c with dLx := 0, dLy := 0, dUx := 0, dUy := 0 } : GCell).setDensitySize w
        h).densityCentreSpec = (0, 0)) ∧
    (do
      let nb ← NesterovBase.initWithDensity tinyCellVars tinyCellCore (fun k => 7 * k + 3)
      pure (nb.gCellStor.length,
        nb.gCellStor.all (fun c => decide (c.densityBox = (-11, -11, 11, 11))),
        (nb.gCellStor.map (fun c => (c.cx, c.cy))).take 4)) =
      Except.ok (16, true, [(0, 0), (0, 0), (3, 10), (17, 24)]) := by
  have key : ∀ m a : Int, Int.tdiv (m - a + (m + a)) 2 = m := by
    intro m a
    have e : m - a + (m + a) = m * 2 := by ring
    rw [e]
    exact Int.mul_tdiv_cancel m (by decide)
  refine ⟨?_, ⟨rfl, rfl, rfl⟩, ⟨rfl, rfl⟩, ?_, by with_unfolding_all rfl⟩
  · intro c w h
    refine ⟨rfl, ?_⟩
    show (Int.tdiv (c.dCx - Int.tdiv w 2 + (c.dCx + Int.tdiv w 2)) 2,
      Int.tdiv (c.dCy - Int.tdiv h 2 + (c.dCy + Int.tdiv h 2)) 2) = _
    rw [key, key]
    rfl
  · intro c w h
    refine ⟨rfl, ?_⟩
    show (Int.tdiv ((0 : Int) - Int.tdiv w 2 + (0 + Int.tdiv w 2)) 2,
      Int.tdiv ((0 : Int) - Int.tdiv h 2 + (0 + Int.tdiv h 2)) 2) = _
    rw [key, key]

/-! ## C31: the argument of the max-Y exponent -/

/-- C31 (amended): on a state whose nets point at pins of the pin storage, with no
pin on two nets, one call of `updateWireLengthForceWA` leaves, for every net `n` (at
position `i`) and every pin `p` on it, the pin where it was and inside the box of the
net, and
`p.maxExpSumY` is `fastExp ((p.cy - n.ly) · wlCoeffY)`, computed from the lower bound
`n.ly`, whenever that argument exceeds `minWireLengthForceBar`, while `p.maxExpSumX`
is `fastExp ((p.cx - n.ux) · wlCoeffX)`.  For positive `wlCoeffY` the max-Y argument
is `≥ 0` (positive for a pin above `n.ly`), whereas the min-Y argument and the
argument `(p.cy - n.uy) · wlCoeffY` are `≤ 0`; for positive `wlCoeffX` the min-X and
the max-X argument are `≤ 0`. -/
theorem updateWireLengthForceWA_maxY_argument (nb : NesterovBase) (wlCoeffX wlCoeffY : ℚ)
    (hvalid : ∀ net ∈ nb.gNetStor, ∀ p ∈ net.gPins, p < nb.gPinStor.length)
    (hdisj : nb.gNetStor.Pairwise (fun a b => ∀ p ∈ a.gPins, p ∉ b.gPins))
    (i : Nat) (net : GNet) (hget : nb.gNetStor.get? i = some net)
    (p : Nat) (hp : p ∈ net.gPins) :
    ∃ n pin, (nb.updateWireLengthForceWA wlCoeffX wlCoeffY).gNetStor.get? i = some n ∧
      pin = pinAt (nb.updateWireLengthForceWA wlCoeffX wlCoeffY).gPinStor p ∧
      (pin.cx = (pinAt nb.gPinStor p).cx ∧ pin.cy = (pinAt nb.gPinStor p).cy) ∧
      (n.lx ≤ pin.cx ∧ pin.cx ≤ n.ux ∧ n.ly ≤ pin.cy ∧ pin.cy ≤ n.uy) ∧
      expMaxY n pin wlCoeffY = ((pin.cy - n.ly : Int) : ℚ) * wlCoeffY ∧
      expMaxX n pin wlCoeffX = ((pin.cx - n.ux : Int) : ℚ) * wlCoeffX ∧
      (((pin.cy - n.ly : Int) : ℚ) * wlCoeffY > nb.nbVars.minWireLengthForceBar →
        pin.hasMaxExpSumY = true ∧
        pin.maxExpSumY = fastExp (((pin.cy - n.ly : Int) : ℚ) * wlCoeffY)) ∧
      (((pin.cx - n.ux : Int) : ℚ) * wlCoeffX > nb.nbVars.minWireLengthForceBar →
        pin.hasMaxExpSumX = true ∧
        pin.maxExpSumX = fastExp (((pin.cx - n.ux : Int) : ℚ) * wlCoeffX)) ∧
      (0 < wlCoeffY →
        0 ≤ expMaxY n pin wlCoeffY ∧ (n.ly < pin.cy → 0 < expMaxY n pin wlCoeffY) ∧
        expMinY n pin wlCoeffY ≤ 0 ∧ ((pin.cy - n.uy : Int) : ℚ) * wlCoeffY ≤ 0) ∧
      (0 < wlCoeffX → expMinX n pin wlCoeffX ≤ 0 ∧ expMaxX n pin wlCoeffX ≤ 0) := by
  obtain ⟨_, hlocF, _, hnet⟩ :=
    netLoop_spec wlCoeffX wlCoeffY nb.nbVars.minWireLengthForceBar nb.gNetStor nb.gPinStor
      hvalid
  obtain ⟨PI, hlen, hloc, hgetI, hpins⟩ := hnet i net hget
  have hmem : net ∈ nb.gNetStor := List.get?_mem hget
  have hv : ∀ q ∈ net.gPins, q < PI.length := by
    intro q hq
    rw [hlen]
    exact hvalid net hmem q hq
  obtain ⟨_, _, _, hbox, _, _⟩ :=
    netStep_frame wlCoeffX wlCoeffY nb.nbVars.minWireLengthForceBar PI net hv
  rw [hloc] at hbox
  obtain ⟨hb1, _⟩ := boxOf_spec (pinLoc nb.gPinStor) net.gPins
  rw [← hbox] at hb1
  have hfl := netStep_flag wlCoeffX wlCoeffY nb.nbVars.minWireLengthForceBar
    (PinFlagsOK wlCoeffX wlCoeffY nb.nbVars.minWireLengthForceBar)
    (pinUpdate_flags wlCoeffX wlCoeffY nb.nbVars.minWireLengthForceBar) PI net hv p hp
  rw [hloc, ← hbox] at hfl
  have hpin : pinAt (nb.updateWireLengthForceWA wlCoeffX wlCoeffY).gPinStor p =
      pinAt (netStep wlCoeffX wlCoeffY nb.nbVars.minWireLengthForceBar PI net).1 p :=
    hpins hdisj p hp
  rw [← hpin] at hfl
  have hl := congrFun hlocF p
  have hcx : (pinAt (nb.updateWireLengthForceWA wlCoeffX wlCoeffY).gPinStor p).cx =
      (pinAt nb.gPinStor p).cx := congrArg Prod.fst hl
  have hcy : (pinAt (nb.updateWireLengthForceWA wlCoeffX wlCoeffY).gPinStor p).cy =
      (pinAt nb.gPinStor p).cy := congrArg Prod.snd hl
  obtain ⟨b1, b2, b3, b4⟩ := hb1 p hp
  have c1 : (netStep wlCoeffX wlCoeffY nb.nbVars.minWireLengthForceBar PI net).2.lx ≤
      (pinAt nb.gPinStor p).cx := b1
  have c2 : (pinAt nb.gPinStor p).cx ≤
      (netStep wlCoeffX wlCoeffY nb.nbVars.minWireLengthForceBar PI net).2.ux := b2
  have c3 : (netStep wlCoeffX wlCoeffY nb.nbVars.minWireLengthForceBar PI net).2.ly ≤
      (pinAt nb.gPinStor p).cy := b3
  have c4 : (pinAt nb.gPinStor p).cy ≤
      (netStep wlCoeffX wlCoeffY nb.nbVars.minWireLengthForceBar PI net).2.uy := b4
  obtain ⟨_, f2, _, f4⟩ := hfl
  refine ⟨(netStep wlCoeffX wlCoeffY nb.nbVars.minWireLengthForceBar PI net).2, _, hgetI,
    rfl, ⟨hcx, hcy⟩, ?_, rfl, rfl, ?_, ?_, ?_, ?_⟩
  · rw [hcx, hcy]
    exact ⟨c1, c2, c3, c4⟩
  · rw [hcy]
    exact f4
  · rw [hcx]
    exact f2
  · intro hpos
    rw [expMaxY, expMinY, hcy]
    refine ⟨?_, ?_, ?_, ?_⟩
    · exact mul_nonneg (by exact_mod_cast (by omega)) (le_of_lt hpos)
    · intro hlt
      exact mul_pos (by exact_mod_cast (by omega)) hpos
    · exact mul_nonpos_of_nonpos_of_nonneg (by exact_mod_cast (by omega)) (le_of_lt hpos)
    · exact mul_nonpos_of_nonpos_of_nonneg (by exact_mod_cast (by omega)) (le_of_lt hpos)
  · intro hpos
    rw [expMinX, expMaxX, hcx]
    refine ⟨?_, ?_⟩
    · exact mul_nonpos_of_nonpos_of_nonneg (by exact_mod_cast (by omega)) (le_of_lt hpos)
    · exact mul_nonpos_of_nonpos_of_nonneg (by exact_mod_cast (by omega)) (le_of_lt hpos)

set_option maxRecDepth 100000 in
/-- Witness of `updateWireLengthForceWA_maxY_argument`: the pin `1` at `(3, 1024)` of
the net of `tallNet`, whose box is `3..3 x 0..1024`, with both coefficients `1`: the
stored `maxExpSumY` of the pin is `fastExp 1024 = 1`, from `cy - ly = 1024`, not
`fastExp 0 = 0`, which `cy - uy = 0` would give. -/
theorem updateWireLengthForceWA_maxY_argument_witness :
    ((tallNet.updateWireLengthForceWA 1 1).gNetStor.map
        (fun n => (n.lx, n.ly, n.ux, n.uy)) = [(3, 0, 3, 1024)] ∧
      (tallNet.updateWireLengthForceWA 1 1).gPinStor.map
        (fun q => (q.cx, q.cy, q.hasMaxExpSumY, q.maxExpSumY)) =
        [(3, 0, true, 0), (3, 1024, true, 1)] ∧
      (fastExp 1024, fastExp 0) = (1, 0)) ∧
    ∃ n pin, (tallNet.updateWireLengthForceWA 1 1).gNetStor.get? 0 = some n ∧
      pin = pinAt (tallNet.updateWireLengthForceWA 1 1).gPinStor 1 ∧
      (pin.cx = (pinAt tallNet.gPinStor 1).cx ∧ pin.cy = (pinAt tallNet.gPinStor 1).cy) ∧
      (n.lx ≤ pin.cx ∧ pin.cx ≤ n.ux ∧ n.ly ≤ pin.cy ∧ pin.cy ≤ n.uy) ∧
      expMaxY n pin 1 = ((pin.cy - n.ly : Int) : ℚ) * 1 ∧
      expMaxX n pin 1 = ((pin.cx - n.ux : Int) : ℚ) * 1 ∧
      (((pin.cy - n.ly : Int) : ℚ) * 1 > tallNet.nbVars.minWireLengthForceBar →
        pin.hasMaxExpSumY = true ∧
        pin.maxExpSumY = fastExp (((pin.cy - n.ly : Int) : ℚ) * 1)) ∧
      (((pin.cx - n.ux : Int) : ℚ) * 1 > tallNet.nbVars.minWireLengthForceBar →
        pin.hasMaxExpSumX = true ∧
        pin.maxExpSumX = fastExp (((pin.cx - n.ux : Int) : ℚ) * 1)) ∧
      ((0 : ℚ) < 1 →
        0 ≤ expMaxY n pin 1 ∧ (n.ly < pin.cy → 0 < expMaxY n pin 1) ∧
        expMinY n pin 1 ≤ 0 ∧ ((pin.cy - n.uy : Int) : ℚ) * 1 ≤ 0) ∧
      ((0 : ℚ) < 1 → expMinX n pin 1 ≤ 0 ∧ expMaxX n pin 1 ≤ 0) :=
  ⟨⟨by with_unfolding_all rfl, by with_unfolding_all rfl, by with_unfolding_all rfl⟩,
    updateWireLengthForceWA_maxY_argument tallNet 1 1 (by decide) (by decide) 0
      { gPins := [0, 1] } rfl 1 (by decide)⟩


/-- C31 as stated fails: on `wideNet` (pins at `(0, 0)` and `(5, 0)`, net box
`0..5 x 0..0`) with `wlCoeffY = 1`, positive, and `wlCoeffX = -1` the four arguments
(min-X, max-X, min-Y, max-Y) are `(0, 5, 0, 0)` for the first pin and `(5, 0, 0, 0)`
for the second: an X argument is `5 > 0`. -/
theorem updateWireLengthForceWA_negative_coeffX :
    (0 : ℚ) < 1 ∧
    (wideNet.updateWireLengthForceWA (-1) 1).gNetStor.map
        (fun n => (n.lx, n.ly, n.ux, n.uy)) = [(0, 0, 5, 0)] ∧
    (wideNet.updateWireLengthForceWA (-1) 1).gNetStor.map (fun n => n.gPins.map (fun p =>
        (expMinX n (pinAt (wideNet.updateWireLengthForceWA (-1) 1).gPinStor p) (-1),
         expMaxX n (pinAt (wideNet.updateWireLengthForceWA (-1) 1).gPinStor p) (-1),
         expMinY n (pinAt (wideNet.updateWireLengthForceWA (-1) 1).gPinStor p) 1,
         expMaxY n (pinAt (wideNet.updateWireLengthForceWA (-1) 1).gPinStor p) 1))) =
      [[(0, 5, 0, 0), (5, 0, 0, 0)]] := by
  refine ⟨by norm_num, ?_, ?_⟩
  · with_unfolding_all rfl
  · with_unfolding_all rfl

/-! ## The `float` operations beyond 24 significant bits -/

/-- The bin size of a core of width `2^24 + 1` with two bin columns: the width is
rounded to `2^24` when it is converted to `float`, so the bin size is `8388608`, one
less than the exact ceiling, the two columns do not cover the core, and the loop of
`initBins` writes a third bin of the first row at `x = 16777216` where the first bin
of the second row belongs; the grid is not regular. -/
theorem initBins_wide_core :
    floatOfInt 16777217 = ⟨8388608 * 2, 1⟩ ∧
    binSizeOf 16777217 2 = 8388608 ∧ ceilDiv 16777217 2 = 8388609 ∧
    (do
      let g ← (BinGrid.configure (userBinCnt 2 2) wideCore).initBinCnt wideCore
      pure (g.binSizeX, g.binSizeY, decide (RegularGrid g))) =
      Except.ok (8388608, 2, false) ∧
    (do
      let g ← (BinGrid.configure (userBinCnt 2 2) wideCore).initBins wideCore
      pure (g.bins.map Bin.box)) =
      Except.ok
        [(0, 0, 8388608, 2), (8388608, 0, 16777216, 2), (16777216, 0, 16777217, 2),
         (0, 2, 8388608, 4)] := by
  refine ⟨rfl, rfl, rfl, rfl, rfl⟩

/-- The filler area of a core of area `2^24 + 1` that the placeable instances fill: at
target density one the `float` product is `2^24`, so `totalFillerArea` is `-1` and
`initFillerGCells` stops with the error, where the exact product gives `0`. -/
theorem totalFillerArea_filled_core :
    filledCore.coreDx * filledCore.coreDy - filledCore.nonPlaceInstsArea = 16777217 ∧
    totalFillerArea {} filledCore = -1 ∧
    initFillerGCells {} filledCore (fun k => 7 * k + 3) = .error .fillerAreaNegative := by
  refine ⟨rfl, rfl, rfl⟩

end replace
